import Mathlib

/-!
# Lifecycle executor of the stack deployment tool: embedding and properties

The Go packages `hub/util`, `hub/manifest`, `hub/lifecycle` and `hub/cmd` are
embedded as pure Lean functions.  Go strings are Lean strings, Go slices are
lists, and a Go `map[string]V` is the list of its entries (`GoMap`), iterated
in list order: Go leaves the iteration order of a map open, and the theorems
hold for every list, hence for every order.  Positions in a string count
characters; the code searches for ASCII separators only, where a position in
bytes and a position in characters cut a string at the same place.  Logging
(`log.Printf`, `util.Warn`) has no effect on the values computed and is left
out.
-/

namespace Hub

/-! ## Go maps -/

/-- A Go `map[string]V` as the list of its entries. -/
abbrev GoMap (α : Type) := List (String × α)

namespace GoMap

/-- The lookup `v, exist := m[k]`: `none` when the key is absent. -/
def get {α : Type} : GoMap α → String → Option α
  | [], _ => none
  | (k', v) :: rest, k => if k' = k then some v else get rest k

/-- The assignment `m[k] = v`. -/
def set {α : Type} : GoMap α → String → α → GoMap α
  | [], k, v => [(k, v)]
  | (k', v') :: rest, k, v => if k' = k then (k, v) :: rest else (k', v') :: set rest k v

/-- The keys of the map, in iteration order. -/
def keys {α : Type} (m : GoMap α) : List String := m.map Prod.fst

/-- A list of entries is a map when no key occurs twice. -/
def WellFormed {α : Type} (m : GoMap α) : Prop := (keys m).Nodup

instance {α : Type} (m : GoMap α) : Decidable (WellFormed m) := by
  unfold WellFormed; infer_instance

end GoMap

/-! ## Go standard library: package `unicode` -/

namespace unicode

/-- `unicode.IsSpace`: the characters with the Unicode property White Space. -/
def IsSpace (c : Char) : Bool :=
  c.toNat = 0x09 || c.toNat = 0x0A || c.toNat = 0x0B || c.toNat = 0x0C || c.toNat = 0x0D ||
    c.toNat = 0x20 || c.toNat = 0x85 || c.toNat = 0xA0 || c.toNat = 0x1680 ||
    (0x2000 ≤ c.toNat && c.toNat ≤ 0x200A) || c.toNat = 0x2028 || c.toNat = 0x2029 ||
    c.toNat = 0x202F || c.toNat = 0x205F || c.toNat = 0x3000

end unicode

/-! ## Go standard library: package `strings`

Positions count characters.  The separators searched for below (`:`, `.`) are
ASCII, so cutting a string at such a position yields the same pieces as
cutting at the byte position Go computes. -/

namespace strings

/-- `strings.Index(s, sep)` for a separator of one character: the position of
its first occurrence, `-1` when it does not occur. -/
def Index (s : String) (sep : Char) : Int :=
  if sep ∈ s.toList then (s.toList.indexOf sep : Int) else -1

/-- `strings.Contains(s, sep)` for a separator of one character. -/
def Contains (s : String) (sep : Char) : Bool := decide (sep ∈ s.toList)

/-- `strings.Join(list, sep)`. -/
def Join (list : List String) (sep : String) : String := sep.intercalate list

/-- `strings.HasPrefix(s, prefix)`. -/
def HasPrefix (s pre : String) : Bool := pre.toList.isPrefixOf s.toList

/-- `strings.TrimSpace(s)`: `s` without its leading and trailing white space,
as `unicode.IsSpace` defines it. -/
def TrimSpace (s : String) : String :=
  String.mk ((s.toList.dropWhile unicode.IsSpace).reverse.dropWhile unicode.IsSpace).reverse

/-- The slice expression `s[i:]`. -/
def sliceFrom (s : String) (i : Nat) : String := String.mk (s.toList.drop i)

/-- The slice expression `s[:i]`. -/
def sliceTo (s : String) (i : Nat) : String := String.mk (s.toList.take i)

/-- The search of `strings.Index(s, substr)` from position `i` on: the position
of the first occurrence of `substr`, or -1. -/
def IndexString.loop (substr : List Char) : List Char → Nat → Int
  | [], i => if substr = [] then (i : Int) else -1
  | c :: rest, i =>
    if substr.isPrefixOf (c :: rest) then (i : Int) else IndexString.loop substr rest (i + 1)

/-- `strings.Index(s, substr)`: the position of the first occurrence of `substr`
in `s`, or -1 if there is none. -/
def IndexString (s substr : String) : Int := IndexString.loop substr.toList s.toList 0

/-- `strings.Contains(s, substr)`, which is `Index(s, substr) >= 0`. -/
def ContainsString (s substr : String) : Bool := decide (IndexString s substr ≥ 0)

/-- `strings.SplitN(s, sep, 2)` for a separator of one character: the string
itself when the separator does not occur, else the part before its first
occurrence and the part after it. -/
def SplitN2 (s : String) (sep : Char) : List String :=
  if sep ∈ s.toList then
    [String.mk (s.toList.takeWhile (fun c => decide (c ≠ sep))),
      String.mk ((s.toList.dropWhile (fun c => decide (c ≠ sep))).drop 1)]
  else [s]

end strings

/-! ## Package `util` -/

namespace util

/-- `util.Tuple2`, the pair of strings built as `util.Tuple2{req, provider}` and
read as `setup.S1`, `setup.S2` (requirement.go 52, 57). -/
structure Tuple2 where
  S1 : String
  S2 : String
  deriving DecidableEq, Repr

/-- `util.Contains` (util.go 191-198). -/
def Contains : List String → String → Bool
  | [], _ => false
  | v :: rest, value => if v = value then true else Contains rest value

/-- `util.Omit` (util.go 232-240). -/
def Omit : List String → String → List String
  | [], _ => []
  | v :: rest, value => if v ≠ value then v :: Omit rest value else Omit rest value

/-- `util.AppendMapList` (util.go 147-153). -/
def AppendMapList (m : GoMap (List String)) (key value : String) : GoMap (List String) :=
  match m.get key with
  | some list => m.set key (list ++ [value])
  | none => m.set key [value]

/-- The two slices `util.Reverse` works on: the argument it ranges over and the
slice it allocates and returns. -/
structure ReverseMem where
  source : List String
  reversed : List String
  deriving DecidableEq, Repr

/-- One iteration of the loop of `util.Reverse`: `reversed[l-i-1] = str`,
where `str` is `source[i]`. -/
def ReverseStep (l : Nat) (mem : ReverseMem) (i : Nat) : ReverseMem :=
  { mem with reversed := mem.reversed.set (l - i - 1) (mem.source.getD i "") }

/-- The body of `util.Reverse` (util.go 155-162) on both slices:
`reversed := make([]string, l)` and then the loop over `0 .. l-1`. -/
def ReverseRun (source : List String) : ReverseMem :=
  (List.range source.length).foldl (ReverseStep source.length)
    { source := source, reversed := List.replicate source.length "" }

/-- `util.Reverse`: the slice returned. -/
def Reverse (source : List String) : List String := (ReverseRun source).reversed

/-- The loop of `util.Index`, `i` being the index of the head of the list. -/
def IndexLoop (search : String) : List String → Nat → Int
  | [], _ => -1
  | value :: rest, i => if search = value then (i : Int) else IndexLoop search rest (i + 1)

/-- `util.Index` (util.go 262-273). -/
def Index (list : List String) (search : String) : Int :=
  if search ≠ "" then IndexLoop search list 0 else -1

/-- `util.PlainName` (util.go 429-438). -/
def PlainName (name : String) : String :=
  if name = "" then ""
  else
    let i := strings.Index name ':'
    if i > 0 then strings.sliceTo name i.toNat else name

/-- The loop of `util.UniqInOrder`; `seen` is the set of the strings met. -/
def UniqInOrderLoop : List String → GoMap Unit → List String → List String
  | [], _, result => result
  | str :: rest, seen, result =>
    if (seen.get str).isNone then UniqInOrderLoop rest (seen.set str ()) (result ++ [str])
    else UniqInOrderLoop rest seen result

/-- `util.UniqInOrder` (util.go 179-189). -/
def UniqInOrder (source : List String) : List String := UniqInOrderLoop source [] []

/-- `util.Errors` (util.go 81-95); a `nil` error is `none`, another one is its
message. -/
def Errors (sep : String) (maybeErrors : List (Option String)) : String :=
  let sep := if sep = "" then ", " else sep
  let errs := maybeErrors.filterMap id
  if errs.length = 0 then "(no errors)" else strings.Join (UniqInOrder errs) sep

/-- Modelled from the spec: `util.MaybeFatalf2` is defined in a file that is not
among the sources.  Spec §4.7 and §4.1 step l: a failed mandatory component
aborts the operation unless the force flag is set, which downgrades the
failure to a warning; the failure is recorded in the state in both cases, as
final only when the run is aborted.  The result holds what the cleanup
returned and the message the process dies with, if it does. -/
def MaybeFatalf2 {α : Type} (Force : Bool) (cleanup : Option (String → Bool → List α))
    (msg : String) : List α × Option String :=
  if Force then
    (match cleanup with
      | some f => f msg false
      | none => [], none)
  else
    (match cleanup with
      | some f => f msg true
      | none => [], some msg)

/-- One iteration of the loop of `util.TrimColor` (util.go 337-348). -/
def TrimColor.step (str : String) : String :=
  let colors := "\x1B["
  let start := strings.IndexString str colors
  let endIndex := strings.Index (strings.sliceFrom str (start.toNat + 1)) 'm'
  let endIndex :=
    if endIndex ≠ -1 then endIndex + (start + 1) else start + (colors.length : Int) - 1
  if endIndex < (str.length : Int) then
    strings.sliceTo str start.toNat ++ strings.sliceFrom str (endIndex.toNat + 1)
  else strings.sliceTo str start.toNat

/-- `util.TrimColor` (util.go 334-351); the loop makes at most `fuel` tests of
its condition, and `none` is the loop that has not ended by then. -/
def TrimColor : Nat → String → Option String
  | 0, _ => none
  | fuel + 1, str =>
    if strings.ContainsString str "\x1B[" then TrimColor fuel (TrimColor.step str)
    else some str

/-- `util.SplitQName` (util.go 440-449). -/
def SplitQName (qName : String) : String × String :=
  let parts := strings.SplitN2 qName '|'
  if parts.length > 1 then (parts.getD 0 "", parts.getD 1 "") else (qName, "")

end util

/-! ## Package `manifest` -/

namespace manifest

/-- `manifest.RequiresTuning` (types.go 44-46). -/
structure RequiresTuning where
  Optional : List String := []
  deriving DecidableEq, Repr

/-- `manifest.ReadyCondition` (types.go 48-53). -/
structure ReadyCondition where
  DNS : String := ""
  URL : String := ""
  WaitSeconds : Int := 0
  PauseSeconds : Int := 0
  deriving DecidableEq, Repr

/-- `manifest.Lifecycle` (types.go 61-70); `Options` holds `Random.Bytes` when set. -/
structure Lifecycle where
  Bare : String := ""
  Verbs : List String := []
  Order : List String := []
  Mandatory : List String := []
  Optional : List String := []
  Requires : RequiresTuning := {}
  ReadyConditions : List ReadyCondition := []
  Options : Option (Option Int) := none
  deriving DecidableEq, Repr

/-- `manifest.Metadata` (types.go 18-31), without the source location. -/
structure Metadata where
  Name : String := ""
  Origin : String := ""
  Kind : String := ""
  Title : String := ""
  Brief : String := ""
  Description : String := ""
  Version : String := ""
  Maturity : String := ""
  Icon : String := ""
  FromStack : String := ""
  Annotations : GoMap String := []
  deriving DecidableEq, Repr

/-- `manifest.Manifest` (types.go 114-131): the fields the lifecycle functions
below read. -/
structure Manifest where
  Version : Int := 0
  Kind : String := ""
  Meta : Metadata := {}
  Requires : List String := []
  Provides : List String := []
  Lifecycle : Lifecycle := {}
  Document : String := ""
  deriving DecidableEq, Repr

/-- `manifest.ComponentRef` (types.go 37-42), without the source location. -/
structure ComponentRef where
  Name : String := ""
  Depends : List String := []
  Annotations : GoMap String := []
  deriving DecidableEq, Repr

/-- `manifest.ParameterQualifiedName` (types.go 152-157). -/
def ParameterQualifiedName (name component : String) : String :=
  if component ≠ "" then name ++ "|" ++ component else name

end manifest

/-! ## Packages `parameters` and `state`

Neither package is among the sources; the types the lifecycle functions read
are declared here from the data model of the spec. -/

namespace parameters

/-- Modelled from the spec: `parameters.LockedParameter` is declared in package
`parameters`, which is not among the sources.  Spec §3: a locked parameter is
`(name, component?, value, env?)`; the code reads exactly these four fields. -/
structure LockedParameter where
  Name : String := ""
  Component : String := ""
  Value : String := ""
  Env : String := ""
  deriving DecidableEq, Repr

/-- Modelled from the spec: `LockedParameter.QName` is defined in package
`parameters`, which is not among the sources.  Spec §3: the fully-qualified
name is `name|component` when the component is set, else `name`, as
`manifest.Parameter.QName` (types.go 148-150) computes it. -/
def LockedParameter.QName (p : LockedParameter) : String :=
  manifest.ParameterQualifiedName p.Name p.Component

/-- Modelled from the spec: `parameters.LockedParameters` is declared in package
`parameters`, which is not among the sources.  Spec §3: the mapping from
qualified name to locked parameter, used as such in deploy.go 500-507. -/
abbrev LockedParameters := GoMap LockedParameter

end parameters

namespace state

/-- Modelled from the spec: the per-component block of the state manifest,
declared in package `state`, which is not among the sources.  Spec §3: the
block holds the component status and the last message. -/
structure StateStep where
  Status : String := ""
  Message : String := ""
  deriving DecidableEq, Repr

/-- Modelled from the spec: `state.StateManifest` is declared in package
`state`, which is not among the sources.  Spec §3: lifecycle order, a block
per component, the aggregate stack status and message, and the stack
parameters (deploy.go 110, 168, 178). -/
structure StateManifest where
  Order : List String := []
  Components : GoMap StateStep := []
  Status : String := ""
  Message : String := ""
  StackParameters : List parameters.LockedParameter := []
  deriving DecidableEq, Repr

/-- The calls `Execute` makes on the state manifest and on the state writer
(deploy.go 240-249, 310-323, 333-336, 387-393, 410-415), each with the
arguments that `Execute` passes besides the manifest, the parameters and the
outputs.  The functions are defined in package `state`, which is not among
the sources. -/
inductive Call where
  | UpdateComponentStatus (componentName status message : String)
  | UpdatePhase (operationLogId componentName status : String)
  | UpdateStackStatus (status message : String)
  | UpdateOperation (operationLogId verb status : String)
  | UpdateState (componentName : String) (final : Bool)
  | AppendOperationLog (operationLogId text : String)
  | stateUpdater
  | stateUpdaterSync
  deriving DecidableEq, Repr

end state

/-! ## Package `lifecycle` -/

namespace lifecycle

/-- `optionalComponent` (deploy.go 483-486). -/
def optionalComponent (lifecycle : manifest.Lifecycle) (componentName : String) : Bool :=
  (decide (lifecycle.Mandatory.length > 0) && !util.Contains lifecycle.Mandatory componentName) ||
    util.Contains lifecycle.Optional componentName

/-- `providedByEnv` (requirement.go 17). -/
def providedByEnv : String := "*environment*"

/-- Functions of the repository that the functions below call and that are
defined in files outside the sources at hand; each is taken as a parameter. -/
structure External where
  ComponentQualifiedNameFromMeta : manifest.Metadata → String
  SprintDeps : GoMap (List String) → String

/-- What `prepareComponentRequires` returns, `optionalNotProvided` and `err`,
together with the calls `setupRequirement(setup.S1, setup.S2, ...)` it made. -/
structure RequiresResult where
  optionalNotProvided : List String
  err : Option String
  setupCalls : List util.Tuple2
  deriving DecidableEq, Repr

/-- The loop of `prepareComponentRequires` over `componentManifest.Requires`
(requirement.go 27-53) followed by lines 55-60. -/
def prepareRequiresLoop (ext : External) (provided : GoMap (List String))
    (componentManifest : manifest.Manifest) (maybeOptional : GoMap (List String))
    (componentName : String) :
    List String → List util.Tuple2 → List String → RequiresResult
  | [], setups, optionalNotProvided =>
    { optionalNotProvided := optionalNotProvided
      err := none
      setupCalls := if optionalNotProvided.length = 0 then setups else [] }
  | req :: rest, setups, optionalNotProvided =>
    let exist := (provided.get req).isSome
    let by' := (provided.get req).getD []
    if !exist || by'.length = 0 then
      let optional :=
        match maybeOptional.get req with
        | some optionalFor =>
          util.Contains optionalFor componentName || util.Contains optionalFor "*"
        | none => false
      if optional then
        prepareRequiresLoop ext provided componentManifest maybeOptional componentName
          rest setups (optionalNotProvided ++ [req])
      else
        { optionalNotProvided := optionalNotProvided
          err := some ("Component `" ++ componentName ++ "` requires `" ++
            strings.Join componentManifest.Requires ", " ++
            "` but only following provides are currently known:\n" ++
            ext.SprintDeps provided)
          setupCalls := [] }
    else
      let provider := by'.getLastD ""
      prepareRequiresLoop ext provided componentManifest maybeOptional componentName
        rest (setups ++ [{ S1 := req, S2 := provider }]) optionalNotProvided

/-- `prepareComponentRequires` (requirement.go 19-61).  The locked parameters
and captured outputs are only handed on to `setupRequirement`. -/
def prepareComponentRequires (ext : External) (provided : GoMap (List String))
    (componentManifest : manifest.Manifest) (maybeOptional : GoMap (List String)) :
    RequiresResult :=
  let componentName := ext.ComponentQualifiedNameFromMeta componentManifest.Meta
  prepareRequiresLoop ext provided componentManifest maybeOptional componentName
    componentManifest.Requires [] []

/-- `noEnvironmentProvides` (requirement.go 139-150). -/
def noEnvironmentProvides (provides : GoMap (List String)) : GoMap (List String) :=
  provides.foldl
    (fun filtered entry =>
      let p := entry.1
      let by' := entry.2
      let by' := if util.Contains by' providedByEnv then util.Omit by' providedByEnv else by'
      if by'.length > 0 then filtered.set p by' else filtered)
    []

/-- `parseRequiresTunning` (requirement.go 152-165). -/
def parseRequiresTunning (requires : manifest.RequiresTuning) : GoMap (List String) :=
  requires.Optional.foldl
    (fun optional req =>
      let i := strings.Index req ':'
      if i > 0 ∧ i < (req.length : Int) - 1 then
        let component := strings.sliceFrom req (i.toNat + 1)
        let req := strings.sliceTo req i.toNat
        util.AppendMapList optional req component
      else if i = -1 then
        util.AppendMapList optional req "*"
      else optional)
    []

/-- The reading of one `requires.optional` entry that the specification gives:
an entry `req:component`, split at the first `:` with both parts non-empty,
makes `req` optional for `component`; an entry without `:` makes the whole entry
optional for the wildcard `*`.  An entry whose first `:` is its first or its
last character has no reading. -/
def specOptionalEntry (entry : String) : Option (String × String) :=
  if ':' ∈ entry.toList then
    let req := entry.toList.takeWhile (fun c => decide (c ≠ ':'))
    let component := (entry.toList.dropWhile (fun c => decide (c ≠ ':'))).drop 1
    if req ≠ [] ∧ component ≠ [] then some (String.mk req, String.mk component) else none
  else some (entry, "*")

/-- `falseParameterValues` (requirement.go 167). -/
def falseParameterValues : List String := ["", "false", "0", "no", "(unknown)"]

/-- The innermost loop of `calculateOptionalFalseParameters`, over the
parameters (requirement.go 176-187); the state is `parameterExists` and
`falseParameters`. -/
def falseParametersOfTerm (componentName term : String) :
    List (String × parameters.LockedParameter) → Bool → List String → Bool × List String
  | [], parameterExists, falseParameters => (parameterExists, falseParameters)
  | (_, p) :: rest, parameterExists, falseParameters =>
    if p.Name = term ∧ (p.Component = "" ∨ p.Component = componentName) then
      if util.Contains falseParameterValues p.Value then
        falseParametersOfTerm componentName term rest true (falseParameters ++ [p.QName])
      else
        falseParametersOfTerm componentName term rest true falseParameters
    else
      falseParametersOfTerm componentName term rest parameterExists falseParameters

/-- The loop over `optionalForList` (requirement.go 173-192). -/
def falseParametersOfList (componentName : String) (params : parameters.LockedParameters)
    (term : String) :
    List String → List String → List String
  | [], falseParameters => falseParameters
  | optionalFor :: rest, falseParameters =>
    if optionalFor = "*" ∨ optionalFor = componentName then
      let r := falseParametersOfTerm componentName term params false falseParameters
      let parameterExists := r.1
      let falseParameters := r.2
      if !parameterExists ∧ optionalFor ≠ "*" then
        falseParametersOfList componentName params term rest (falseParameters ++ [term])
      else
        falseParametersOfList componentName params term rest falseParameters
    else
      falseParametersOfList componentName params term rest falseParameters

/-- The outer loop over `optionalRequires` (requirement.go 171-194). -/
def falseParametersLoop (componentName : String) (params : parameters.LockedParameters) :
    List (String × List String) → List String → List String
  | [], falseParameters => falseParameters
  | (term, optionalForList) :: rest, falseParameters =>
    if strings.Contains term '.' then
      falseParametersLoop componentName params rest
        (falseParametersOfList componentName params term optionalForList falseParameters)
    else
      falseParametersLoop componentName params rest falseParameters

/-- `calculateOptionalFalseParameters` (requirement.go 169-196). -/
def calculateOptionalFalseParameters (componentName : String) (params : parameters.LockedParameters)
    (optionalRequires : GoMap (List String)) : List String :=
  falseParametersLoop componentName params optionalRequires []

/-- `HubEnvVarNameComponentName` (deploy.go 20). -/
def HubEnvVarNameComponentName : String := "HUB_COMPONENT"

/-- Modelled from the spec: `lifecycle.Request` is declared in a file that is
not among the sources.  Spec §4.1: verb, component selection, offset
component, limit component, strict-parameters, dry-run, git-outputs and
guess-component flags; the field names are those `Execute` reads. -/
structure Request where
  Verb : String := ""
  Components : List String := []
  OffsetComponent : String := ""
  LimitComponent : String := ""
  GuessComponent : Bool := false
  StrictParameters : Bool := false
  DryRun : Bool := false
  GitOutputs : Bool := false
  LoadFinalState : Bool := false
  StateFilenames : List String := []
  deriving DecidableEq, Repr

/-- The guess loop of `Execute` (deploy.go 177-189) over the traversal order,
`i` being the index of the head: the component assigned to
`request.OffsetComponent`, if any. -/
def Execute.guessOffset (components : GoMap state.StateStep) : List String → Nat → Option String
  | [], _ => none
  | component :: rest, i =>
    if (components.get component).isSome then
      if i = 0 then none else some component
    else Execute.guessOffset components rest (i + 1)

/-- What `Execute` has fixed when it enters the loop over the components:
the traversal order, the offset component after the guess, and the indices of
the offset and limit components (deploy.go 166-199). -/
structure Execute.Traversal where
  order : List String
  OffsetComponent : String
  offsetGuessed : Bool
  offsetComponentIndex : Int
  limitComponentIndex : Int
  deriving DecidableEq, Repr

/-- The part of `Execute` that computes the traversal (deploy.go 23-25 and
166-199) from the request, `stackManifest.Lifecycle.Order` and the state
manifest as it stands at line 166; `log.Fatalf` is the error. -/
def Execute.traversal (request : Request) (lifecycleOrder : List String)
    (stateManifest : Option state.StateManifest) : Except String Execute.Traversal :=
  let isUndeploy := strings.HasPrefix request.Verb "undeploy"
  let isSomeComponents :=
    decide (request.Components.length > 0) || decide (request.OffsetComponent ≠ "")
  let order := if isUndeploy then util.Reverse lifecycleOrder else lifecycleOrder
  let guessed : Option String :=
    match stateManifest with
    | some st =>
      if isUndeploy && request.GuessComponent && !isSomeComponents then
        Execute.guessOffset st.Components order 0
      else none
    | none => none
  let OffsetComponent := guessed.getD request.OffsetComponent
  let offsetGuessed := guessed.isSome
  let offsetComponentIndex := util.Index order OffsetComponent
  let limitComponentIndex := util.Index order request.LimitComponent
  if offsetComponentIndex ≥ 0 ∧ limitComponentIndex ≥ 0 ∧
      limitComponentIndex < offsetComponentIndex ∧ offsetGuessed = false then
    Except.error ("Specified --limit " ++ request.LimitComponent ++ " (" ++
      toString limitComponentIndex ++ ") is before specified --offset " ++ OffsetComponent ++
      " (" ++ toString offsetComponentIndex ++ ") in component order")
  else
    Except.ok
      { order := order
        OffsetComponent := OffsetComponent
        offsetGuessed := offsetGuessed
        offsetComponentIndex := offsetComponentIndex
        limitComponentIndex := limitComponentIndex }

/-- The selection test at the head of the loop of `Execute` (deploy.go
212-214): the component is passed over. -/
def Execute.skip (request : Request) (t : Execute.Traversal) (componentIndex : Nat)
    (componentName : String) : Bool :=
  (decide (request.Components.length > 0) && !util.Contains request.Components componentName) ||
    (decide (t.offsetComponentIndex ≥ 0) &&
      decide ((componentIndex : Int) < t.offsetComponentIndex)) ||
    (decide (t.limitComponentIndex ≥ 0) &&
      decide ((componentIndex : Int) > t.limitComponentIndex))

/-- The components the loop of `Execute` does not pass over (deploy.go
211-219), in the order it visits them. -/
def Execute.selectedFrom (request : Request) (t : Execute.Traversal) :
    List String → Nat → List String
  | [], _ => []
  | componentName :: rest, componentIndex =>
    if Execute.skip request t componentIndex componentName then
      Execute.selectedFrom request t rest (componentIndex + 1)
    else
      componentName :: Execute.selectedFrom request t rest (componentIndex + 1)

/-- The components visited by the loop of `Execute`. -/
def Execute.selected (request : Request) (t : Execute.Traversal) : List String :=
  Execute.selectedFrom request t t.order 0

/-- The traversal `Execute` has computed when it reaches the check of the
limit against the offset (deploy.go 166-194). -/
def Execute.beforeCheck (request : Request) (lifecycleOrder : List String)
    (stateManifest : Option state.StateManifest) : Execute.Traversal :=
  let isUndeploy := strings.HasPrefix request.Verb "undeploy"
  let isSomeComponents :=
    decide (request.Components.length > 0) || decide (request.OffsetComponent ≠ "")
  let order := if isUndeploy then util.Reverse lifecycleOrder else lifecycleOrder
  let guessed : Option String :=
    match stateManifest with
    | some st =>
      if isUndeploy && request.GuessComponent && !isSomeComponents then
        Execute.guessOffset st.Components order 0
      else none
    | none => none
  let OffsetComponent := guessed.getD request.OffsetComponent
  let offsetGuessed := guessed.isSome
  { order := order
    OffsetComponent := OffsetComponent
    offsetGuessed := offsetGuessed
    offsetComponentIndex := util.Index order OffsetComponent
    limitComponentIndex := util.Index order request.LimitComponent }

/-- The loop of `Execute` over `stateManifest.StackParameters` (deploy.go
110-115): the value of the first parameter named `hub.deploymentId`. -/
def Execute.stateDeploymentId : List parameters.LockedParameter → String
  | [] => ""
  | p :: rest => if p.Name = "hub.deploymentId" then p.Value else Execute.stateDeploymentId rest

/-- The deployment id `Execute` settles on, and whether it called
`uuid.NewRandom` for it. -/
structure Execute.DeploymentId where
  deploymentId : String
  generated : Bool
  deriving DecidableEq, Repr

/-- The deployment id of the operation (deploy.go 107-123); `random` is what
`uuid.NewRandom` returns when it is called, and `log.Fatalf` is the error. -/
def Execute.deploymentId (stateManifest : Option state.StateManifest)
    (random : Except String String) : Except String Execute.DeploymentId :=
  let deploymentId :=
    match stateManifest with
    | some m => Execute.stateDeploymentId m.StackParameters
    | none => ""
  if deploymentId = "" then
    match random with
    | Except.error err =>
      Except.error ("Unable to generate `hub.deploymentId` random v4 UUID: " ++ err)
    | Except.ok u => Except.ok { deploymentId := u, generated := true }
  else Except.ok { deploymentId := deploymentId, generated := false }

/-- `addLockedParameter` (deploy.go 499-509). -/
def addLockedParameter (params : parameters.LockedParameters) (name env value : String) :
    parameters.LockedParameters :=
  match params.get name with
  | some p =>
    if p.Value = "" then
      params.set name
        { Name := name, Value := value, Env := if p.Env ≠ "" then p.Env else env }
    else params
  | none => params.set name { Name := name, Value := value, Env := env }

/-- What is fixed while `Execute` loops over the components: the flag
`config.Force`, the request, `stackManifest.Lifecycle`, the optional requires,
whether there is a state manifest, the id of the operation, `len(order)`, and
the functions `mergeProvides` and `formatStdoutStderr`, which are defined in
files that are not among the sources. -/
structure Execute.Env where
  ext : External
  Force : Bool
  request : Request
  Lifecycle : manifest.Lifecycle
  optionalRequires : GoMap (List String)
  hasState : Bool
  operationLogId : String
  orderLength : Nat
  mergeProvides : GoMap (List String) → String → List String → GoMap (List String)
  formatStdoutStderr : String → String → String

/-- What the collaborators of `Execute` outside the sources return while one
component is processed: the component reference and manifest, the merged
parameters and the errors of `parameters.ExpandParameters`, what `delegate`
returns, the errors and dynamic provides of `captureOutputs`, and the error of
`waitForReadyConditions`. -/
structure Execute.ComponentRun where
  component : manifest.ComponentRef := {}
  componentManifest : manifest.Manifest := {}
  allParameters : parameters.LockedParameters := []
  expansionErrs : List String := []
  delegateErr : Option String := none
  stdout : String := ""
  stderr : String := ""
  captureErrs : List String := []
  dynamicProvides : List String := []
  readyErr : Option String := none
  deriving DecidableEq, Repr

/-- The variables the loop of `Execute` changes, together with a record of what
it did: `failedComponents`, `provides`, the calls on the state manifest, the
calls of `maybeFatalIfMandatory` (component and message), the components
handed to `delegate`, and the message of `log.Fatalf` once the process has
died. -/
structure Execute.LoopState where
  failedComponents : List String := []
  provides : GoMap (List String) := []
  stateCalls : List state.Call := []
  failures : List (String × String) := []
  delegated : List String := []
  fatal : Option String := none
  deriving DecidableEq, Repr

/-- The closure `updateStateComponentFailed` of `Execute` (deploy.go 240-250):
the calls it makes. -/
def Execute.updateStateComponentFailed (env : Execute.Env) (componentName : String)
    (msg : String) (final : Bool) : List state.Call :=
  [state.Call.UpdateComponentStatus componentName "error" msg,
    state.Call.UpdatePhase env.operationLogId componentName "error"] ++
  (if !env.Force && !optionalComponent env.Lifecycle componentName then
    [state.Call.UpdateStackStatus "incomplete" msg] else []) ++
  (if final then [state.Call.UpdateOperation env.operationLogId env.request.Verb "error"]
    else []) ++
  [state.Call.stateUpdater]

/-- `maybeFatalIfMandatory` (deploy.go 488-497): what the cleanup returned, and
the message the process dies with, if it does. -/
def maybeFatalIfMandatory {α : Type} (Force : Bool) (lifecycle : manifest.Lifecycle)
    (componentName : String) (msg : String) (cleanup : Option (String → Bool → List α)) :
    List α × Option String :=
  if optionalComponent lifecycle componentName then
    (match cleanup with
      | some f => f msg false
      | none => [], none)
  else util.MaybeFatalf2 Force cleanup msg

/-- A call `maybeFatalIfMandatory(&stackManifest.Lifecycle, componentName, msg,
updateStateComponentFailed)` in the loop of `Execute`; the cleanup is `nil`
when there is no state manifest (deploy.go 238-251). -/
def Execute.failComponent (env : Execute.Env) (componentName msg : String)
    (s : Execute.LoopState) : Execute.LoopState :=
  let cleanup :=
    if env.hasState then some (Execute.updateStateComponentFailed env componentName) else none
  let r := maybeFatalIfMandatory env.Force env.Lifecycle componentName msg cleanup
  { s with
    stateCalls := s.stateCalls ++ r.1
    failures := s.failures ++ [(componentName, msg)]
    fatal := r.2 }

/-- The statement `failedComponents = append(failedComponents, componentName)`
that follows a call of `maybeFatalIfMandatory`; it is not reached when the
process has died. -/
def Execute.recordFailed (componentName : String) (s : Execute.LoopState) :
    Execute.LoopState :=
  if s.fatal.isSome then s
  else { s with failedComponents := s.failedComponents ++ [componentName] }

/-- The state update that precedes the invocation (deploy.go 310-324). -/
def Execute.persistIntent (env : Execute.Env) (componentName : String)
    (s : Execute.LoopState) : Execute.LoopState :=
  let isDeploy := strings.HasPrefix env.request.Verb "deploy"
  let status := env.request.Verb ++ "ing"
  if env.hasState then
    { s with
      stateCalls := s.stateCalls ++
        (if isDeploy then [state.Call.UpdateState componentName false] else []) ++
        [state.Call.UpdateComponentStatus componentName status "",
          state.Call.UpdateStackStatus status "",
          state.Call.UpdatePhase env.operationLogId componentName "in-progress",
          state.Call.stateUpdater, state.Call.stateUpdaterSync] }
  else s

/-- What follows the return of `delegate` (deploy.go 331-385): the invocation
error, or on a deploy the capture of the outputs and the merge of the
provides. -/
def Execute.afterDelegate (env : Execute.Env) (componentName : String)
    (run : Execute.ComponentRun) (s : Execute.LoopState) : Execute.LoopState :=
  let isDeploy := strings.HasPrefix env.request.Verb "deploy"
  match run.delegateErr with
  | some err =>
    let s :=
      if env.hasState then
        { s with
          stateCalls := s.stateCalls ++ [state.Call.AppendOperationLog env.operationLogId
            (err ++ env.formatStdoutStderr run.stdout run.stderr)] }
      else s
    Execute.recordFailed componentName
      (Execute.failComponent env componentName
        ("Component `" ++ componentName ++ "` failed to " ++ env.request.Verb ++ ": " ++ err)
        s)
  | none =>
    if isDeploy then
      let s :=
        if run.captureErrs.length > 0 then
          Execute.recordFailed componentName
            (Execute.failComponent env componentName
              ("Component `" ++ componentName ++ "` outputs capture failed:\n\t" ++
                util.Errors "\n\t" (run.captureErrs.map some))
              s)
        else s
      if s.fatal.isSome then s
      else
        { s with
          provides := env.mergeProvides s.provides componentName
            (run.dynamicProvides ++ run.componentManifest.Provides) }
    else s

/-- The end of the body of the loop (deploy.go 387-416): the state update
after the invocation, the ready conditions, and the success status. -/
def Execute.afterOutputs (env : Execute.Env) (componentIndex : Nat) (componentName : String)
    (run : Execute.ComponentRun) (s : Execute.LoopState) : Execute.LoopState :=
  let isDeploy := strings.HasPrefix env.request.Verb "deploy"
  let s :=
    if isDeploy && env.hasState then
      let final :=
        decide ((componentIndex : Int) = (env.orderLength : Int) - 1) ||
          (decide (env.request.Components.length > 0) && env.request.LoadFinalState)
      { s with stateCalls := s.stateCalls ++ [state.Call.UpdateState componentName final] }
    else s
  let s :=
    if run.delegateErr.isNone && isDeploy then
      match run.readyErr with
      | some err =>
        Execute.recordFailed componentName
          (Execute.failComponent env componentName
            ("Component `" ++ componentName ++ "` ready condition failed: " ++ err) s)
      | none => s
    else s
  if s.fatal.isSome then s
  else if env.hasState && !util.Contains s.failedComponents componentName then
    { s with
      stateCalls := s.stateCalls ++
        [state.Call.UpdateComponentStatus componentName (env.request.Verb ++ "ed") "",
          state.Call.UpdatePhase env.operationLogId componentName "success",
          state.Call.stateUpdater] }
  else s

/-- The body of the loop of `Execute` from the state update before the
invocation to its end (deploy.go 310-416). -/
def Execute.invoke (env : Execute.Env) (componentIndex : Nat) (componentName : String)
    (run : Execute.ComponentRun) (s : Execute.LoopState) : Execute.LoopState :=
  let s := Execute.persistIntent env componentName s
  let s := { s with delegated := s.delegated ++ [componentName] }
  let s := Execute.afterDelegate env componentName run s
  if s.fatal.isSome then s else Execute.afterOutputs env componentIndex componentName run s

/-- The body of the loop of `Execute` for a component that is not passed over
(deploy.go 226-416). -/
def Execute.component (env : Execute.Env) (componentIndex : Nat) (componentName : String)
    (run : Execute.ComponentRun) (s : Execute.LoopState) : Execute.LoopState :=
  let isDeploy := strings.HasPrefix env.request.Verb "deploy"
  let failed := run.component.Depends.filter (fun dependency =>
    util.Contains s.failedComponents dependency)
  if isDeploy && decide (run.component.Depends.length > 0) && decide (failed.length > 0) then
    Execute.recordFailed componentName
      (Execute.failComponent env componentName
        ("Component `" ++ componentName ++ "` failed to " ++ env.request.Verb ++
          ": depends on failed optional component `" ++ strings.Join failed ", " ++ "`")
        s)
  else
    let optionalParametersFalse :=
      calculateOptionalFalseParameters componentName run.allParameters env.optionalRequires
    if optionalParametersFalse.length > 0 then s
    else if run.expansionErrs.length > 0 then
      Execute.recordFailed componentName
        (Execute.failComponent env componentName
          ("Component `" ++ componentName ++ "` parameters expansion failed:\n\t" ++
            util.Errors "\n\t" (run.expansionErrs.map some))
          s)
    else
      let r := prepareComponentRequires env.ext s.provides run.componentManifest
        env.optionalRequires
      if r.optionalNotProvided.length > 0 ∨ r.err ≠ none then
        match r.err with
        | some err => Execute.failComponent env componentName err s
        | none => s
      else Execute.invoke env componentIndex componentName run s

/-- The loop of `Execute` over the traversal order (deploy.go 210-417);
`runs i` is what the collaborators return for the component at index `i`. -/
def Execute.loopFrom (env : Execute.Env) (t : Execute.Traversal)
    (runs : Nat → Execute.ComponentRun) :
    List String → Nat → Execute.LoopState → Execute.LoopState
  | [], _, s => s
  | componentName :: rest, componentIndex, s =>
    if s.fatal.isSome then s
    else if Execute.skip env.request t componentIndex componentName then
      Execute.loopFrom env t runs rest (componentIndex + 1) s
    else
      Execute.loopFrom env t runs rest (componentIndex + 1)
        (Execute.component env componentIndex componentName (runs componentIndex) s)

/-- How a stretch of the loop body may relate the state before it to the state
after it, as far as failures go: it records no failure, or the process has
died, or the component is in `failedComponents` and no earlier entry of it is
lost.  Used to state what the stretches other than the requirement check
have in common. -/
def Execute.FailureRecorded (componentName : String) (s s' : Execute.LoopState) : Prop :=
  (s'.failures = s.failures ∧ s'.failedComponents = s.failedComponents ∧
      s'.fatal = s.fatal) ∨
    s'.fatal ≠ none ∨
    (componentName ∈ s'.failedComponents ∧
      ∀ x ∈ s.failedComponents, x ∈ s'.failedComponents)

/-- The name of an environment entry `name=value`. -/
def envName (entry : String) : String := String.mk (entry.toList.takeWhile (fun c => c ≠ '='))

/-- Of the entries with one name the last is kept. -/
def mergeLastWins : List String → List String
  | [] => []
  | entry :: rest =>
    if rest.any (fun later => envName later = envName entry) then mergeLastWins rest
    else entry :: mergeLastWins rest

/-- Modelled from the spec: `mergeOsEnviron` is defined in a file that is not
among the sources.  Spec §4.2: the entries are merged into one environment in
which, of two entries for the same env name, the later value wins; spec §3:
the emission is sorted (deploy.go 618 calls it to sort). -/
def mergeOsEnviron (toMerge : List (List String)) : List String :=
  (mergeLastWins toMerge.flatten).insertionSort (fun a b => a.toList ≤ b.toList)

/-- The loop of `parametersInEnv` over the parameters (deploy.go 588-606); the
state is `envParameters`, `envSetBy` and `envValue`. -/
def parametersInEnvLoop :
    List (String × parameters.LockedParameter) → List String → GoMap String → GoMap String →
      List String × GoMap String × GoMap String
  | [], envParameters, envSetBy, envValue => (envParameters, envSetBy, envValue)
  | (_, parameter) :: rest, envParameters, envSetBy, envValue =>
    if parameter.Env = "" then
      parametersInEnvLoop rest envParameters envSetBy envValue
    else
      let currentValue := strings.TrimSpace parameter.Value
      let envParameters := envParameters ++ [parameter.Env ++ "=" ++ currentValue]
      let name := parameter.QName
      parametersInEnvLoop rest envParameters (envSetBy.set parameter.Env name)
        (envValue.set parameter.Env currentValue)

/-- `parametersInEnv` (deploy.go 584-619); `merge` stands for `mergeOsEnviron`,
which gets the one list `envParameters`. -/
def parametersInEnv (merge : List (List String) → List String) (componentName : String)
    (componentParameters : parameters.LockedParameters) : List String :=
  let r := parametersInEnvLoop componentParameters [] [] []
  let envParameters := r.1
  let envSetBy := r.2.1
  let envComponentName := "COMPONENT_NAME"
  let envParameters :=
    if (envSetBy.get envComponentName).isNone then
      envParameters ++ [envComponentName ++ "=" ++ componentName]
    else envParameters
  let envParameters := envParameters ++ [HubEnvVarNameComponentName ++ "=" ++ componentName]
  merge [envParameters]

end lifecycle

/-! ## Package `cmd` -/

namespace cmd

/-- The package variables that `importKubernetes` reads (import.go 18-32).  The
last four are declared in files of the package that are not among the sources;
their types are those of their uses in import.go 143-168. -/
structure Flags where
  autoCreateTemplate : Bool := false
  createNewTemplate : Bool := false
  importRegion : String := ""
  k8sEndpoint : String := ""
  eksClusterName : String := ""
  eksEndpoint : String := ""
  gkeClusterName : String := ""
  aksClusterName : String := ""
  azureResourceGroup : String := ""
  metalEndpoint : String := ""
  metalIngress : String := ""
  bearerToken : String := ""
  environmentSelector : String := ""
  templateSelector : String := ""
  dryRun : Bool := false
  waitAndTailDeployLogs : Bool := false
  deriving DecidableEq, Repr

/-- `knownImportKinds` (import.go 21). -/
def knownImportKinds : List String :=
  ["k8s-aws", "eks", "gke", "aks", "metal", "hybrid", "openshift"]

/-- `maybeValidHostname.MatchString` (import.go 63): the regular expression
`^[0-9a-z\.-]+$` matches a string that is not empty and has only the characters
`0`-`9`, `a`-`z`, `.` and `-`. -/
def maybeValidHostname (name : String) : Bool :=
  !name.toList.isEmpty &&
    name.toList.all (fun c =>
      (decide ('0' ≤ c) && decide (c ≤ '9')) || (decide ('a' ≤ c) && decide (c ≤ 'z')) ||
        decide (c = '.') || decide (c = '-'))

/-- The arguments of one call of `api.ImportKubernetes` (import.go 166-170),
apart from `os.Stdin`. -/
structure ImportKubernetesCall where
  kind : String
  name : String
  environmentSelector : String
  templateSelector : String
  autoCreateTemplate : Bool
  createNewTemplate : Bool
  waitAndTailDeployLogs : Bool
  dryRun : Bool
  bearerToken : String
  importRegion : String
  nativeEndpoint : String
  nativeClusterName : String
  metalIngress : String
  azureResourceGroup : String
  deriving DecidableEq, Repr

/-- What `importKubernetes` did: the error it returns, `none` for `nil`, and the
call of `api.ImportKubernetes` it made, if any. -/
structure ImportResult where
  err : Option String
  call : Option ImportKubernetesCall
  deriving DecidableEq, Repr

/-- The `switch kind` of `importKubernetes` (import.go 77-134): an error, or
`nativeEndpoint` and `nativeClusterName`. -/
def importKubernetes.native (flags : Flags) (kind name : String) :
    Except String (String × String) :=
  match kind with
  | "k8s-aws" =>
    if flags.k8sEndpoint = "" then
      .error "AgileStacks K8S cluster API endpoint must be specified by --k8s-endpoint"
    else .ok (flags.k8sEndpoint, "")
  | "hybrid" =>
    if flags.metalEndpoint = "" then
      .error "Hybrid bare-metal cluster API endpoint must be specified by --metal-endpoint"
    else .ok (flags.metalEndpoint, "")
  | "metal" =>
    if flags.metalEndpoint = "" then
      .error "Bare-metal cluster API endpoint must be specified by --metal-endpoint"
    else .ok (flags.metalEndpoint, "")
  | "openshift" =>
    if flags.bearerToken = "" then
      .error "OpenShift authentication must be specified with --bearer-token"
    else .ok ("", "")
  | "eks" =>
    if flags.eksClusterName = "" then
      if strings.Contains name '.' then
        .error "EKS cluster name (--eks-cluster) must be provided"
      else .ok (flags.eksEndpoint, name)
    else .ok (flags.eksEndpoint, flags.eksClusterName)
  | "gke" =>
    if flags.gkeClusterName = "" then
      if strings.Contains name '.' then
        .error "GKE cluster name (--gke-cluster) must be provided"
      else .ok ("", name)
    else .ok ("", flags.gkeClusterName)
  | "aks" =>
    if flags.aksClusterName = "" then
      if strings.Contains name '.' then
        .error "AKS cluster name (--aks-cluster) must be provided"
      else .ok ("", name)
    else .ok ("", flags.aksClusterName)
  | _ => .ok ("", "")

/-- `importKubernetes` (import.go 65-173).  `ToLower` stands for
`strings.ToLower` of the Go standard library, which maps every character by the
Unicode case tables. -/
def importKubernetes (ToLower : String → String) (flags : Flags) (args : List String) :
    ImportResult :=
  if args.length ≠ 2 then
    { err := some ("Import command has two argument - type of imported Kubernetes cluster " ++
        "and desired cluster name")
      call := none }
  else
    let kind := args.getD 0 ""
    let name := ToLower (args.getD 1 "")
    if !util.Contains knownImportKinds kind then
      { err := some ("Kubernetes cluster kind must be one of [" ++
          strings.Join knownImportKinds " " ++ "]")
        call := none }
    else
      match importKubernetes.native flags kind name with
      | .error e => { err := some e, call := none }
      | .ok (nativeEndpoint, nativeClusterName) =>
        let nativeEndpoint :=
          if decide (nativeEndpoint.length ≥ 8) && strings.HasPrefix nativeEndpoint "https://" then
            strings.sliceFrom nativeEndpoint 8
          else nativeEndpoint
        if !maybeValidHostname name then
          { err := some ("`" ++ name ++ "` doesn't look like a valid hostname"), call := none }
        else if flags.environmentSelector = "" then
          { err := some "Environment name or id must be specified by --environment / -e"
            call := none }
        else
          let waitAndTailDeployLogs := if flags.dryRun then false else flags.waitAndTailDeployLogs
          { err := none
            call := some
              { kind := kind
                name := name
                environmentSelector := flags.environmentSelector
                templateSelector := flags.templateSelector
                autoCreateTemplate := flags.autoCreateTemplate
                createNewTemplate := flags.createNewTemplate
                waitAndTailDeployLogs := waitAndTailDeployLogs
                dryRun := flags.dryRun
                bearerToken := flags.bearerToken
                importRegion := flags.importRegion
                nativeEndpoint := nativeEndpoint
                nativeClusterName := nativeClusterName
                metalIngress := flags.metalIngress
                azureResourceGroup := flags.azureResourceGroup } }

end cmd

/-! ## Properties -/

theorem Contains_iff_mem (list : List String) (value : String) :
    util.Contains list value = true ↔ value ∈ list := by
  induction list with
  | nil => simp [util.Contains]
  | cons v rest ih =>
    by_cases h : v = value
    · simp [util.Contains, h]
    · have h' : ¬ value = v := fun e => h e.symm
      simp [util.Contains, h, h', ih]

/-- C1: `optionalComponent` holds exactly when the component is listed in
`lifecycle.Optional`, or `lifecycle.Mandatory` is non-empty and does not
contain the component. -/
theorem optionalComponent_iff (lc : manifest.Lifecycle) (componentName : String) :
    lifecycle.optionalComponent lc componentName = true ↔
      (componentName ∈ lc.Optional ∨
        (lc.Mandatory ≠ [] ∧ componentName ∉ lc.Mandatory)) := by
  unfold lifecycle.optionalComponent
  rw [Bool.or_eq_true, Bool.and_eq_true, Contains_iff_mem, decide_eq_true_eq,
    Bool.not_eq_true_eq_eq_false, Bool.eq_false_iff, Ne, Contains_iff_mem,
    gt_iff_lt, List.length_pos]
  tauto

/-- The requirement has no provider: it is absent from the registry or mapped
to an empty list (the test of requirement.go 29). -/
theorem notProvided_iff (provided : GoMap (List String)) (req : String) :
    ((!(provided.get req).isSome || decide (((provided.get req).getD []).length = 0)) = true) ↔
      (provided.get req = none ∨ provided.get req = some []) := by
  cases h : provided.get req with
  | none => simp
  | some l => cases l <;> simp

/-- The requirement is optional for the component (the test of requirement.go 30-31). -/
theorem optionalFor_iff (maybeOptional : GoMap (List String)) (req componentName : String) :
    ((match maybeOptional.get req with
      | some optionalFor =>
        util.Contains optionalFor componentName || util.Contains optionalFor "*"
      | none => false) = true) ↔
      ∃ optionalFor, maybeOptional.get req = some optionalFor ∧
        (componentName ∈ optionalFor ∨ "*" ∈ optionalFor) := by
  cases h : maybeOptional.get req with
  | none => simp
  | some l => simp [Contains_iff_mem]

theorem prepareRequiresLoop_err (ext : lifecycle.External) (provided : GoMap (List String))
    (componentManifest : manifest.Manifest) (maybeOptional : GoMap (List String))
    (componentName : String) (reqs : List String) :
    ∀ (setups : List util.Tuple2) (optionalNotProvided : List String),
      (lifecycle.prepareRequiresLoop ext provided componentManifest maybeOptional componentName
          reqs setups optionalNotProvided).err ≠ none ↔
        ∃ req ∈ reqs, (provided.get req = none ∨ provided.get req = some []) ∧
          ¬ ∃ optionalFor, maybeOptional.get req = some optionalFor ∧
            (componentName ∈ optionalFor ∨ "*" ∈ optionalFor) := by
  induction reqs with
  | nil => intro setups onp; simp [lifecycle.prepareRequiresLoop]
  | cons req rest ih =>
    intro setups onp
    rw [lifecycle.prepareRequiresLoop]
    simp only []
    by_cases hp : (!(provided.get req).isSome ||
        decide (((provided.get req).getD []).length = 0)) = true
    · rw [if_pos hp]
      by_cases ho : (match maybeOptional.get req with
          | some optionalFor =>
            util.Contains optionalFor componentName || util.Contains optionalFor "*"
          | none => false) = true
      · rw [if_pos ho, ih]
        have ho' := (optionalFor_iff maybeOptional req componentName).1 ho
        constructor
        · rintro ⟨r, hr, h⟩
          exact ⟨r, List.mem_cons_of_mem _ hr, h⟩
        · rintro ⟨r, hr, h⟩
          rcases List.mem_cons.1 hr with rfl | hr
          · exact absurd ho' h.2
          · exact ⟨r, hr, h⟩
      · rw [if_neg ho]
        have ho' := fun h => ho ((optionalFor_iff maybeOptional req componentName).2 h)
        have hp' := (notProvided_iff provided req).1 hp
        constructor
        · intro _
          exact ⟨req, List.mem_cons_self _ _, hp', ho'⟩
        · intro _
          simp
    · rw [if_neg hp, ih]
      have hp' := fun h => hp ((notProvided_iff provided req).2 h)
      constructor
      · rintro ⟨r, hr, h⟩
        exact ⟨r, List.mem_cons_of_mem _ hr, h⟩
      · rintro ⟨r, hr, h⟩
        rcases List.mem_cons.1 hr with rfl | hr
        · exact absurd h.1 hp'
        · exact ⟨r, hr, h⟩

theorem prepareRequiresLoop_provided (ext : lifecycle.External) (provided : GoMap (List String))
    (componentManifest : manifest.Manifest) (maybeOptional : GoMap (List String))
    (componentName : String) (reqs : List String) :
    ∀ (setups : List util.Tuple2) (optionalNotProvided : List String),
      (lifecycle.prepareRequiresLoop ext provided componentManifest maybeOptional componentName
          reqs setups optionalNotProvided).err = none →
      (lifecycle.prepareRequiresLoop ext provided componentManifest maybeOptional componentName
          reqs setups optionalNotProvided).optionalNotProvided = [] →
      optionalNotProvided = [] ∧
        ∀ req ∈ reqs, ∃ by', provided.get req = some by' ∧ by' ≠ [] := by
  induction reqs with
  | nil =>
    intro setups onp _ h
    simpa [lifecycle.prepareRequiresLoop] using h
  | cons req rest ih =>
    intro setups onp
    rw [lifecycle.prepareRequiresLoop]
    simp only []
    by_cases hp : (!(provided.get req).isSome ||
        decide (((provided.get req).getD []).length = 0)) = true
    · rw [if_pos hp]
      by_cases ho : (match maybeOptional.get req with
          | some optionalFor =>
            util.Contains optionalFor componentName || util.Contains optionalFor "*"
          | none => false) = true
      · rw [if_pos ho]
        intro h1 h2
        exact absurd (ih _ _ h1 h2).1 (by simp)
      · rw [if_neg ho]
        intro h1
        simp at h1
    · rw [if_neg hp]
      intro h1 h2
      obtain ⟨h3, h4⟩ := ih _ _ h1 h2
      refine ⟨h3, ?_⟩
      intro r hr
      rcases List.mem_cons.1 hr with rfl | hr
      · have hp' := fun h => hp ((notProvided_iff provided r).2 h)
        cases hg : provided.get r with
        | none => exact absurd (Or.inl hg) hp'
        | some l =>
          refine ⟨l, rfl, ?_⟩
          rintro rfl
          exact hp' (Or.inr hg)
      · exact h4 r hr

/-- C2: when `prepareComponentRequires` returns no error and an empty
optional-not-provided list, the only case in which `Execute` goes on to invoke
the component, every requirement the component declares has a non-empty
provider list in the registry. -/
theorem prepareComponentRequires_all_provided (ext : lifecycle.External)
    (provided : GoMap (List String)) (componentManifest : manifest.Manifest)
    (maybeOptional : GoMap (List String))
    (herr : (lifecycle.prepareComponentRequires ext provided componentManifest
      maybeOptional).err = none)
    (hopt : (lifecycle.prepareComponentRequires ext provided componentManifest
      maybeOptional).optionalNotProvided = []) :
    ∀ req ∈ componentManifest.Requires,
      ∃ by', provided.get req = some by' ∧ by' ≠ [] :=
  (prepareRequiresLoop_provided ext provided componentManifest maybeOptional _
    componentManifest.Requires [] [] herr hopt).2

/-- C3: `prepareComponentRequires` returns an error exactly when some declared
requirement has no provider (absent from the registry or mapped to an empty
list) and is not optional for this component, that is, the optional-requires
map has no entry for it that lists the qualified component name or `*`. -/
theorem prepareComponentRequires_err_iff (ext : lifecycle.External)
    (provided : GoMap (List String)) (componentManifest : manifest.Manifest)
    (maybeOptional : GoMap (List String)) :
    (lifecycle.prepareComponentRequires ext provided componentManifest maybeOptional).err ≠ none ↔
      ∃ req ∈ componentManifest.Requires,
        (provided.get req = none ∨ provided.get req = some []) ∧
          ¬ ∃ optionalFor, maybeOptional.get req = some optionalFor ∧
            (ext.ComponentQualifiedNameFromMeta componentManifest.Meta ∈ optionalFor ∨
              "*" ∈ optionalFor) :=
  prepareRequiresLoop_err ext provided componentManifest maybeOptional _
    componentManifest.Requires [] []

/-- Instance of C2: a component that requires `kubernetes` and `vault`, both
provided. -/
theorem prepareComponentRequires_all_provided_witness :
    (lifecycle.prepareComponentRequires
        { ComponentQualifiedNameFromMeta := fun m => m.Name, SprintDeps := fun _ => "" }
        [("kubernetes", ["*environment*"]), ("vault", ["*environment*", "vault"])]
        { Meta := { Name := "db" }, Requires := ["kubernetes", "vault"] } []).err = none ∧
      (lifecycle.prepareComponentRequires
        { ComponentQualifiedNameFromMeta := fun m => m.Name, SprintDeps := fun _ => "" }
        [("kubernetes", ["*environment*"]), ("vault", ["*environment*", "vault"])]
        { Meta := { Name := "db" }, Requires := ["kubernetes", "vault"] }
        []).optionalNotProvided = [] ∧
      ∀ req ∈ ["kubernetes", "vault"],
        ∃ by', GoMap.get [("kubernetes", ["*environment*"]),
          ("vault", ["*environment*", "vault"])] req = some by' ∧ by' ≠ [] :=
  ⟨by decide, by decide,
    prepareComponentRequires_all_provided
      { ComponentQualifiedNameFromMeta := fun m => m.Name, SprintDeps := fun _ => "" }
      [("kubernetes", ["*environment*"]), ("vault", ["*environment*", "vault"])]
      { Meta := { Name := "db" }, Requires := ["kubernetes", "vault"] } []
      (by decide) (by decide)⟩

theorem replicate_succ_set_last (n : Nat) (a v : String) :
    (List.replicate (n + 1) a).set n v = List.replicate n a ++ [v] := by
  induction n with
  | zero => rfl
  | succ n ih =>
    rw [List.replicate_succ, List.set_cons_succ, ih, List.replicate_succ, List.cons_append]

theorem ReverseRun_steps (source : List String) (k : Nat) (hk : k ≤ source.length) :
    (List.range k).foldl (util.ReverseStep source.length)
        { source := source, reversed := List.replicate source.length "" } =
      { source := source
        reversed := List.replicate (source.length - k) "" ++ (source.take k).reverse } := by
  induction k with
  | zero => simp
  | succ k ih =>
    have hk' : k < source.length := hk
    rw [List.range_succ, List.foldl_append, ih (Nat.le_of_lt hk')]
    simp only [List.foldl_cons, List.foldl_nil, util.ReverseStep]
    obtain ⟨m, hm⟩ : ∃ m, source.length - k = m + 1 := ⟨source.length - k - 1, by omega⟩
    have h2 : source.length - (k + 1) = m := by omega
    have h3 : source.length - k - 1 = m := by omega
    congr 1
    rw [h2, h3, hm, List.set_append_left _ _ (by rw [List.length_replicate]; omega),
      replicate_succ_set_last, List.take_succ, List.reverse_append, List.append_assoc]
    congr 1
    rw [List.getD_eq_getElem?_getD, List.getElem?_eq_getElem hk']
    simp

theorem ReverseRun_eq (source : List String) :
    util.ReverseRun source = { source := source, reversed := source.reverse } := by
  unfold util.ReverseRun
  rw [ReverseRun_steps source source.length (Nat.le_refl _)]
  simp

theorem Reverse_eq_reverse (source : List String) : util.Reverse source = source.reverse := by
  unfold util.Reverse
  rw [ReverseRun_eq]

theorem traversal_shape (request : lifecycle.Request) (order : List String)
    (st : Option state.StateManifest) :
    ∃ (oc : String) (og : Bool) (oi li : Int) (cond : Prop) (_ : Decidable cond)
      (msg : String),
      lifecycle.Execute.traversal request order st =
        if cond then Except.error msg
        else Except.ok
          { order := if strings.HasPrefix request.Verb "undeploy" = true
              then util.Reverse order else order
            OffsetComponent := oc
            offsetGuessed := og
            offsetComponentIndex := oi
            limitComponentIndex := li } :=
  ⟨_, _, _, _, _, _, _, rfl⟩

/-- C4: the undeploy traversal is the exact reverse of the deploy traversal.
`util.Reverse`, which `Execute` applies to the lifecycle order when the verb is
an undeploy and only then, returns a list of the same length whose element at
index `i` is `order[len-1-i]`; reversing twice gives the order back, and the
run leaves the slice it was given as it was. -/
theorem Reverse_exact (order : List String) :
    (util.Reverse order).length = order.length ∧
      (∀ i, (util.Reverse order)[i]? =
        if i < order.length then order[order.length - 1 - i]? else none) ∧
      util.Reverse (util.Reverse order) = order ∧
      (util.ReverseRun order).source = order ∧
      (∀ (request : lifecycle.Request) (st : Option state.StateManifest)
          (t : lifecycle.Execute.Traversal),
        lifecycle.Execute.traversal request order st = Except.ok t →
          t.order = if strings.HasPrefix request.Verb "undeploy" = true
            then util.Reverse order else order) := by
  refine ⟨?_, ?_, ?_, ?_, ?_⟩
  · rw [Reverse_eq_reverse, List.length_reverse]
  · intro i
    rw [Reverse_eq_reverse]
    by_cases h : i < order.length
    · rw [if_pos h, List.getElem?_reverse h]
    · rw [if_neg h, List.getElem?_eq_none]
      rw [List.length_reverse]; omega
  · rw [Reverse_eq_reverse, Reverse_eq_reverse, List.reverse_reverse]
  · rw [ReverseRun_eq]
  · intro request st t h
    obtain ⟨oc, og, oi, li, cond, inst, msg, hshape⟩ := traversal_shape request order st
    rw [hshape] at h
    by_cases hc : cond
    · rw [if_pos hc] at h
      exact absurd h (by simp)
    · rw [if_neg hc] at h
      injection h with h
      rw [← h]

theorem GoMap_get_set_self {α : Type} (m : GoMap α) (k : String) (v : α) :
    (m.set k v).get k = some v := by
  induction m with
  | nil => simp [GoMap.set, GoMap.get]
  | cons e rest ih =>
    obtain ⟨k', v'⟩ := e
    by_cases h : k' = k
    · simp [GoMap.set, GoMap.get, h]
    · simp [GoMap.set, GoMap.get, h, ih]

theorem GoMap_get_set_ne {α : Type} (m : GoMap α) (k p : String) (v : α) (hne : k ≠ p) :
    (m.set k v).get p = m.get p := by
  induction m with
  | nil => simp [GoMap.set, GoMap.get, hne]
  | cons e rest ih =>
    obtain ⟨k', v'⟩ := e
    by_cases h : k' = k
    · subst h
      simp [GoMap.set, GoMap.get, hne]
    · by_cases h2 : k' = p
      · subst h2
        simp [GoMap.set, GoMap.get, h]
      · simp [GoMap.set, GoMap.get, h, h2, ih]

theorem GoMap_get_eq_none {α : Type} (m : GoMap α) (k : String) (h : k ∉ m.keys) :
    m.get k = none := by
  induction m with
  | nil => rfl
  | cons e rest ih =>
    obtain ⟨k', v'⟩ := e
    simp only [GoMap.keys, List.map_cons, List.mem_cons, not_or] at h
    have h1 : ¬ k' = k := fun e => h.1 e.symm
    simp only [GoMap.get, h1, if_false]
    exact ih h.2

theorem Omit_eq_filter (list : List String) (value : String) :
    util.Omit list value = list.filter (fun v => decide (v ≠ value)) := by
  induction list with
  | nil => rfl
  | cons v rest ih =>
    by_cases h : v = value
    · simp [util.Omit, h, ih]
    · simp [util.Omit, h, ih]

theorem filter_ne_of_not_mem (list : List String) (value : String) (h : value ∉ list) :
    list.filter (fun v => decide (v ≠ value)) = list := by
  rw [List.filter_eq_self]
  intro a ha
  simp only [ne_eq, decide_not, Bool.not_eq_true', decide_eq_false_iff_not]
  rintro rfl
  exact h ha

/-- The providers kept for a capability on externalising: the original list
without the sentinel, and nothing when no provider is left. -/
theorem noEnvironmentProvides_step (filtered : GoMap (List String)) (p : String)
    (by' : List String) :
    (let b := if util.Contains by' lifecycle.providedByEnv
        then util.Omit by' lifecycle.providedByEnv else by'
      if b.length > 0 then filtered.set p b else filtered) =
      if by'.filter (fun v => decide (v ≠ lifecycle.providedByEnv)) = [] then filtered
      else filtered.set p (by'.filter (fun v => decide (v ≠ lifecycle.providedByEnv))) := by
  have hb : (if util.Contains by' lifecycle.providedByEnv
      then util.Omit by' lifecycle.providedByEnv else by') =
      by'.filter (fun v => decide (v ≠ lifecycle.providedByEnv)) := by
    by_cases hc : util.Contains by' lifecycle.providedByEnv = true
    · rw [if_pos hc, Omit_eq_filter]
    · rw [if_neg hc, filter_ne_of_not_mem]
      exact fun hm => hc ((Contains_iff_mem _ _).2 hm)
  simp only [hb]
  by_cases he : by'.filter (fun v => decide (v ≠ lifecycle.providedByEnv)) = []
  · rw [if_pos he, he, if_neg (by decide)]
  · rw [if_neg he, if_pos (List.length_pos.2 he)]

theorem noEnvironmentProvides_fold (provides : GoMap (List String)) (p : String) :
    provides.WellFormed → ∀ filtered : GoMap (List String),
      (provides.foldl
        (fun filtered entry =>
          let p := entry.1
          let by' := entry.2
          let by' := if util.Contains by' lifecycle.providedByEnv
            then util.Omit by' lifecycle.providedByEnv else by'
          if by'.length > 0 then filtered.set p by' else filtered)
        filtered).get p =
      match provides.get p with
      | none => filtered.get p
      | some by' =>
        if by'.filter (fun v => decide (v ≠ lifecycle.providedByEnv)) = [] then filtered.get p
        else some (by'.filter (fun v => decide (v ≠ lifecycle.providedByEnv))) := by
  induction provides with
  | nil => intro _ filtered; rfl
  | cons e rest ih =>
    obtain ⟨k, v⟩ := e
    intro hwf filtered
    have hwf' : (k ∉ GoMap.keys rest) ∧ GoMap.WellFormed rest := by
      simpa [GoMap.WellFormed, GoMap.keys] using hwf
    rw [List.foldl_cons, ih hwf'.2]
    simp only []
    rw [noEnvironmentProvides_step]
    by_cases hk : k = p
    · subst hk
      rw [GoMap_get_eq_none rest k hwf'.1]
      simp only [GoMap.get, if_true]
      by_cases he : v.filter (fun v => decide (v ≠ lifecycle.providedByEnv)) = []
      · rw [if_pos he, if_pos he]
      · rw [if_neg he, if_neg he, GoMap_get_set_self]
    · simp only [GoMap.get, hk, if_false]
      have hg : (if v.filter (fun v => decide (v ≠ lifecycle.providedByEnv)) = [] then filtered
          else filtered.set k (v.filter (fun v => decide (v ≠ lifecycle.providedByEnv)))).get p =
          filtered.get p := by
        by_cases he : v.filter (fun v => decide (v ≠ lifecycle.providedByEnv)) = []
        · rw [if_pos he]
        · rw [if_neg he, GoMap_get_set_ne _ _ _ _ hk]
      rw [hg]

/-- C6: for every provides registry, `noEnvironmentProvides` returns a
registry in which no provider list contains the sentinel `*environment*` and
no capability maps to an empty list; each capability maps to its original
providers, in their original order, with the sentinel removed, and a
capability with no other provider than the environment is dropped. -/
theorem noEnvironmentProvides_spec (provides : GoMap (List String))
    (hwf : provides.WellFormed) :
    (∀ p by', (lifecycle.noEnvironmentProvides provides).get p = some by' →
        lifecycle.providedByEnv ∉ by' ∧ by' ≠ []) ∧
      (∀ p, (lifecycle.noEnvironmentProvides provides).get p =
        match provides.get p with
        | none => none
        | some by' =>
          if by'.filter (fun v => decide (v ≠ lifecycle.providedByEnv)) = [] then none
          else some (by'.filter (fun v => decide (v ≠ lifecycle.providedByEnv)))) ∧
      (∀ p by', provides.get p = some by' → (∀ v ∈ by', v = lifecycle.providedByEnv) →
        (lifecycle.noEnvironmentProvides provides).get p = none) := by
  have key : ∀ p, (lifecycle.noEnvironmentProvides provides).get p =
      match provides.get p with
      | none => none
      | some by' =>
        if by'.filter (fun v => decide (v ≠ lifecycle.providedByEnv)) = [] then none
        else some (by'.filter (fun v => decide (v ≠ lifecycle.providedByEnv))) := by
    intro p
    unfold lifecycle.noEnvironmentProvides
    rw [noEnvironmentProvides_fold provides p hwf []]
    rfl
  refine ⟨?_, key, ?_⟩
  · intro p by' h
    rw [key p] at h
    cases hg : provides.get p with
    | none => rw [hg] at h; simp at h
    | some l =>
      rw [hg] at h
      simp only [] at h
      by_cases he : l.filter (fun v => decide (v ≠ lifecycle.providedByEnv)) = []
      · rw [if_pos he] at h; simp at h
      · rw [if_neg he] at h
        have h' := Option.some.inj h
        subst h'
        refine ⟨?_, he⟩
        intro hm
        have := (List.mem_filter.1 hm).2
        simp at this
  · intro p by' hg hall
    rw [key p, hg]
    simp only []
    rw [if_pos]
    rw [List.filter_eq_nil_iff]
    intro a ha
    simp [hall a ha]

/-- Instance of C6: `kubernetes` is provided by the environment only and is
dropped, `vault` loses the sentinel, `ingress` is kept as it is. -/
theorem noEnvironmentProvides_spec_witness :
    GoMap.WellFormed [("kubernetes", ["*environment*"]),
        ("vault", ["*environment*", "vault", "vault-ha"]), ("ingress", ["traefik"])] ∧
      lifecycle.noEnvironmentProvides [("kubernetes", ["*environment*"]),
        ("vault", ["*environment*", "vault", "vault-ha"]), ("ingress", ["traefik"])] =
        [("vault", ["vault", "vault-ha"]), ("ingress", ["traefik"])] ∧
      (lifecycle.noEnvironmentProvides [("kubernetes", ["*environment*"]),
        ("vault", ["*environment*", "vault", "vault-ha"]),
        ("ingress", ["traefik"])]).get "kubernetes" = none :=
  ⟨by decide, by decide,
    (noEnvironmentProvides_spec [("kubernetes", ["*environment*"]),
      ("vault", ["*environment*", "vault", "vault-ha"]), ("ingress", ["traefik"])]
      (by decide)).2.2 "kubernetes" ["*environment*"] (by decide) (by decide)⟩

theorem append_ne_nil_iff (a b : List String) : a ++ b ≠ [] ↔ a ≠ [] ∨ b ≠ [] := by
  cases a <;> simp

theorem falseParametersOfTerm_eq (componentName term : String)
    (params : parameters.LockedParameters) :
    ∀ (parameterExists : Bool) (falseParameters : List String),
      lifecycle.falseParametersOfTerm componentName term params parameterExists falseParameters =
        (parameterExists || params.any (fun e => decide (e.2.Name = term ∧
            (e.2.Component = "" ∨ e.2.Component = componentName))),
          falseParameters ++ (params.filter (fun e => decide (e.2.Name = term ∧
            (e.2.Component = "" ∨ e.2.Component = componentName)) &&
              util.Contains lifecycle.falseParameterValues e.2.Value)).map
                (fun e => e.2.QName)) := by
  induction params with
  | nil => intro ex acc; simp [lifecycle.falseParametersOfTerm]
  | cons e rest ih =>
    obtain ⟨k, p⟩ := e
    intro ex acc
    by_cases hm : p.Name = term ∧ (p.Component = "" ∨ p.Component = componentName)
    · by_cases hv : util.Contains lifecycle.falseParameterValues p.Value = true
      · rw [lifecycle.falseParametersOfTerm, if_pos hm, if_pos hv, ih]
        simp only [List.any_cons, List.filter_cons, decide_eq_true hm, hv, Bool.true_or,
          Bool.or_true, Bool.and_self, if_true, List.map_cons, List.append_assoc,
          List.singleton_append]
      · rw [lifecycle.falseParametersOfTerm, if_pos hm, if_neg hv, ih]
        simp only [List.any_cons, List.filter_cons, decide_eq_true hm, hv, Bool.true_or,
          Bool.or_true, Bool.true_and, Bool.false_eq_true, if_false]
    · rw [lifecycle.falseParametersOfTerm, if_neg hm, ih]
      simp only [List.any_cons, List.filter_cons, decide_eq_false hm, Bool.false_or,
        Bool.false_and, Bool.false_eq_true, if_false]

theorem falseParametersOfList_extra (componentName : String)
    (params : parameters.LockedParameters) (term : String) (optionalForList : List String) :
    ∀ falseParameters : List String, ∃ extra : List String,
      lifecycle.falseParametersOfList componentName params term optionalForList
          falseParameters = falseParameters ++ extra ∧
        (extra ≠ [] ↔ ∃ optionalFor ∈ optionalForList,
          (optionalFor = "*" ∨ optionalFor = componentName) ∧
            ((∃ e ∈ params, (e.2.Name = term ∧
                (e.2.Component = "" ∨ e.2.Component = componentName)) ∧
                e.2.Value ∈ lifecycle.falseParameterValues) ∨
              ((¬ ∃ e ∈ params, e.2.Name = term ∧
                (e.2.Component = "" ∨ e.2.Component = componentName)) ∧
                optionalFor ≠ "*"))) := by
  induction optionalForList with
  | nil => intro acc; exact ⟨[], by simp [lifecycle.falseParametersOfList]⟩
  | cons o rest ih =>
    intro acc
    rw [lifecycle.falseParametersOfList]
    by_cases ha : o = "*" ∨ o = componentName
    · rw [if_pos ha, falseParametersOfTerm_eq]
      simp only [Bool.false_or]
      have hX : (params.filter (fun e => decide (e.2.Name = term ∧
            (e.2.Component = "" ∨ e.2.Component = componentName)) &&
              util.Contains lifecycle.falseParameterValues e.2.Value)).map
                (fun e => e.2.QName) ≠ [] ↔
          ∃ e ∈ params, (e.2.Name = term ∧
            (e.2.Component = "" ∨ e.2.Component = componentName)) ∧
            e.2.Value ∈ lifecycle.falseParameterValues := by
        simp [List.filter_eq_nil_iff, Contains_iff_mem, and_assoc]
      have hB : params.any (fun e => decide (e.2.Name = term ∧
            (e.2.Component = "" ∨ e.2.Component = componentName))) = true ↔
          ∃ e ∈ params, e.2.Name = term ∧
            (e.2.Component = "" ∨ e.2.Component = componentName) := by
        simp
      generalize (params.filter (fun e => decide (e.2.Name = term ∧
            (e.2.Component = "" ∨ e.2.Component = componentName)) &&
              util.Contains lifecycle.falseParameterValues e.2.Value)).map
                (fun e => e.2.QName) = X at hX ⊢
      generalize params.any (fun e => decide (e.2.Name = term ∧
            (e.2.Component = "" ∨ e.2.Component = componentName))) = b at hB ⊢
      by_cases hc : (!b) = true ∧ o ≠ "*"
      · rw [if_pos hc]
        obtain ⟨extra, he, _⟩ := ih (acc ++ X ++ [term])
        refine ⟨X ++ [term] ++ extra, ?_, ?_⟩
        · rw [he]; simp
        · constructor
          · intro _
            refine ⟨o, List.mem_cons_self _ _, ha, Or.inr ⟨?_, hc.2⟩⟩
            intro hex
            have := hB.2 hex
            simp [this] at hc
          · intro _; simp
      · rw [if_neg hc]
        obtain ⟨extra, he, hiff⟩ := ih (acc ++ X)
        refine ⟨X ++ extra, ?_, ?_⟩
        · rw [he]; simp
        · rw [append_ne_nil_iff, hX, hiff]
          constructor
          · rintro (h | ⟨o', ho', h⟩)
            · exact ⟨o, List.mem_cons_self _ _, ha, Or.inl h⟩
            · exact ⟨o', List.mem_cons_of_mem _ ho', h⟩
          · rintro ⟨o', ho', h1, h2⟩
            rcases List.mem_cons.1 ho' with rfl | ho'
            · rcases h2 with h2 | ⟨h2, h3⟩
              · exact Or.inl h2
              · exfalso
                apply hc
                refine ⟨?_, h3⟩
                cases b with
                | false => rfl
                | true => exact absurd (hB.1 rfl) h2
            · exact Or.inr ⟨o', ho', h1, h2⟩
    · rw [if_neg ha]
      obtain ⟨extra, he, hiff⟩ := ih acc
      refine ⟨extra, he, ?_⟩
      rw [hiff]
      constructor
      · rintro ⟨o', ho', h⟩
        exact ⟨o', List.mem_cons_of_mem _ ho', h⟩
      · rintro ⟨o', ho', h1, h2⟩
        rcases List.mem_cons.1 ho' with rfl | ho'
        · exact absurd h1 ha
        · exact ⟨o', ho', h1, h2⟩

theorem falseParametersLoop_extra (componentName : String)
    (params : parameters.LockedParameters) (optionalRequires : List (String × List String)) :
    ∀ falseParameters : List String, ∃ extra : List String,
      lifecycle.falseParametersLoop componentName params optionalRequires falseParameters =
          falseParameters ++ extra ∧
        (extra ≠ [] ↔ ∃ entry ∈ optionalRequires, '.' ∈ entry.1.toList ∧
          ∃ optionalFor ∈ entry.2,
            (optionalFor = "*" ∨ optionalFor = componentName) ∧
              ((∃ e ∈ params, (e.2.Name = entry.1 ∧
                  (e.2.Component = "" ∨ e.2.Component = componentName)) ∧
                  e.2.Value ∈ lifecycle.falseParameterValues) ∨
                ((¬ ∃ e ∈ params, e.2.Name = entry.1 ∧
                  (e.2.Component = "" ∨ e.2.Component = componentName)) ∧
                  optionalFor ≠ "*"))) := by
  induction optionalRequires with
  | nil => intro acc; exact ⟨[], by simp [lifecycle.falseParametersLoop]⟩
  | cons entry rest ih =>
    obtain ⟨term, l⟩ := entry
    intro acc
    rw [lifecycle.falseParametersLoop]
    by_cases hd : strings.Contains term '.' = true
    · rw [if_pos hd]
      have hd' : '.' ∈ term.toList := by simpa [strings.Contains] using hd
      obtain ⟨x1, h1, hiff1⟩ := falseParametersOfList_extra componentName params term l acc
      obtain ⟨x2, h2, hiff2⟩ := ih (acc ++ x1)
      refine ⟨x1 ++ x2, ?_, ?_⟩
      · rw [h1, h2]; simp
      · rw [append_ne_nil_iff, hiff1, hiff2]
        constructor
        · rintro (h | ⟨en, hen, h⟩)
          · exact ⟨(term, l), List.mem_cons_self _ _, hd', h⟩
          · exact ⟨en, List.mem_cons_of_mem _ hen, h⟩
        · rintro ⟨en, hen, h⟩
          rcases List.mem_cons.1 hen with rfl | hen
          · exact Or.inl h.2
          · exact Or.inr ⟨en, hen, h⟩
    · rw [if_neg hd]
      have hd' : ¬ '.' ∈ term.toList := by simpa [strings.Contains] using hd
      obtain ⟨x2, h2, hiff2⟩ := ih acc
      refine ⟨x2, h2, ?_⟩
      rw [hiff2]
      constructor
      · rintro ⟨en, hen, h⟩
        exact ⟨en, List.mem_cons_of_mem _ hen, h⟩
      · rintro ⟨en, hen, h⟩
        rcases List.mem_cons.1 hen with rfl | hen
        · exact absurd h.1 hd'
        · exact ⟨en, hen, h⟩

/-- When `calculateOptionalFalseParameters` returns a non-empty list, without
any assumption on the parameters: some parameter-like term that applies to the
component either has a matching parameter with a false value, or has no
matching parameter at all and names the component explicitly. -/
theorem calculateOptionalFalseParameters_nonempty_iff (componentName : String)
    (params : parameters.LockedParameters) (optionalRequires : GoMap (List String)) :
    lifecycle.calculateOptionalFalseParameters componentName params optionalRequires ≠ [] ↔
      ∃ entry ∈ optionalRequires, '.' ∈ entry.1.toList ∧
        ∃ optionalFor ∈ entry.2,
          (optionalFor = "*" ∨ optionalFor = componentName) ∧
            ((∃ e ∈ params, (e.2.Name = entry.1 ∧
                (e.2.Component = "" ∨ e.2.Component = componentName)) ∧
                e.2.Value ∈ lifecycle.falseParameterValues) ∨
              ((¬ ∃ e ∈ params, e.2.Name = entry.1 ∧
                (e.2.Component = "" ∨ e.2.Component = componentName)) ∧
                optionalFor ≠ "*")) := by
  obtain ⟨extra, he, hiff⟩ := falseParametersLoop_extra componentName params optionalRequires []
  unfold lifecycle.calculateOptionalFalseParameters
  rw [he, List.nil_append, hiff]

theorem falseParametersLoop_filter (componentName : String)
    (params : parameters.LockedParameters) (optionalRequires : List (String × List String)) :
    ∀ falseParameters : List String,
      lifecycle.falseParametersLoop componentName params optionalRequires falseParameters =
        lifecycle.falseParametersLoop componentName params
          (optionalRequires.filter (fun entry => strings.Contains entry.1 '.'))
          falseParameters := by
  induction optionalRequires with
  | nil => intro acc; rfl
  | cons entry rest ih =>
    obtain ⟨term, l⟩ := entry
    intro acc
    by_cases hd : strings.Contains term '.' = true
    · rw [List.filter_cons]
      simp only [hd, if_true]
      rw [lifecycle.falseParametersLoop, lifecycle.falseParametersLoop, if_pos hd, if_pos hd, ih]
    · rw [List.filter_cons]
      simp only [hd, Bool.false_eq_true, if_false]
      rw [lifecycle.falseParametersLoop, if_neg hd, ih]

/-- C7: when every parameter-like term (a key that contains `.`) that is
optional for the component or for `*` has a matching parameter (same name,
unqualified or qualified for this component), `calculateOptionalFalseParameters`
returns a non-empty list, so that the component is skipped, exactly when some
such term has a matching parameter whose value is one of `""`, `"false"`,
`"0"`, `"no"`, `"(unknown)"`; the terms without `.` do not enter the result. -/
theorem calculateOptionalFalseParameters_skip_iff (componentName : String)
    (params : parameters.LockedParameters) (optionalRequires : GoMap (List String))
    (hmatch : ∀ entry ∈ optionalRequires, '.' ∈ entry.1.toList →
      (componentName ∈ entry.2 ∨ "*" ∈ entry.2) →
      ∃ e ∈ params, e.2.Name = entry.1 ∧
        (e.2.Component = "" ∨ e.2.Component = componentName)) :
    (lifecycle.calculateOptionalFalseParameters componentName params optionalRequires ≠ [] ↔
      ∃ entry ∈ optionalRequires, '.' ∈ entry.1.toList ∧
        (componentName ∈ entry.2 ∨ "*" ∈ entry.2) ∧
        ∃ e ∈ params, e.2.Name = entry.1 ∧
          (e.2.Component = "" ∨ e.2.Component = componentName) ∧
          (e.2.Value = "" ∨ e.2.Value = "false" ∨ e.2.Value = "0" ∨ e.2.Value = "no" ∨
            e.2.Value = "(unknown)")) ∧
      lifecycle.calculateOptionalFalseParameters componentName params optionalRequires =
        lifecycle.calculateOptionalFalseParameters componentName params
          (optionalRequires.filter (fun entry => strings.Contains entry.1 '.')) := by
  refine ⟨?_, falseParametersLoop_filter componentName params optionalRequires []⟩
  rw [calculateOptionalFalseParameters_nonempty_iff]
  have hval : ∀ v : String, v ∈ lifecycle.falseParameterValues ↔
      (v = "" ∨ v = "false" ∨ v = "0" ∨ v = "no" ∨ v = "(unknown)") := by
    intro v; simp [lifecycle.falseParameterValues]
  constructor
  · rintro ⟨entry, hentry, hdot, o, ho, happ, hcase⟩
    have hfor : componentName ∈ entry.2 ∨ "*" ∈ entry.2 := by
      rcases happ with h | h
      · exact Or.inr (h ▸ ho)
      · exact Or.inl (h ▸ ho)
    rcases hcase with ⟨e, he, hm, hv⟩ | ⟨hno, _⟩
    · exact ⟨entry, hentry, hdot, hfor, e, he, hm.1, hm.2, (hval _).1 hv⟩
    · exact absurd (hmatch entry hentry hdot hfor) hno
  · rintro ⟨entry, hentry, hdot, hfor, e, he, hn, hc, hv⟩
    rcases hfor with h | h
    · exact ⟨entry, hentry, hdot, componentName, h, Or.inr rfl,
        Or.inl ⟨e, he, ⟨hn, hc⟩, (hval _).2 hv⟩⟩
    · exact ⟨entry, hentry, hdot, "*", h, Or.inl rfl,
        Or.inl ⟨e, he, ⟨hn, hc⟩, (hval _).2 hv⟩⟩

/-- Instance of C7: for component `b` both parameter-like terms have a matching
parameter, and `feature.on` has the false value `no`. -/
theorem calculateOptionalFalseParameters_skip_iff_witness :
    (∀ entry ∈ [("feature.on", ["b"]), ("vault", ["*"]), ("cache.enabled", ["*"])],
      '.' ∈ entry.1.toList → ("b" ∈ entry.2 ∨ "*" ∈ entry.2) →
      ∃ e ∈ [("feature.on", ({ Name := "feature.on", Value := "no" } :
            parameters.LockedParameter)),
          ("cache.enabled|b", { Name := "cache.enabled", Component := "b", Value := "true" })],
        e.2.Name = entry.1 ∧ (e.2.Component = "" ∨ e.2.Component = "b")) ∧
      lifecycle.calculateOptionalFalseParameters "b"
        [("feature.on", { Name := "feature.on", Value := "no" }),
          ("cache.enabled|b", { Name := "cache.enabled", Component := "b", Value := "true" })]
        [("feature.on", ["b"]), ("vault", ["*"]), ("cache.enabled", ["*"])] ≠ [] :=
  ⟨by decide,
    (calculateOptionalFalseParameters_skip_iff "b"
      [("feature.on", { Name := "feature.on", Value := "no" }),
        ("cache.enabled|b", { Name := "cache.enabled", Component := "b", Value := "true" })]
      [("feature.on", ["b"]), ("vault", ["*"]), ("cache.enabled", ["*"])]
      (by decide)).1.2
      ⟨("feature.on", ["b"]), by decide, by decide, by decide,
        ("feature.on", { Name := "feature.on", Value := "no" }), by decide, rfl, Or.inl rfl,
        by decide⟩⟩

theorem guessOffset_pos (components : GoMap state.StateStep) (l : List String) :
    ∀ i, 0 < i → lifecycle.Execute.guessOffset components l i =
      l.find? (fun c => (components.get c).isSome) := by
  induction l with
  | nil => intro i _; rfl
  | cons c rest ih =>
    intro i hi
    have hi' : i ≠ 0 := Nat.pos_iff_ne_zero.1 hi
    by_cases hp : (components.get c).isSome = true
    · simp [lifecycle.Execute.guessOffset, hp, hi', List.find?_cons]
    · simp [lifecycle.Execute.guessOffset, hp, List.find?_cons, ih (i + 1) (Nat.succ_pos i)]

theorem guessOffset_zero (components : GoMap state.StateStep) (l : List String) :
    (lifecycle.Execute.guessOffset components l 0).getD "" =
      match l.find? (fun c => (components.get c).isSome) with
      | some c => if l.head? = some c then "" else c
      | none => "" := by
  cases l with
  | nil => rfl
  | cons first rest =>
    by_cases hp : (components.get first).isSome = true
    · simp [lifecycle.Execute.guessOffset, hp, List.find?_cons]
    · rw [lifecycle.Execute.guessOffset, if_neg hp, guessOffset_pos components rest 1 Nat.one_pos,
        List.find?_cons]
      simp only [hp, List.head?_cons]
      cases hf : rest.find? (fun c => (components.get c).isSome) with
      | none => rfl
      | some c =>
        have hc : (components.get c).isSome = true :=
          List.find?_some (p := fun c => (components.get c).isSome) hf
        have hne : ¬ first = c := by
          rintro rfl
          exact hp hc
        simp [hne]

theorem drop_takeWhile_length (p : String → Bool) (l : List String) :
    l.drop (l.takeWhile p).length = l.dropWhile p := by
  induction l with
  | nil => rfl
  | cons a rest ih =>
    by_cases h : p a = true
    · simp [List.takeWhile_cons, List.dropWhile_cons, h, ih]
    · simp [List.takeWhile_cons, List.dropWhile_cons, h]

theorem IndexLoop_of_find (components : GoMap state.StateStep) (c : String) (l : List String) :
    ∀ i : Nat, l.find? (fun c => (components.get c).isSome) = some c →
      util.IndexLoop c l i =
        ((i + (l.takeWhile (fun x => !(components.get x).isSome)).length : Nat) : Int) := by
  induction l with
  | nil => intro i h; simp at h
  | cons a rest ih =>
    intro i h
    by_cases hp : (components.get a).isSome = true
    · have hca : c = a := by
        rw [List.find?_cons] at h
        simp only [hp] at h
        exact (Option.some.inj h).symm
      simp [util.IndexLoop, hca, List.takeWhile_cons, hp]
      intro hn
      rw [hn] at hp
      simp at hp
    · have h' : rest.find? (fun c => (components.get c).isSome) = some c := by
        rw [List.find?_cons] at h
        simpa only [hp] using h
      have hc : (components.get c).isSome = true :=
        List.find?_some (p := fun c => (components.get c).isSome) h'
      have hne : ¬ c = a := by
        rintro rfl
        exact hp hc
      rw [util.IndexLoop, if_neg hne, ih (i + 1) h']
      simp only [List.takeWhile_cons, hp, Bool.not_false, if_true, List.length_cons,
        Bool.false_eq_true, Bool.not_eq_true]
      congr 1
      simp only [Bool.not_eq_true] at hp
      simp [hp]
      omega

theorem selectedFrom_all (request : lifecycle.Request) (t : lifecycle.Execute.Traversal)
    (hsel : request.Components = []) (hoff : t.offsetComponentIndex < 0)
    (hlim : t.limitComponentIndex < 0) (l : List String) :
    ∀ i, lifecycle.Execute.selectedFrom request t l i = l := by
  induction l with
  | nil => intro i; rfl
  | cons a rest ih =>
    intro i
    have h1 : ¬ t.offsetComponentIndex ≥ 0 := by omega
    have h2 : ¬ t.limitComponentIndex ≥ 0 := by omega
    simp [lifecycle.Execute.selectedFrom, lifecycle.Execute.skip, hsel, h1, h2, ih]

theorem selectedFrom_offset (request : lifecycle.Request) (t : lifecycle.Execute.Traversal)
    (k : Nat) (hsel : request.Components = []) (hoff : t.offsetComponentIndex = (k : Int))
    (hlim : t.limitComponentIndex < 0) (l : List String) :
    ∀ i, lifecycle.Execute.selectedFrom request t l i = l.drop (k - i) := by
  induction l with
  | nil => intro i; simp [lifecycle.Execute.selectedFrom]
  | cons a rest ih =>
    intro i
    have h2 : ¬ t.limitComponentIndex ≥ 0 := by omega
    by_cases hik : i < k
    · have h3 : (i : Int) < (k : Int) := by omega
      have h4 : k - i = (k - (i + 1)) + 1 := by omega
      rw [h4, List.drop_succ_cons]
      simp [lifecycle.Execute.selectedFrom, lifecycle.Execute.skip, hsel, hoff, h2, h3, ih]
    · have h3 : ¬ (i : Int) < (k : Int) := by omega
      have h4 : k - i = 0 := by omega
      have h5 : k - (i + 1) = 0 := by omega
      rw [h4, List.drop_zero]
      simp [lifecycle.Execute.selectedFrom, lifecycle.Execute.skip, hsel, hoff, h2, h3, ih, h5]

theorem traversal_undeploy_guess (request : lifecycle.Request) (order : List String)
    (st : state.StateManifest)
    (hverb : strings.HasPrefix request.Verb "undeploy" = true)
    (hguess : request.GuessComponent = true) (hoff : request.OffsetComponent = "")
    (hsel : request.Components = []) :
    lifecycle.Execute.traversal request order (some st) =
      Except.ok
        { order := util.Reverse order
          OffsetComponent :=
            (lifecycle.Execute.guessOffset st.Components (util.Reverse order) 0).getD ""
          offsetGuessed :=
            (lifecycle.Execute.guessOffset st.Components (util.Reverse order) 0).isSome
          offsetComponentIndex := util.Index (util.Reverse order)
            ((lifecycle.Execute.guessOffset st.Components (util.Reverse order) 0).getD "")
          limitComponentIndex := util.Index (util.Reverse order) request.LimitComponent } := by
  unfold lifecycle.Execute.traversal
  simp only [hverb, hguess, hoff, hsel, List.length_nil, gt_iff_lt, Nat.lt_irrefl,
    decide_False, ne_eq, not_true_eq_false, Bool.or_self, Bool.not_false, Bool.and_self,
    if_true]
  rw [if_neg]
  rintro ⟨h1, _, _, h4⟩
  cases hg : lifecycle.Execute.guessOffset st.Components (util.Reverse order) 0 with
  | none =>
    rw [hg] at h1
    simp [util.Index] at h1
  | some c =>
    rw [hg] at h4
    simp at h4

/-- C5, as the code has it: for an undeploy with `guessComponent` set, empty
offset, empty component selection and an existing state, the traversal is
computed without error over the reversed order, and the offset component is
the first component of the reversed order whose state entry is present,
unless that component is the very first of the reversed order (or no
component has a state entry), in which case the offset stays empty.  With no
limit set, the loop visits the reversed order from the first component with a
state entry on, and the whole reversed order when no component has one. -/
theorem undeploy_guess_offset (request : lifecycle.Request) (order : List String)
    (st : state.StateManifest)
    (hverb : strings.HasPrefix request.Verb "undeploy" = true)
    (hguess : request.GuessComponent = true) (hoff : request.OffsetComponent = "")
    (hsel : request.Components = []) :
    ∃ t, lifecycle.Execute.traversal request order (some st) = Except.ok t ∧
      t.order = util.Reverse order ∧
      t.OffsetComponent =
        (match (util.Reverse order).find? (fun c => (st.Components.get c).isSome) with
          | some c => if (util.Reverse order).head? = some c then "" else c
          | none => "") ∧
      (request.LimitComponent = "" → "" ∉ order →
        lifecycle.Execute.selected request t =
          match (util.Reverse order).find? (fun c => (st.Components.get c).isSome) with
          | some _ => (util.Reverse order).dropWhile (fun c => !(st.Components.get c).isSome)
          | none => util.Reverse order) := by
  refine ⟨_, traversal_undeploy_guess request order st hverb hguess hoff hsel, rfl,
    guessOffset_zero st.Components (util.Reverse order), ?_⟩
  intro hlim hempty
  unfold lifecycle.Execute.selected
  simp only []
  have hlimIdx : util.Index (util.Reverse order) request.LimitComponent < 0 := by
    simp [util.Index, hlim]
  rw [guessOffset_zero st.Components (util.Reverse order)]
  cases hf : (util.Reverse order).find? (fun c => (st.Components.get c).isSome) with
  | none =>
    simp only []
    exact selectedFrom_all request _ hsel (by simp [util.Index]) hlimIdx _ 0
  | some c =>
    simp only []
    have hc : (st.Components.get c).isSome = true :=
      List.find?_some (p := fun c => (st.Components.get c).isSome) hf
    by_cases hh : (util.Reverse order).head? = some c
    · rw [if_pos hh]
      have hdw : (util.Reverse order).dropWhile (fun c => !(st.Components.get c).isSome) =
          util.Reverse order := by
        cases hr : util.Reverse order with
        | nil => rfl
        | cons a rest =>
          rw [hr] at hh
          have hac : a = c := by simpa using hh
          rw [List.dropWhile_cons, hac, hc]
          rfl
      rw [hdw]
      exact selectedFrom_all request _ hsel (by simp [util.Index]) hlimIdx _ 0
    · rw [if_neg hh]
      have hmem : c ∈ util.Reverse order := List.mem_of_find?_eq_some hf
      have hne : c ≠ "" := by
        rintro rfl
        rw [Reverse_eq_reverse, List.mem_reverse] at hmem
        exact hempty hmem
      have hidx : util.Index (util.Reverse order) c =
          (((util.Reverse order).takeWhile
            (fun x => !(st.Components.get x).isSome)).length : Int) := by
        unfold util.Index
        rw [if_pos hne, IndexLoop_of_find st.Components c _ 0 hf, Nat.zero_add]
      rw [selectedFrom_offset request _ _ hsel hidx hlimIdx _ 0, Nat.sub_zero,
        drop_takeWhile_length]

/-- Instance of C5: with order `[a, b, c]` and state entries for `a` and `b`
only, the offset becomes `b`, the traversal visits `b` then `a`, and `c` is
skipped. -/
theorem undeploy_guess_offset_witness :
    strings.HasPrefix "undeploy" "undeploy" = true ∧
      ∃ t, lifecycle.Execute.traversal { Verb := "undeploy", GuessComponent := true }
          ["a", "b", "c"] (some { Components := [("a", {}), ("b", {})] }) = Except.ok t ∧
        t.order = ["c", "b", "a"] ∧ t.OffsetComponent = "b" ∧
        lifecycle.Execute.selected { Verb := "undeploy", GuessComponent := true } t =
          ["b", "a"] := by
  refine ⟨by decide, ?_⟩
  obtain ⟨t, h1, h2, h3, h4⟩ := undeploy_guess_offset
    { Verb := "undeploy", GuessComponent := true } ["a", "b", "c"]
    { Components := [("a", {}), ("b", {})] } (by decide) rfl rfl rfl
  refine ⟨t, h1, ?_, ?_, ?_⟩
  · rw [h2]; decide
  · rw [h3]; decide
  · rw [h4 rfl (by decide)]; decide

/-- C5 fails as stated: with order `[a, b, c]` and state entries for `b` and
`c` only, the first component of the reversed order, `c`, has a state entry,
so the guess loop leaves the offset empty; the traversal visits `c`, `b` and
`a`, and `a` is not skipped. -/
theorem undeploy_guess_first_has_state :
    lifecycle.Execute.traversal { Verb := "undeploy", GuessComponent := true }
        ["a", "b", "c"] (some { Components := [("b", {}), ("c", {})] }) =
        Except.ok
          { order := ["c", "b", "a"]
            OffsetComponent := ""
            offsetGuessed := false
            offsetComponentIndex := -1
            limitComponentIndex := -1 } ∧
      lifecycle.Execute.selected { Verb := "undeploy", GuessComponent := true }
        { order := ["c", "b", "a"]
          OffsetComponent := ""
          offsetGuessed := false
          offsetComponentIndex := -1
          limitComponentIndex := -1 } = ["c", "b", "a"] := by
  constructor
  · rfl
  · decide

theorem trim_decompose (p : Char → Bool) (l : List Char) :
    ∃ pre suf : List Char,
      l = pre ++ ((l.dropWhile p).reverse.dropWhile p).reverse ++ suf ∧
        (∀ c ∈ pre, p c = true) ∧ (∀ c ∈ suf, p c = true) := by
  refine ⟨l.takeWhile p, (((l.dropWhile p).reverse).takeWhile p).reverse, ?_, ?_, ?_⟩
  · have h1 : (l.dropWhile p) =
        ((l.dropWhile p).reverse.dropWhile p).reverse ++
          (((l.dropWhile p).reverse).takeWhile p).reverse := by
      rw [← List.reverse_append, List.takeWhile_append_dropWhile, List.reverse_reverse]
    rw [List.append_assoc, ← h1, List.takeWhile_append_dropWhile]
  · intro c hc
    exact List.mem_takeWhile_imp hc
  · intro c hc
    exact List.mem_takeWhile_imp (List.mem_reverse.1 hc)

theorem trim_head_not (p : Char → Bool) (l : List Char) (c : Char)
    (h : (((l.dropWhile p).reverse.dropWhile p).reverse).head? = some c) : p c = false := by
  have hpre : ((l.dropWhile p).reverse.dropWhile p).reverse <+: l.dropWhile p :=
    List.rdropWhile_prefix p (l.dropWhile p)
  obtain ⟨suf, hs⟩ := hpre
  cases ht : ((l.dropWhile p).reverse.dropWhile p).reverse with
  | nil => rw [ht] at h; simp at h
  | cons a rest =>
    rw [ht] at h hs
    have hac : a = c := by simpa using h
    have hh := List.head?_dropWhile_not p l
    rw [← hs] at hh
    simpa [hac] using hh

theorem trim_last_not (p : Char → Bool) (l : List Char) (c : Char)
    (h : (((l.dropWhile p).reverse.dropWhile p).reverse).getLast? = some c) : p c = false := by
  rw [List.getLast?_reverse] at h
  have hh := List.head?_dropWhile_not p (l.dropWhile p).reverse
  rw [h] at hh
  exact hh

/-- What `strings.TrimSpace` returns: the string without a leading and a
trailing run of white space, neither starting nor ending with white space. -/
theorem TrimSpace_spec (v : String) :
    (∃ pre suf : List Char, v.toList = pre ++ (strings.TrimSpace v).toList ++ suf ∧
        (∀ c ∈ pre, unicode.IsSpace c = true) ∧ (∀ c ∈ suf, unicode.IsSpace c = true)) ∧
      (∀ c, (strings.TrimSpace v).toList.head? = some c → unicode.IsSpace c = false) ∧
      (∀ c, (strings.TrimSpace v).toList.getLast? = some c → unicode.IsSpace c = false) :=
  ⟨trim_decompose unicode.IsSpace v.toList, trim_head_not unicode.IsSpace v.toList,
    trim_last_not unicode.IsSpace v.toList⟩

theorem parametersInEnvLoop_entries (params : List (String × parameters.LockedParameter)) :
    ∀ (envParameters : List String) (envSetBy envValue : GoMap String),
      (lifecycle.parametersInEnvLoop params envParameters envSetBy envValue).1 =
        envParameters ++ (params.filter (fun e => decide (e.2.Env ≠ ""))).map
          (fun e => e.2.Env ++ "=" ++ strings.TrimSpace e.2.Value) := by
  induction params with
  | nil => intro ep sb ev; simp [lifecycle.parametersInEnvLoop]
  | cons e rest ih =>
    obtain ⟨k, parameter⟩ := e
    intro ep sb ev
    by_cases h : parameter.Env = ""
    · rw [lifecycle.parametersInEnvLoop, if_pos h, ih, List.filter_cons]
      simp only [h, ne_eq, not_true_eq_false, decide_False, Bool.false_eq_true, if_false]
    · rw [lifecycle.parametersInEnvLoop, if_neg h, ih, List.filter_cons]
      simp only [h, ne_eq, not_false_eq_true, decide_True, if_true, List.map_cons,
        List.append_assoc, List.singleton_append]

theorem GoMap_isSome_set (m : GoMap String) (k p v : String) :
    ((m.set k v).get p).isSome = true ↔ (k = p ∨ (m.get p).isSome = true) := by
  by_cases h : k = p
  · subst h
    simp [GoMap_get_set_self]
  · simp [GoMap_get_set_ne m k p v h, h]

theorem parametersInEnvLoop_setBy (name : String)
    (params : List (String × parameters.LockedParameter)) :
    ∀ (envParameters : List String) (envSetBy envValue : GoMap String),
      ((lifecycle.parametersInEnvLoop params envParameters envSetBy envValue).2.1.get
          name).isSome = true ↔
        ((envSetBy.get name).isSome = true ∨
          ∃ e ∈ params, e.2.Env ≠ "" ∧ e.2.Env = name) := by
  induction params with
  | nil => intro ep sb ev; simp [lifecycle.parametersInEnvLoop]
  | cons e rest ih =>
    obtain ⟨k, parameter⟩ := e
    intro ep sb ev
    by_cases h : parameter.Env = ""
    · rw [lifecycle.parametersInEnvLoop, if_pos h, ih]
      simp [h]
    · rw [lifecycle.parametersInEnvLoop, if_neg h, ih, GoMap_isSome_set]
      simp only [List.mem_cons, exists_eq_or_imp, ne_eq, h, not_false_eq_true, true_and]
      tauto

/-- The list `parametersInEnv` hands to `mergeOsEnviron`. -/
theorem parametersInEnv_eq (merge : List (List String) → List String) (componentName : String)
    (componentParameters : parameters.LockedParameters) :
    lifecycle.parametersInEnv merge componentName componentParameters =
      merge [(componentParameters.filter (fun e => decide (e.2.Env ≠ ""))).map
          (fun e => e.2.Env ++ "=" ++ strings.TrimSpace e.2.Value) ++
        (if ∃ e ∈ componentParameters, e.2.Env = "COMPONENT_NAME" then []
          else ["COMPONENT_NAME" ++ "=" ++ componentName]) ++
        ["HUB_COMPONENT" ++ "=" ++ componentName]] := by
  unfold lifecycle.parametersInEnv
  simp only [lifecycle.HubEnvVarNameComponentName]
  rw [parametersInEnvLoop_entries, List.nil_append]
  have hset : ((lifecycle.parametersInEnvLoop componentParameters [] [] []).2.1.get
      "COMPONENT_NAME").isNone = true ↔
      ¬ ∃ e ∈ componentParameters, e.2.Env = "COMPONENT_NAME" := by
    rw [← Option.not_isSome, ← Bool.not_eq_true, parametersInEnvLoop_setBy]
    have hne : ¬ "COMPONENT_NAME" = "" := by decide
    constructor
    · rintro h ⟨e, he, heq⟩
      exact h (Or.inr ⟨e, he, by rw [heq]; exact hne, heq⟩)
    · rintro h (h1 | ⟨e, he, _, heq⟩)
      · simp [GoMap.get] at h1
      · exact h ⟨e, he, heq⟩
  by_cases hex : ∃ e ∈ componentParameters, e.2.Env = "COMPONENT_NAME"
  · rw [if_neg (fun h => (hset.1 h) hex), if_pos hex, List.append_nil]
  · rw [if_pos (hset.2 hex), if_neg hex]

theorem takeWhile_until (p : Char → Bool) (l r : List Char) (c : Char)
    (hl : ∀ a ∈ l, p a = true) (hc : p c = false) : (l ++ c :: r).takeWhile p = l := by
  induction l with
  | nil => simp [List.takeWhile_cons, hc]
  | cons a rest ih =>
    have ha : p a = true := hl a (List.mem_cons_self _ _)
    rw [List.cons_append, List.takeWhile_cons, ha, if_pos rfl,
      ih (fun x hx => hl x (List.mem_cons_of_mem _ hx))]

theorem envName_entry (name value : String) (h : '=' ∉ name.toList) :
    lifecycle.envName (name ++ "=" ++ value) = name := by
  unfold lifecycle.envName
  have hl : (name ++ "=" ++ value).toList = name.toList ++ '=' :: value.toList := by
    show (name ++ "=" ++ value).data = name.data ++ '=' :: value.data
    rw [String.data_append, String.data_append]
    simp
  have hp : ∀ a ∈ name.toList, (fun c : Char => decide (c ≠ '=')) a = true := by
    intro a ha
    have : a ≠ '=' := by
      rintro rfl
      exact h ha
    simpa using this
  rw [hl, takeWhile_until _ name.toList value.toList '=' hp (by simp)]
  rfl

theorem mergeLastWins_subset (l : List String) : ∀ x ∈ lifecycle.mergeLastWins l, x ∈ l := by
  induction l with
  | nil => intro x hx; simp [lifecycle.mergeLastWins] at hx
  | cons a rest ih =>
    intro x hx
    rw [lifecycle.mergeLastWins] at hx
    split at hx
    · exact List.mem_cons_of_mem _ (ih x hx)
    · rcases List.mem_cons.1 hx with rfl | hx
      · exact List.mem_cons_self _ _
      · exact List.mem_cons_of_mem _ (ih x hx)

theorem mem_mergeLastWins (pre : List String) (x : String) (post : List String)
    (h : ∀ y ∈ post, lifecycle.envName y ≠ lifecycle.envName x) :
    x ∈ lifecycle.mergeLastWins (pre ++ x :: post) := by
  induction pre with
  | nil =>
    rw [List.nil_append, lifecycle.mergeLastWins, if_neg]
    · exact List.mem_cons_self _ _
    · simp only [List.any_eq_true, decide_eq_true_eq, not_exists, not_and]
      exact h
  | cons a rest ih =>
    rw [List.cons_append, lifecycle.mergeLastWins]
    split
    · exact ih
    · exact List.mem_cons_of_mem _ ih

theorem mem_mergeOsEnviron_single (x : String) (l : List String) :
    x ∈ lifecycle.mergeOsEnviron [l] ↔ x ∈ lifecycle.mergeLastWins l := by
  unfold lifecycle.mergeOsEnviron
  rw [List.mem_insertionSort]
  simp

theorem mem_mergeLastWins_iff (l : List String) (x : String) :
    x ∈ lifecycle.mergeLastWins l ↔
      ∃ before after : List String, l = before ++ x :: after ∧
        ∀ y ∈ after, lifecycle.envName y ≠ lifecycle.envName x := by
  constructor
  · induction l with
    | nil => intro h; simp [lifecycle.mergeLastWins] at h
    | cons a rest ih =>
      intro h
      rw [lifecycle.mergeLastWins] at h
      split at h
      · obtain ⟨b, c, hb, hc⟩ := ih h
        exact ⟨a :: b, c, by rw [hb]; rfl, hc⟩
      · rename_i hany
        rcases List.mem_cons.1 h with rfl | h
        · refine ⟨[], rest, rfl, ?_⟩
          simpa using hany
        · obtain ⟨b, c, hb, hc⟩ := ih h
          exact ⟨a :: b, c, by rw [hb]; rfl, hc⟩
  · rintro ⟨b, c, rfl, hc⟩
    exact mem_mergeLastWins b x c hc

theorem mergeLastWins_name_unique (l : List String) :
    ∀ x ∈ lifecycle.mergeLastWins l, ∀ y ∈ lifecycle.mergeLastWins l,
      lifecycle.envName x = lifecycle.envName y → x = y := by
  induction l with
  | nil => intro x hx; simp [lifecycle.mergeLastWins] at hx
  | cons a rest ih =>
    intro x hx y hy hn
    by_cases hany : (rest.any (fun later =>
        decide (lifecycle.envName later = lifecycle.envName a))) = true
    · rw [lifecycle.mergeLastWins, if_pos hany] at hx hy
      exact ih x hx y hy hn
    · rw [lifecycle.mergeLastWins, if_neg hany] at hx hy
      have hno : ∀ z ∈ rest, lifecycle.envName z ≠ lifecycle.envName a := by
        simpa using hany
      rcases List.mem_cons.1 hx with hxa | hx
      · rcases List.mem_cons.1 hy with hya | hy
        · rw [hxa, hya]
        · exfalso
          apply hno y (mergeLastWins_subset rest y hy)
          rw [← hn, hxa]
      · rcases List.mem_cons.1 hy with hya | hy
        · exfalso
          apply hno x (mergeLastWins_subset rest x hx)
          rw [hn, hya]
        · exact ih x hx y hy hn

theorem mergeLastWins_name_exists (l : List String) :
    ∀ y ∈ l, ∃ x ∈ lifecycle.mergeLastWins l,
      lifecycle.envName x = lifecycle.envName y := by
  induction l with
  | nil => intro y hy; exact absurd hy (List.not_mem_nil _)
  | cons a rest ih =>
    intro y hy
    by_cases hany : (rest.any (fun later =>
        decide (lifecycle.envName later = lifecycle.envName a))) = true
    · rw [lifecycle.mergeLastWins, if_pos hany]
      rcases List.mem_cons.1 hy with hya | hy
      · obtain ⟨later, hlater, hname⟩ : ∃ later ∈ rest,
            lifecycle.envName later = lifecycle.envName a := by
          simpa using hany
        obtain ⟨x, hx, hxn⟩ := ih later hlater
        exact ⟨x, hx, by rw [hxn, hname, hya]⟩
      · exact ih y hy
    · rw [lifecycle.mergeLastWins, if_neg hany]
      rcases List.mem_cons.1 hy with hya | hy
      · exact ⟨a, List.mem_cons_self _ _, by rw [hya]⟩
      · obtain ⟨x, hx, hxn⟩ := ih y hy
        exact ⟨x, List.mem_cons_of_mem _ hx, hxn⟩

/-- C9, as the code has it: for every component name and every locked
parameter map, the child environment built by `parametersInEnv` contains the
tool-owned entry `HUB_COMPONENT=<qualified component name>`.  When no parameter
declares the env name `COMPONENT_NAME`, it contains
`COMPONENT_NAME=<qualified component name>`.  When some parameter declares the
env name `COMPONENT_NAME`, the default is not added: the environment is merged
from the entries of the parameters and the `HUB_COMPONENT` entry alone, it has
an entry of the name `COMPONENT_NAME`, every such entry is the entry
`<Env>=<trimmed value>` of a parameter (of one that declares `COMPONENT_NAME`,
unless its env name contains `=`), and `COMPONENT_NAME=<qualified component
name>` is absent unless it is the entry of a parameter. -/
theorem parametersInEnv_component_entries (componentName : String)
    (componentParameters : parameters.LockedParameters) :
    ("HUB_COMPONENT=" ++ componentName) ∈
        lifecycle.parametersInEnv lifecycle.mergeOsEnviron componentName componentParameters ∧
      ((¬ ∃ e ∈ componentParameters, e.2.Env = "COMPONENT_NAME") →
        ("COMPONENT_NAME=" ++ componentName) ∈
          lifecycle.parametersInEnv lifecycle.mergeOsEnviron componentName
            componentParameters) ∧
      ((∃ e ∈ componentParameters, e.2.Env = "COMPONENT_NAME") →
        (∀ merge : List (List String) → List String,
          lifecycle.parametersInEnv merge componentName componentParameters =
            merge [(componentParameters.filter (fun e => decide (e.2.Env ≠ ""))).map
                (fun e => e.2.Env ++ "=" ++ strings.TrimSpace e.2.Value) ++
              ["HUB_COMPONENT=" ++ componentName]]) ∧
          (∃ x ∈ lifecycle.parametersInEnv lifecycle.mergeOsEnviron componentName
              componentParameters, lifecycle.envName x = "COMPONENT_NAME") ∧
          (∀ x ∈ lifecycle.parametersInEnv lifecycle.mergeOsEnviron componentName
              componentParameters,
            lifecycle.envName x = "COMPONENT_NAME" →
              ∃ e ∈ componentParameters, e.2.Env ≠ "" ∧
                x = e.2.Env ++ "=" ++ strings.TrimSpace e.2.Value ∧
                ('=' ∉ e.2.Env.toList → e.2.Env = "COMPONENT_NAME")) ∧
          ((∀ e ∈ componentParameters, e.2.Env ≠ "" →
              e.2.Env ++ "=" ++ strings.TrimSpace e.2.Value ≠
                "COMPONENT_NAME=" ++ componentName) →
            ("COMPONENT_NAME=" ++ componentName) ∉
              lifecycle.parametersInEnv lifecycle.mergeOsEnviron componentName
                componentParameters)) := by
  have hH : "HUB_COMPONENT" ++ "=" ++ componentName = "HUB_COMPONENT=" ++ componentName := rfl
  have hC : "COMPONENT_NAME" ++ "=" ++ componentName = "COMPONENT_NAME=" ++ componentName := rfl
  have hHn : lifecycle.envName ("HUB_COMPONENT=" ++ componentName) = "HUB_COMPONENT" := by
    rw [← hH]; exact envName_entry _ _ (by decide)
  have hCn : lifecycle.envName ("COMPONENT_NAME=" ++ componentName) = "COMPONENT_NAME" := by
    rw [← hC]; exact envName_entry _ _ (by decide)
  refine ⟨?_, ?_, ?_⟩
  · rw [parametersInEnv_eq, hH, hC, mem_mergeOsEnviron_single]
    exact mem_mergeLastWins _ _ [] (by simp)
  · intro hex
    rw [parametersInEnv_eq, hH, hC, if_neg hex, mem_mergeOsEnviron_single, List.append_assoc]
    apply mem_mergeLastWins
    intro y hy
    have hy' : y = "HUB_COMPONENT=" ++ componentName := by simpa using hy
    rw [hy', hHn, hCn]
    decide
  · intro hex
    have hlist : ∀ merge : List (List String) → List String,
        lifecycle.parametersInEnv merge componentName componentParameters =
          merge [(componentParameters.filter (fun e => decide (e.2.Env ≠ ""))).map
              (fun e => e.2.Env ++ "=" ++ strings.TrimSpace e.2.Value) ++
            ["HUB_COMPONENT=" ++ componentName]] := by
      intro merge
      rw [parametersInEnv_eq, hH, if_pos hex, List.append_nil]
    have hfrom : ∀ x ∈ lifecycle.parametersInEnv lifecycle.mergeOsEnviron componentName
        componentParameters,
        x = "HUB_COMPONENT=" ++ componentName ∨
          ∃ e ∈ componentParameters, e.2.Env ≠ "" ∧
            x = e.2.Env ++ "=" ++ strings.TrimSpace e.2.Value := by
      intro x hx
      rw [hlist, mem_mergeOsEnviron_single] at hx
      rcases List.mem_append.1 (mergeLastWins_subset _ x hx) with hx1 | hx2
      · obtain ⟨e, he, rfl⟩ := List.mem_map.1 hx1
        have he' := List.mem_filter.1 he
        exact Or.inr ⟨e, he'.1, by simpa using he'.2, rfl⟩
      · exact Or.inl (by simpa using hx2)
    refine ⟨hlist, ?_, ?_, ?_⟩
    · obtain ⟨e, he, henv⟩ := hex
      have hmem : e.2.Env ++ "=" ++ strings.TrimSpace e.2.Value ∈
          (componentParameters.filter (fun e => decide (e.2.Env ≠ ""))).map
              (fun e => e.2.Env ++ "=" ++ strings.TrimSpace e.2.Value) ++
            ["HUB_COMPONENT=" ++ componentName] := by
        apply List.mem_append_left
        apply List.mem_map.2
        refine ⟨e, List.mem_filter.2 ⟨he, ?_⟩, rfl⟩
        rw [henv]
        decide
      obtain ⟨x, hx, hxn⟩ := mergeLastWins_name_exists _ _ hmem
      refine ⟨x, ?_, ?_⟩
      · rw [hlist, mem_mergeOsEnviron_single]
        exact hx
      · rw [hxn, henv]
        exact envName_entry _ _ (by decide)
    · intro x hx hname
      rcases hfrom x hx with hxe | ⟨e, he, hne, hxe⟩
      · rw [hxe, hHn] at hname
        exact absurd hname (by decide)
      · refine ⟨e, he, hne, hxe, ?_⟩
        intro hno
        rw [hxe, envName_entry _ _ hno] at hname
        exact hname
    · intro hno hx
      rcases hfrom _ hx with hxe | ⟨e, he, hne, hxe⟩
      · have := congrArg lifecycle.envName hxe
        rw [hHn, hCn] at this
        exact absurd this (by decide)
      · exact hno e he hne hxe.symm

/-- C9 fails as stated: a parameter that declares the env name `COMPONENT_NAME`
keeps `parametersInEnv` from adding `COMPONENT_NAME=<component>`; the list
handed to `mergeOsEnviron` holds the entry of the parameter only, and the
environment does not contain `COMPONENT_NAME=db`. -/
theorem parametersInEnv_component_name_set_by_parameter :
    (∀ merge : List (List String) → List String,
        lifecycle.parametersInEnv merge "db"
          [("component.name",
            { Name := "component.name", Value := "custom", Env := "COMPONENT_NAME" })] =
          merge [["COMPONENT_NAME=custom", "HUB_COMPONENT=db"]]) ∧
      lifecycle.parametersInEnv lifecycle.mergeOsEnviron "db"
        [("component.name",
          { Name := "component.name", Value := "custom", Env := "COMPONENT_NAME" })] =
        ["COMPONENT_NAME=custom", "HUB_COMPONENT=db"] ∧
      "COMPONENT_NAME=db" ∉ lifecycle.parametersInEnv lifecycle.mergeOsEnviron "db"
        [("component.name",
          { Name := "component.name", Value := "custom", Env := "COMPONENT_NAME" })] := by
  refine ⟨fun merge => rfl, by decide, by decide⟩

/-- Instance of C9: without a parameter for `COMPONENT_NAME` the default entry
is in the environment; with the parameter `component.name`, which declares
`COMPONENT_NAME`, the environment has the entry of the parameter and not the
default. -/
theorem parametersInEnv_component_entries_witness :
    (¬ ∃ e ∈ ([] : parameters.LockedParameters), e.2.Env = "COMPONENT_NAME") ∧
      "COMPONENT_NAME=db" ∈ lifecycle.parametersInEnv lifecycle.mergeOsEnviron "db" [] ∧
      (∃ e ∈ [("component.name",
        ({ Name := "component.name", Value := " custom ", Env := "COMPONENT_NAME" } :
          parameters.LockedParameter))], e.2.Env = "COMPONENT_NAME") ∧
      "COMPONENT_NAME=db" ∉ lifecycle.parametersInEnv lifecycle.mergeOsEnviron "db"
        [("component.name",
        ({ Name := "component.name", Value := " custom ", Env := "COMPONENT_NAME" } :
          parameters.LockedParameter))] := by
  have h0 := parametersInEnv_component_entries "db" []
  have h1 := parametersInEnv_component_entries "db"
    [("component.name",
        ({ Name := "component.name", Value := " custom ", Env := "COMPONENT_NAME" } :
          parameters.LockedParameter))]
  have hex : ∃ e ∈ [("component.name",
        ({ Name := "component.name", Value := " custom ", Env := "COMPONENT_NAME" } :
          parameters.LockedParameter))], e.2.Env = "COMPONENT_NAME" := by decide
  exact ⟨by decide, h0.2.1 (by decide), hex, (h1.2.2 hex).2.2.2 (by decide)⟩

/-- C10, as the code has it: `parametersInEnv` hands to `mergeOsEnviron`, in
the order in which it meets the parameters, exactly one entry `<Env>=<value>`
per parameter that declares a non-empty Env and none for a parameter with an
empty Env, followed by the entries for the component name; the value of each
entry is the value of the parameter without its leading and trailing white
space.  Of the entries of one env name the environment keeps the last: an entry
is emitted exactly when no later entry of the list has its env name.  So the
environment has exactly one entry of each env name a parameter declares, and
every entry of it is the entry of a parameter or one of the two entries for the
component name. -/
theorem parametersInEnv_one_entry_per_env (componentName : String)
    (componentParameters : parameters.LockedParameters) (envParameters : List String)
    (hlist : envParameters =
      (componentParameters.filter (fun e => decide (e.2.Env ≠ ""))).map
          (fun e => e.2.Env ++ "=" ++ strings.TrimSpace e.2.Value) ++
        (if ∃ e ∈ componentParameters, e.2.Env = "COMPONENT_NAME" then []
          else ["COMPONENT_NAME" ++ "=" ++ componentName]) ++
        ["HUB_COMPONENT" ++ "=" ++ componentName]) :
    (∀ merge : List (List String) → List String,
        lifecycle.parametersInEnv merge componentName componentParameters =
          merge [envParameters]) ∧
      (∀ x : String,
        x ∈ lifecycle.parametersInEnv lifecycle.mergeOsEnviron componentName
            componentParameters ↔
          ∃ before after : List String, envParameters = before ++ x :: after ∧
            ∀ y ∈ after, lifecycle.envName y ≠ lifecycle.envName x) ∧
      (∀ x ∈ lifecycle.parametersInEnv lifecycle.mergeOsEnviron componentName
          componentParameters,
        ∀ y ∈ lifecycle.parametersInEnv lifecycle.mergeOsEnviron componentName
          componentParameters,
        lifecycle.envName x = lifecycle.envName y → x = y) ∧
      (∀ e ∈ componentParameters, e.2.Env ≠ "" →
        ∃ x ∈ lifecycle.parametersInEnv lifecycle.mergeOsEnviron componentName
            componentParameters,
          lifecycle.envName x =
            lifecycle.envName (e.2.Env ++ "=" ++ strings.TrimSpace e.2.Value)) ∧
      (∀ x ∈ lifecycle.parametersInEnv lifecycle.mergeOsEnviron componentName
          componentParameters,
        x = "HUB_COMPONENT" ++ "=" ++ componentName ∨
          x = "COMPONENT_NAME" ++ "=" ++ componentName ∨
          ∃ e ∈ componentParameters, e.2.Env ≠ "" ∧
            x = e.2.Env ++ "=" ++ strings.TrimSpace e.2.Value) ∧
      ∀ v : String,
        (∃ pre suf : List Char, v.toList = pre ++ (strings.TrimSpace v).toList ++ suf ∧
          (∀ c ∈ pre, unicode.IsSpace c = true) ∧ (∀ c ∈ suf, unicode.IsSpace c = true)) ∧
        (∀ c, (strings.TrimSpace v).toList.head? = some c → unicode.IsSpace c = false) ∧
        (∀ c, (strings.TrimSpace v).toList.getLast? = some c → unicode.IsSpace c = false) := by
  have heq : ∀ merge : List (List String) → List String,
      lifecycle.parametersInEnv merge componentName componentParameters =
        merge [envParameters] := by
    intro merge
    rw [hlist]
    exact parametersInEnv_eq merge componentName componentParameters
  have hmem : ∀ x : String,
      x ∈ lifecycle.parametersInEnv lifecycle.mergeOsEnviron componentName
          componentParameters ↔ x ∈ lifecycle.mergeLastWins envParameters := by
    intro x
    rw [heq, mem_mergeOsEnviron_single]
  refine ⟨heq, ?_, ?_, ?_, ?_, TrimSpace_spec⟩
  · intro x
    rw [hmem, mem_mergeLastWins_iff]
  · intro x hx y hy hn
    exact mergeLastWins_name_unique envParameters x ((hmem x).1 hx) y ((hmem y).1 hy) hn
  · intro e he hne
    have hin : e.2.Env ++ "=" ++ strings.TrimSpace e.2.Value ∈ envParameters := by
      rw [hlist, List.append_assoc]
      apply List.mem_append_left
      apply List.mem_map.2
      exact ⟨e, List.mem_filter.2 ⟨he, by simpa using hne⟩, rfl⟩
    obtain ⟨x, hx, hxn⟩ := mergeLastWins_name_exists envParameters _ hin
    exact ⟨x, (hmem x).2 hx, hxn⟩
  · intro x hx
    have hx' := mergeLastWins_subset envParameters x ((hmem x).1 hx)
    rw [hlist] at hx'
    rcases List.mem_append.1 hx' with h1 | h2
    · rcases List.mem_append.1 h1 with h3 | h4
      · obtain ⟨e, he, rfl⟩ := List.mem_map.1 h3
        have he' := List.mem_filter.1 he
        exact Or.inr (Or.inr ⟨e, he'.1, by simpa using he'.2, rfl⟩)
      · split at h4
        · exact absurd h4 (List.not_mem_nil _)
        · exact Or.inr (Or.inl (by simpa using h4))
    · exact Or.inl (by simpa using h2)

/-- Instance of C10: `a` and `c` declare env names, `b` declares none; three
entries are handed on, two of them for parameters, with trimmed values, and
all three are emitted. -/
theorem parametersInEnv_one_entry_per_env_witness :
    (∀ merge : List (List String) → List String,
        lifecycle.parametersInEnv merge "db"
            [("a", ({ Name := "a", Value := " 1 ", Env := "A" } : parameters.LockedParameter)),
              ("b", { Name := "b", Value := "2" }),
              ("c", { Name := "c", Value := "3", Env := "COMPONENT_NAME" })] =
          merge [["A=1", "COMPONENT_NAME=3", "HUB_COMPONENT=db"]]) ∧
      ("A=1" ∈ lifecycle.parametersInEnv lifecycle.mergeOsEnviron "db"
            [("a", ({ Name := "a", Value := " 1 ", Env := "A" } : parameters.LockedParameter)),
              ("b", { Name := "b", Value := "2" }),
              ("c", { Name := "c", Value := "3", Env := "COMPONENT_NAME" })] ↔
        ∃ before after : List String,
          ["A=1", "COMPONENT_NAME=3", "HUB_COMPONENT=db"] = before ++ "A=1" :: after ∧
            ∀ y ∈ after, lifecycle.envName y ≠ lifecycle.envName "A=1") :=
  have h := parametersInEnv_one_entry_per_env "db"
    [("a", ({ Name := "a", Value := " 1 ", Env := "A" } : parameters.LockedParameter)),
      ("b", { Name := "b", Value := "2" }),
      ("c", { Name := "c", Value := "3", Env := "COMPONENT_NAME" })]
    ["A=1", "COMPONENT_NAME=3", "HUB_COMPONENT=db"] (by decide)
  ⟨h.1, h.2.1 "A=1"⟩

/-- C10 fails as stated: the parameters `a` and `b` both declare the env name
`X`, and the environment has the one entry `X=2` for the two of them; the
parameter `c` declares the env name `HUB_COMPONENT`, and the environment has no
entry for it, the entry of the tool takes its place. -/
theorem parametersInEnv_overridden_entries :
    lifecycle.parametersInEnv lifecycle.mergeOsEnviron "db"
        [("a", ({ Name := "a", Value := "1", Env := "X" } : parameters.LockedParameter)),
          ("b", { Name := "b", Value := "2", Env := "X" })] =
        ["COMPONENT_NAME=db", "HUB_COMPONENT=db", "X=2"] ∧
      "X=1" ∉ lifecycle.parametersInEnv lifecycle.mergeOsEnviron "db"
        [("a", ({ Name := "a", Value := "1", Env := "X" } : parameters.LockedParameter)),
          ("b", { Name := "b", Value := "2", Env := "X" })] ∧
      lifecycle.parametersInEnv lifecycle.mergeOsEnviron "db"
        [("c", ({ Name := "c", Value := "mine", Env := "HUB_COMPONENT" } :
          parameters.LockedParameter))] =
        ["COMPONENT_NAME=db", "HUB_COMPONENT=db"] := by
  refine ⟨by decide, by decide, by decide⟩

theorem prepareRequiresLoop_no_error (ext : lifecycle.External)
    (provided : GoMap (List String)) (componentManifest : manifest.Manifest)
    (maybeOptional : GoMap (List String)) (componentName : String) (reqs : List String) :
    (∀ req ∈ reqs, (provided.get req = none ∨ provided.get req = some []) →
      ∃ optionalFor, maybeOptional.get req = some optionalFor ∧
        (componentName ∈ optionalFor ∨ "*" ∈ optionalFor)) →
    ∀ (setups : List util.Tuple2) (optionalNotProvided : List String),
      lifecycle.prepareRequiresLoop ext provided componentManifest maybeOptional componentName
          reqs setups optionalNotProvided =
        { optionalNotProvided := optionalNotProvided ++ reqs.filter (fun req =>
            decide (provided.get req = none ∨ provided.get req = some []))
          err := none
          setupCalls :=
            if optionalNotProvided ++ reqs.filter (fun req =>
                decide (provided.get req = none ∨ provided.get req = some [])) = [] then
              setups ++ (reqs.filter (fun req =>
                !decide (provided.get req = none ∨ provided.get req = some []))).map
                  (fun req =>
                    { S1 := req, S2 := ((provided.get req).getD []).getLastD "" })
            else [] } := by
  induction reqs with
  | nil =>
    intro _ setups onp
    simp [lifecycle.prepareRequiresLoop]
  | cons req rest ih =>
    intro hopt setups onp
    have hrest := ih (fun r hr => hopt r (List.mem_cons_of_mem _ hr))
    rw [lifecycle.prepareRequiresLoop]
    simp only []
    by_cases hp : (!(provided.get req).isSome ||
        decide (((provided.get req).getD []).length = 0)) = true
    · have hp' := (notProvided_iff provided req).1 hp
      have ho := (optionalFor_iff maybeOptional req componentName).2
        (hopt req (List.mem_cons_self _ _) hp')
      rw [if_pos hp, if_pos ho, hrest]
      simp only [List.append_assoc, List.singleton_append, List.filter_cons,
        decide_eq_true hp', Bool.not_true, Bool.false_eq_true, if_false, if_true]
    · have hp' : ¬ (provided.get req = none ∨ provided.get req = some []) :=
        fun h => hp ((notProvided_iff provided req).2 h)
      rw [if_neg hp, hrest]
      simp only [List.filter_cons, decide_eq_false hp', Bool.not_false, if_true,
        Bool.false_eq_true, if_false, List.map_cons, List.append_assoc,
        List.singleton_append]

theorem prepareRequiresLoop_error_no_setup (ext : lifecycle.External)
    (provided : GoMap (List String)) (componentManifest : manifest.Manifest)
    (maybeOptional : GoMap (List String)) (componentName : String) (reqs : List String) :
    ∀ (setups : List util.Tuple2) (optionalNotProvided : List String),
      (lifecycle.prepareRequiresLoop ext provided componentManifest maybeOptional componentName
          reqs setups optionalNotProvided).err ≠ none →
      (lifecycle.prepareRequiresLoop ext provided componentManifest maybeOptional componentName
          reqs setups optionalNotProvided).setupCalls = [] := by
  induction reqs with
  | nil => intro setups onp h; simp [lifecycle.prepareRequiresLoop] at h
  | cons req rest ih =>
    intro setups onp
    rw [lifecycle.prepareRequiresLoop]
    simp only []
    split
    · split
      · exact ih _ _
      · intro _; rfl
    · exact ih _ _

theorem prepareComponentRequires_no_error (ext : lifecycle.External)
    (provided : GoMap (List String)) (componentManifest : manifest.Manifest)
    (maybeOptional : GoMap (List String))
    (herr : (lifecycle.prepareComponentRequires ext provided componentManifest
      maybeOptional).err = none) :
    lifecycle.prepareComponentRequires ext provided componentManifest maybeOptional =
      { optionalNotProvided := componentManifest.Requires.filter (fun req =>
          decide (provided.get req = none ∨ provided.get req = some []))
        err := none
        setupCalls :=
          if componentManifest.Requires.filter (fun req =>
              decide (provided.get req = none ∨ provided.get req = some [])) = [] then
            (componentManifest.Requires.filter (fun req =>
              !decide (provided.get req = none ∨ provided.get req = some []))).map
                (fun req => { S1 := req, S2 := ((provided.get req).getD []).getLastD "" })
          else [] } := by
  have hopt : ∀ req ∈ componentManifest.Requires,
      (provided.get req = none ∨ provided.get req = some []) →
      ∃ optionalFor, maybeOptional.get req = some optionalFor ∧
        (ext.ComponentQualifiedNameFromMeta componentManifest.Meta ∈ optionalFor ∨
          "*" ∈ optionalFor) := by
    intro req hreq hnp
    by_contra hno
    exact (prepareRequiresLoop_err ext provided componentManifest maybeOptional _
      componentManifest.Requires [] []).2 ⟨req, hreq, hnp, hno⟩ herr
  unfold lifecycle.prepareComponentRequires
  simp only []
  rw [prepareRequiresLoop_no_error ext provided componentManifest maybeOptional _
    componentManifest.Requires hopt [] []]
  simp only [List.nil_append]

theorem getLast?_eq_getLastD (l : List String) (h : l ≠ []) :
    l.getLast? = some (l.getLastD "") := by
  rw [List.getLastD_eq_getLast?, List.getLast?_eq_getLast l h]
  rfl

theorem provided_of_not_unprovided (provided : GoMap (List String)) (req : String)
    (h : ¬ (provided.get req = none ∨ provided.get req = some [])) :
    ∃ by', provided.get req = some by' ∧ by' ≠ [] := by
  cases hg : provided.get req with
  | none => exact absurd (Or.inl hg) h
  | some l =>
    refine ⟨l, rfl, ?_⟩
    rintro rfl
    exact h (Or.inr hg)

/-- C18: when every requirement the component declares has a non-empty
provider list in the registry, `prepareComponentRequires` makes one call of
`setupRequirement` per declared requirement, in declaration order, and the
provider it hands over is the last entry of the provider list of that
requirement, whatever the number of providers.  When some declared requirement
has no provider, it makes no call.  So whenever a requirement is handed to
`setupRequirement`, the provider handed over with it is the last entry of its
provider list. -/
theorem prepareComponentRequires_last_provider (ext : lifecycle.External)
    (provided : GoMap (List String)) (componentManifest : manifest.Manifest)
    (maybeOptional : GoMap (List String)) :
    ((∀ req ∈ componentManifest.Requires,
        ¬ (provided.get req = none ∨ provided.get req = some [])) →
      (lifecycle.prepareComponentRequires ext provided componentManifest
          maybeOptional).setupCalls =
        componentManifest.Requires.map
          (fun req => { S1 := req, S2 := ((provided.get req).getD []).getLastD "" }) ∧
      ∀ req ∈ componentManifest.Requires, ∃ by', provided.get req = some by' ∧
        ∃ provider, by'.getLast? = some provider ∧
          ({ S1 := req, S2 := provider } : util.Tuple2) ∈
            (lifecycle.prepareComponentRequires ext provided componentManifest
              maybeOptional).setupCalls) ∧
      ((∃ req ∈ componentManifest.Requires,
          provided.get req = none ∨ provided.get req = some []) →
        (lifecycle.prepareComponentRequires ext provided componentManifest
          maybeOptional).setupCalls = []) ∧
      (∀ s ∈ (lifecycle.prepareComponentRequires ext provided componentManifest
          maybeOptional).setupCalls,
        s.S1 ∈ componentManifest.Requires ∧
          ∃ by', provided.get s.S1 = some by' ∧ by'.getLast? = some s.S2) := by
  have hall : (∀ req ∈ componentManifest.Requires,
      ¬ (provided.get req = none ∨ provided.get req = some [])) →
      (lifecycle.prepareComponentRequires ext provided componentManifest
          maybeOptional).setupCalls =
        componentManifest.Requires.map
          (fun req => { S1 := req, S2 := ((provided.get req).getD []).getLastD "" }) := by
    intro hall
    have herr : (lifecycle.prepareComponentRequires ext provided componentManifest
        maybeOptional).err = none := by
      by_contra hne
      obtain ⟨req, hreq, hnp, _⟩ := (prepareRequiresLoop_err ext provided componentManifest
        maybeOptional _ componentManifest.Requires [] []).1 hne
      exact hall req hreq hnp
    have he : componentManifest.Requires.filter (fun req =>
        decide (provided.get req = none ∨ provided.get req = some [])) = [] := by
      rw [List.filter_eq_nil_iff]
      intro req hreq
      simpa using hall req hreq
    have hself : componentManifest.Requires.filter (fun req =>
        !decide (provided.get req = none ∨ provided.get req = some [])) =
        componentManifest.Requires := by
      rw [List.filter_eq_self]
      intro req hreq
      simp only [decide_eq_false (hall req hreq), Bool.not_false]
    rw [prepareComponentRequires_no_error ext provided componentManifest maybeOptional herr]
    simp only []
    rw [if_pos he, hself]
  have hsome : (∃ req ∈ componentManifest.Requires,
      provided.get req = none ∨ provided.get req = some []) →
      (lifecycle.prepareComponentRequires ext provided componentManifest
        maybeOptional).setupCalls = [] := by
    rintro ⟨req, hreq, hnp⟩
    by_cases herr : (lifecycle.prepareComponentRequires ext provided componentManifest
        maybeOptional).err = none
    · have hne : componentManifest.Requires.filter (fun req =>
          decide (provided.get req = none ∨ provided.get req = some [])) ≠ [] := by
        intro h
        have := List.filter_eq_nil_iff.1 h req hreq
        simp only [decide_eq_true hnp, not_true_eq_false] at this
      rw [prepareComponentRequires_no_error ext provided componentManifest maybeOptional herr]
      simp only []
      rw [if_neg hne]
    · exact prepareRequiresLoop_error_no_setup ext provided componentManifest maybeOptional
        (ext.ComponentQualifiedNameFromMeta componentManifest.Meta)
        componentManifest.Requires [] [] herr
  refine ⟨?_, hsome, ?_⟩
  · intro h
    refine ⟨hall h, ?_⟩
    intro req hreq
    obtain ⟨l, hl, hne⟩ := provided_of_not_unprovided provided req (h req hreq)
    refine ⟨l, hl, l.getLastD "", getLast?_eq_getLastD l hne, ?_⟩
    rw [hall h]
    apply List.mem_map.2
    refine ⟨req, hreq, ?_⟩
    simp only [hl, Option.getD_some]
  · intro s hs
    by_cases h : ∀ req ∈ componentManifest.Requires,
        ¬ (provided.get req = none ∨ provided.get req = some [])
    · rw [hall h] at hs
      obtain ⟨req, hreq, rfl⟩ := List.mem_map.1 hs
      obtain ⟨l, hl, hne⟩ := provided_of_not_unprovided provided req (h req hreq)
      refine ⟨hreq, l, hl, ?_⟩
      simp only [hl, Option.getD_some]
      exact getLast?_eq_getLastD l hne
    · have hex : ∃ req ∈ componentManifest.Requires,
          provided.get req = none ∨ provided.get req = some [] := by
        by_contra hno
        apply h
        intro req hreq hnp
        exact hno ⟨req, hreq, hnp⟩
      rw [hsome hex] at hs
      exact absurd hs (List.not_mem_nil s)

/-- Instance of C18: `kubernetes` has two providers and `vault` three; the
calls of `setupRequirement` get the last provider of each. -/
theorem prepareComponentRequires_last_provider_witness :
    (∀ req ∈ ["kubernetes", "vault"],
        ¬ (GoMap.get [("kubernetes", ["*environment*", "stack-k8s"]),
              ("vault", ["vault", "vault-ha", "vault-dr"])] req = none ∨
            GoMap.get [("kubernetes", ["*environment*", "stack-k8s"]),
              ("vault", ["vault", "vault-ha", "vault-dr"])] req = some [])) ∧
      (lifecycle.prepareComponentRequires
        { ComponentQualifiedNameFromMeta := fun m => m.Name, SprintDeps := fun _ => "" }
        [("kubernetes", ["*environment*", "stack-k8s"]),
          ("vault", ["vault", "vault-ha", "vault-dr"])]
        { Meta := { Name := "db" }, Requires := ["kubernetes", "vault"] }
        []).setupCalls =
        [{ S1 := "kubernetes", S2 := "stack-k8s" }, { S1 := "vault", S2 := "vault-dr" }] :=
  ⟨by decide,
    ((prepareComponentRequires_last_provider
      { ComponentQualifiedNameFromMeta := fun m => m.Name, SprintDeps := fun _ => "" }
      [("kubernetes", ["*environment*", "stack-k8s"]),
        ("vault", ["vault", "vault-ha", "vault-dr"])]
      { Meta := { Name := "db" }, Requires := ["kubernetes", "vault"] }
      []).1 (by decide)).1⟩

/-- C20: when `prepareComponentRequires` returns no error, the list it returns
holds exactly the declared requirements, in declaration order, that have no
provider and are optional for this component or for `*`; `setupRequirement` is
called only when that list is empty, and then once per provided requirement,
in declaration order. -/
theorem prepareComponentRequires_optional_not_provided (ext : lifecycle.External)
    (provided : GoMap (List String)) (componentManifest : manifest.Manifest)
    (maybeOptional : GoMap (List String))
    (herr : (lifecycle.prepareComponentRequires ext provided componentManifest
      maybeOptional).err = none) :
    (lifecycle.prepareComponentRequires ext provided componentManifest
        maybeOptional).optionalNotProvided =
      componentManifest.Requires.filter (fun req =>
        decide (provided.get req = none ∨ provided.get req = some []) &&
          decide (ext.ComponentQualifiedNameFromMeta componentManifest.Meta ∈
              (maybeOptional.get req).getD [] ∨
            "*" ∈ (maybeOptional.get req).getD [])) ∧
      (lifecycle.prepareComponentRequires ext provided componentManifest
          maybeOptional).setupCalls =
        if (lifecycle.prepareComponentRequires ext provided componentManifest
            maybeOptional).optionalNotProvided = [] then
          (componentManifest.Requires.filter (fun req =>
            !decide (provided.get req = none ∨ provided.get req = some []))).map
              (fun req => { S1 := req, S2 := ((provided.get req).getD []).getLastD "" })
        else [] := by
  have hopt : ∀ req ∈ componentManifest.Requires,
      (provided.get req = none ∨ provided.get req = some []) →
      (ext.ComponentQualifiedNameFromMeta componentManifest.Meta ∈
          (maybeOptional.get req).getD [] ∨
        "*" ∈ (maybeOptional.get req).getD []) := by
    intro req hreq hnp
    by_contra hno
    apply (prepareRequiresLoop_err ext provided componentManifest maybeOptional _
      componentManifest.Requires [] []).2 _ herr
    refine ⟨req, hreq, hnp, ?_⟩
    rintro ⟨l, hl, hmem⟩
    apply hno
    simpa only [hl, Option.getD_some] using hmem
  rw [prepareComponentRequires_no_error ext provided componentManifest maybeOptional herr]
  refine ⟨?_, rfl⟩
  simp only []
  apply List.filter_congr
  intro req hreq
  by_cases hnp : provided.get req = none ∨ provided.get req = some []
  · simp only [decide_eq_true hnp, decide_eq_true (hopt req hreq hnp), Bool.and_self]
  · simp only [decide_eq_false hnp, Bool.false_and]

/-- Instance of C20: `vault` is not provided and optional for every component,
`helm` is not provided and optional for component `db`, `kubernetes` is
provided; nothing is set up. -/
theorem prepareComponentRequires_optional_not_provided_witness :
    (lifecycle.prepareComponentRequires
        { ComponentQualifiedNameFromMeta := fun m => m.Name, SprintDeps := fun _ => "" }
        [("kubernetes", ["*environment*", "stack-k8s"])]
        { Meta := { Name := "db" }, Requires := ["vault", "kubernetes", "helm"] }
        [("vault", ["*"]), ("helm", ["db"])]).err = none ∧
      (lifecycle.prepareComponentRequires
        { ComponentQualifiedNameFromMeta := fun m => m.Name, SprintDeps := fun _ => "" }
        [("kubernetes", ["*environment*", "stack-k8s"])]
        { Meta := { Name := "db" }, Requires := ["vault", "kubernetes", "helm"] }
        [("vault", ["*"]), ("helm", ["db"])]).optionalNotProvided = ["vault", "helm"] ∧
      (lifecycle.prepareComponentRequires
        { ComponentQualifiedNameFromMeta := fun m => m.Name, SprintDeps := fun _ => "" }
        [("kubernetes", ["*environment*", "stack-k8s"])]
        { Meta := { Name := "db" }, Requires := ["vault", "kubernetes", "helm"] }
        [("vault", ["*"]), ("helm", ["db"])]).setupCalls = [] := by
  have h := prepareComponentRequires_optional_not_provided
    { ComponentQualifiedNameFromMeta := fun m => m.Name, SprintDeps := fun _ => "" }
    [("kubernetes", ["*environment*", "stack-k8s"])]
    { Meta := { Name := "db" }, Requires := ["vault", "kubernetes", "helm"] }
    [("vault", ["*"]), ("helm", ["db"])] (by decide)
  refine ⟨by decide, ?_, ?_⟩
  · rw [h.1]; decide
  · rw [h.2]; decide

theorem take_indexOf_colon (l : List Char) :
    l.take (l.indexOf ':') = l.takeWhile (fun c => decide (c ≠ ':')) := by
  induction l with
  | nil => rfl
  | cons a rest ih =>
    by_cases h : a = ':'
    · simp [h, List.indexOf_cons_eq, List.takeWhile_cons]
    · rw [List.indexOf_cons_ne _ h, List.take_succ_cons, ih, List.takeWhile_cons]
      simp [h]

theorem takeWhile_no_colon (l : List Char) (h : ':' ∉ l) :
    l.takeWhile (fun c => decide (c ≠ ':')) = l := by
  rw [List.takeWhile_eq_self_iff]
  intro a ha
  have : a ≠ ':' := by
    rintro rfl
    exact h ha
  simpa using this

theorem PlainName_eq (name : String) :
    util.PlainName name =
      if name.toList.head? = some ':' then name
      else String.mk (name.toList.takeWhile (fun c => decide (c ≠ ':'))) := by
  obtain ⟨l⟩ := name
  show util.PlainName ⟨l⟩ = if l.head? = some ':' then ⟨l⟩
    else String.mk (l.takeWhile (fun c => decide (c ≠ ':')))
  unfold util.PlainName strings.Index strings.sliceTo
  show (if (⟨l⟩ : String) = "" then "" else
      if (if ':' ∈ l then (l.indexOf ':' : Int) else -1) > 0
        then String.mk (l.take (if ':' ∈ l then (l.indexOf ':' : Int) else -1).toNat)
        else ⟨l⟩) = _
  cases l with
  | nil => rfl
  | cons a rest =>
    have hne : ¬ (⟨a :: rest⟩ : String) = "" := by
      intro h
      have := congrArg String.data h
      simp at this
    rw [if_neg hne]
    by_cases hmem : ':' ∈ a :: rest
    · simp only [hmem, if_true]
      by_cases ha : a = ':'
      · subst ha
        simp [List.indexOf_cons_self]
      · have hidx : (a :: rest).indexOf ':' = rest.indexOf ':' + 1 :=
          List.indexOf_cons_ne _ ha
        have hpos : ((a :: rest).indexOf ':' : Int) > 0 := by
          rw [hidx]; push_cast; omega
        rw [if_pos hpos, Int.toNat_ofNat, take_indexOf_colon]
        simp [ha]
    · simp only [hmem, if_false]
      have ha : ¬ a = ':' := by
        rintro rfl
        exact hmem (List.mem_cons_self _ _)
      rw [if_neg (by decide), takeWhile_no_colon _ hmem]
      simp [ha]

/-- C19, as the code has it: for every stack name that does not start with
`:`, `util.PlainName(name)` is the prefix that precedes the first `:`, the
whole name when there is none, and contains no `:`; a name that starts with
`:` is returned whole; `PlainName` is idempotent. -/
theorem PlainName_spec (name : String) :
    (util.PlainName name =
        if name.toList.head? = some ':' then name
        else String.mk (name.toList.takeWhile (fun c => decide (c ≠ ':')))) ∧
      (':' ∈ (util.PlainName name).toList ↔ name.toList.head? = some ':') ∧
      util.PlainName (util.PlainName name) = util.PlainName name := by
  have hno : ':' ∉ (String.mk (name.toList.takeWhile (fun c => decide (c ≠ ':')))).toList := by
    intro hm
    have := List.mem_takeWhile_imp hm
    simp at this
  refine ⟨PlainName_eq name, ?_, ?_⟩
  · rw [PlainName_eq]
    by_cases hh : name.toList.head? = some ':'
    · rw [if_pos hh]
      simp only [hh, iff_true]
      cases hl : name.toList with
      | nil => rw [hl] at hh; simp at hh
      | cons a rest =>
        rw [hl] at hh
        have : a = ':' := by simpa using hh
        rw [this]
        exact List.mem_cons_self _ _
    · rw [if_neg hh]
      simp only [hh, iff_false]
      exact hno
  · by_cases hh : name.toList.head? = some ':'
    · rw [PlainName_eq name, if_pos hh]
      rw [PlainName_eq name, if_pos hh]
    · rw [PlainName_eq name, if_neg hh, PlainName_eq]
      have hhead : ¬ (String.mk (name.toList.takeWhile
          (fun c => decide (c ≠ ':')))).toList.head? = some ':' := by
        intro h
        apply hno
        cases hl : (String.mk (name.toList.takeWhile
            (fun c => decide (c ≠ ':')))).toList with
        | nil => rw [hl] at h; simp at h
        | cons a rest =>
          rw [hl] at h
          have : a = ':' := by simpa using h
          rw [this]
          exact List.mem_cons_self _ _
      rw [if_neg hhead]
      congr 1
      exact takeWhile_no_colon _ hno

/-- C19 fails as stated: for a name that starts with `:` the guard `i > 0`
keeps the whole name, which is not the (empty) part before the first `:` and
contains a `:`. -/
theorem PlainName_leading_colon :
    util.PlainName ":prod" = ":prod" ∧ ':' ∈ (util.PlainName ":prod").toList ∧
      util.PlainName ":prod" ≠
        String.mk ((":prod").toList.takeWhile (fun c => decide (c ≠ ':'))) := by
  decide

theorem IndexLoop_eq (search : String) (l : List String) :
    ∀ i : Nat, util.IndexLoop search l i =
      if search ∈ l then ((i + l.indexOf search : Nat) : Int) else -1 := by
  induction l with
  | nil => intro i; simp [util.IndexLoop]
  | cons a rest ih =>
    intro i
    by_cases h : search = a
    · subst h
      simp [util.IndexLoop, List.indexOf_cons_self]
    · have h' : a ≠ search := fun e => h e.symm
      rw [util.IndexLoop, if_neg h, ih, List.indexOf_cons_ne _ h']
      by_cases hm : search ∈ rest
      · rw [if_pos hm, if_pos (List.mem_cons_of_mem _ hm)]
        congr 1
        omega
      · rw [if_neg hm, if_neg]
        intro hc
        rcases List.mem_cons.1 hc with hc | hc
        · exact h hc
        · exact hm hc

/-- The index `util.Index` returns: the position of the first occurrence in the
list, and `-1` for the empty name and for a name that does not occur. -/
theorem Index_eq (l : List String) (search : String) :
    util.Index l search =
      if search ≠ "" ∧ search ∈ l then (l.indexOf search : Int) else -1 := by
  unfold util.Index
  by_cases h : search = ""
  · simp [h]
  · rw [if_pos h, IndexLoop_eq]
    by_cases hm : search ∈ l
    · rw [if_pos hm, if_pos ⟨h, hm⟩, Nat.zero_add]
    · rw [if_neg hm, if_neg (fun hc => hm hc.2)]

theorem Index_nonneg_iff (l : List String) (search : String) :
    util.Index l search ≥ 0 ↔ (search ≠ "" ∧ search ∈ l) := by
  rw [Index_eq]
  by_cases h : search ≠ "" ∧ search ∈ l
  · rw [if_pos h]
    simp only [h, ne_eq, not_false_eq_true, and_self, iff_true]
    exact Int.ofNat_nonneg _
  · rw [if_neg h]
    simp only [h, iff_false]
    decide

theorem traversal_eq_check (request : lifecycle.Request) (order : List String)
    (st : Option state.StateManifest) :
    ∃ msg : String, lifecycle.Execute.traversal request order st =
      if (lifecycle.Execute.beforeCheck request order st).offsetComponentIndex ≥ 0 ∧
          (lifecycle.Execute.beforeCheck request order st).limitComponentIndex ≥ 0 ∧
          (lifecycle.Execute.beforeCheck request order st).limitComponentIndex <
            (lifecycle.Execute.beforeCheck request order st).offsetComponentIndex ∧
          (lifecycle.Execute.beforeCheck request order st).offsetGuessed = false
        then Except.error msg
        else Except.ok (lifecycle.Execute.beforeCheck request order st) :=
  ⟨_, rfl⟩

theorem beforeCheck_indices (request : lifecycle.Request) (order : List String)
    (st : Option state.StateManifest) :
    (lifecycle.Execute.beforeCheck request order st).offsetComponentIndex =
        util.Index (lifecycle.Execute.beforeCheck request order st).order
          (lifecycle.Execute.beforeCheck request order st).OffsetComponent ∧
      (lifecycle.Execute.beforeCheck request order st).limitComponentIndex =
        util.Index (lifecycle.Execute.beforeCheck request order st).order
          request.LimitComponent :=
  ⟨rfl, rfl⟩

/-- C15: `Execute` fails at the check of the limit against the offset, before
any component is processed, exactly when the offset and the limit component
are both set and in the traversal order, the index of the limit is smaller
than the index of the offset, and the offset was not guessed; when the offset
was guessed, or the offset or the limit is unset, the check does not fail. -/
theorem limit_before_offset_check (request : lifecycle.Request) (order : List String)
    (st : Option state.StateManifest) :
    ((∃ msg, lifecycle.Execute.traversal request order st = Except.error msg) ↔
        ((lifecycle.Execute.beforeCheck request order st).OffsetComponent ≠ "" ∧
          (lifecycle.Execute.beforeCheck request order st).OffsetComponent ∈
            (lifecycle.Execute.beforeCheck request order st).order ∧
          request.LimitComponent ≠ "" ∧
          request.LimitComponent ∈ (lifecycle.Execute.beforeCheck request order st).order ∧
          util.Index (lifecycle.Execute.beforeCheck request order st).order
              request.LimitComponent <
            util.Index (lifecycle.Execute.beforeCheck request order st).order
              (lifecycle.Execute.beforeCheck request order st).OffsetComponent ∧
          (lifecycle.Execute.beforeCheck request order st).offsetGuessed = false)) ∧
      (((lifecycle.Execute.beforeCheck request order st).offsetGuessed = true ∨
          (lifecycle.Execute.beforeCheck request order st).OffsetComponent = "" ∨
          request.LimitComponent = "") →
        lifecycle.Execute.traversal request order st =
          Except.ok (lifecycle.Execute.beforeCheck request order st)) ∧
      ((¬ ∃ msg, lifecycle.Execute.traversal request order st = Except.error msg) →
        lifecycle.Execute.traversal request order st =
          Except.ok (lifecycle.Execute.beforeCheck request order st)) := by
  obtain ⟨msg, hshape⟩ := traversal_eq_check request order st
  obtain ⟨hoi, hli⟩ := beforeCheck_indices request order st
  have hcond : ((lifecycle.Execute.beforeCheck request order st).offsetComponentIndex ≥ 0 ∧
      (lifecycle.Execute.beforeCheck request order st).limitComponentIndex ≥ 0 ∧
      (lifecycle.Execute.beforeCheck request order st).limitComponentIndex <
        (lifecycle.Execute.beforeCheck request order st).offsetComponentIndex ∧
      (lifecycle.Execute.beforeCheck request order st).offsetGuessed = false) ↔
      ((lifecycle.Execute.beforeCheck request order st).OffsetComponent ≠ "" ∧
        (lifecycle.Execute.beforeCheck request order st).OffsetComponent ∈
          (lifecycle.Execute.beforeCheck request order st).order ∧
        request.LimitComponent ≠ "" ∧
        request.LimitComponent ∈ (lifecycle.Execute.beforeCheck request order st).order ∧
        util.Index (lifecycle.Execute.beforeCheck request order st).order
            request.LimitComponent <
          util.Index (lifecycle.Execute.beforeCheck request order st).order
            (lifecycle.Execute.beforeCheck request order st).OffsetComponent ∧
        (lifecycle.Execute.beforeCheck request order st).offsetGuessed = false) := by
    rw [hoi, hli, Index_nonneg_iff, Index_nonneg_iff]
    tauto
  rw [hshape]
  refine ⟨?_, ?_, ?_⟩
  · rw [← hcond]
    constructor
    · rintro ⟨m, hm⟩
      by_contra hc
      rw [if_neg hc] at hm
      exact absurd hm (by simp)
    · intro hc
      exact ⟨msg, by rw [if_pos hc]⟩
  · intro h
    rw [if_neg]
    rw [hcond]
    rintro ⟨h1, _, h3, _, _, h6⟩
    rcases h with h | h | h
    · rw [h] at h6; exact absurd h6 (by decide)
    · exact h1 h
    · exact h3 h
  · intro h
    by_cases hc : (lifecycle.Execute.beforeCheck request order st).offsetComponentIndex ≥ 0 ∧
        (lifecycle.Execute.beforeCheck request order st).limitComponentIndex ≥ 0 ∧
        (lifecycle.Execute.beforeCheck request order st).limitComponentIndex <
          (lifecycle.Execute.beforeCheck request order st).offsetComponentIndex ∧
        (lifecycle.Execute.beforeCheck request order st).offsetGuessed = false
    · exact absurd ⟨msg, by rw [if_pos hc]⟩ h
    · rw [if_neg hc]

theorem traversal_ok_eq (request : lifecycle.Request) (order : List String)
    (st : Option state.StateManifest) (t : lifecycle.Execute.Traversal)
    (ht : lifecycle.Execute.traversal request order st = Except.ok t) :
    t = lifecycle.Execute.beforeCheck request order st := by
  obtain ⟨msg, hshape⟩ := traversal_eq_check request order st
  rw [hshape] at ht
  split at ht
  · exact absurd ht (by simp)
  · injection ht with ht
    exact ht.symm

theorem selectedFrom_eq_filter (request : lifecycle.Request) (t : lifecycle.Execute.Traversal)
    (l : List String) :
    ∀ i, lifecycle.Execute.selectedFrom request t l i =
      ((l.enumFrom i).filter (fun e => !lifecycle.Execute.skip request t e.1 e.2)).map
        Prod.snd := by
  induction l with
  | nil => intro i; rfl
  | cons a rest ih =>
    intro i
    rw [lifecycle.Execute.selectedFrom, List.enumFrom_cons, List.filter_cons]
    by_cases h : lifecycle.Execute.skip request t i a = true
    · simp only [h, if_true, Bool.not_true, Bool.false_eq_true, if_false, ih]
    · simp only [h, if_false, Bool.not_eq_true, Bool.not_false, if_true, List.map_cons, ih]
      simp only [Bool.not_eq_true] at h
      simp [h]

/-- C14: when the limit component, if one is set, occurs in the traversal
order, the component at index `i` of the traversal order is processed by the
loop if and only if the explicit component list is empty or contains its
name, no offset component is set or `i` is not below the index of the offset
component, and no limit component is set or `i` is not above the index of the
limit component; the index is the position of the first occurrence in the
traversal order, `-1` for the empty name. -/
theorem loop_selection (request : lifecycle.Request) (order : List String)
    (st : Option state.StateManifest) (t : lifecycle.Execute.Traversal)
    (ht : lifecycle.Execute.traversal request order st = Except.ok t)
    (hlim : request.LimitComponent = "" ∨ request.LimitComponent ∈ t.order) :
    (∀ (i : Nat) (componentName : String),
        lifecycle.Execute.skip request t i componentName = false ↔
          ((request.Components = [] ∨ componentName ∈ request.Components) ∧
            (t.OffsetComponent = "" ∨ (i : Int) ≥ util.Index t.order t.OffsetComponent) ∧
            (request.LimitComponent = "" ∨
              (i : Int) ≤ util.Index t.order request.LimitComponent))) ∧
      lifecycle.Execute.selected request t =
        ((t.order.enumFrom 0).filter
          (fun e => !lifecycle.Execute.skip request t e.1 e.2)).map Prod.snd ∧
      (∀ (l : List String) (search : String), util.Index l search =
        if search ≠ "" ∧ search ∈ l then (l.indexOf search : Int) else -1) := by
  have hb := traversal_ok_eq request order st t ht
  obtain ⟨hoi, hli⟩ := beforeCheck_indices request order st
  rw [← hb] at hoi hli
  refine ⟨?_, selectedFrom_eq_filter request t t.order 0, Index_eq⟩
  intro i componentName
  have hsel : (decide (request.Components.length > 0) &&
      !util.Contains request.Components componentName) = false ↔
      (request.Components = [] ∨ componentName ∈ request.Components) := by
    rw [Bool.and_eq_false_iff, decide_eq_false_iff_not, Bool.not_eq_false', Contains_iff_mem,
      gt_iff_lt, List.length_pos]
    tauto
  have hoff : (decide (t.offsetComponentIndex ≥ 0) &&
      decide ((i : Int) < t.offsetComponentIndex)) = false ↔
      (t.OffsetComponent = "" ∨ (i : Int) ≥ util.Index t.order t.OffsetComponent) := by
    rw [Bool.and_eq_false_iff, decide_eq_false_iff_not, decide_eq_false_iff_not, hoi]
    constructor
    · rintro (h | h)
      · right
        have : (0 : Int) ≤ (i : Int) := Int.ofNat_nonneg i
        omega
      · right; omega
    · rintro (h | h)
      · left
        rw [Index_nonneg_iff]
        exact fun hc => hc.1 h
      · right; omega
  have hlimit : (decide (t.limitComponentIndex ≥ 0) &&
      decide ((i : Int) > t.limitComponentIndex)) = false ↔
      (request.LimitComponent = "" ∨
        (i : Int) ≤ util.Index t.order request.LimitComponent) := by
    rw [Bool.and_eq_false_iff, decide_eq_false_iff_not, decide_eq_false_iff_not, hli]
    constructor
    · rintro (h | h)
      · left
        rw [Index_nonneg_iff] at h
        rcases hlim with hl | hl
        · exact hl
        · by_contra hne
          exact h ⟨hne, hl⟩
      · right; omega
    · rintro (h | h)
      · left
        rw [Index_nonneg_iff]
        exact fun hc => hc.1 h
      · right; omega
  unfold lifecycle.Execute.skip
  rw [Bool.or_eq_false_iff, Bool.or_eq_false_iff, hsel, hoff, hlimit, and_assoc]

/-- Instance of C14: a deploy of `[a, b, c, d]` with offset `b` and limit `c`
processes `b` and `c` only. -/
theorem loop_selection_witness :
    lifecycle.Execute.traversal
        { Verb := "deploy", OffsetComponent := "b", LimitComponent := "c" }
        ["a", "b", "c", "d"] none =
        Except.ok
          { order := ["a", "b", "c", "d"]
            OffsetComponent := "b"
            offsetGuessed := false
            offsetComponentIndex := 1
            limitComponentIndex := 2 } ∧
      lifecycle.Execute.selected
        { Verb := "deploy", OffsetComponent := "b", LimitComponent := "c" }
        { order := ["a", "b", "c", "d"]
          OffsetComponent := "b"
          offsetGuessed := false
          offsetComponentIndex := 1
          limitComponentIndex := 2 } = ["b", "c"] ∧
      lifecycle.Execute.skip
        { Verb := "deploy", OffsetComponent := "b", LimitComponent := "c" }
        { order := ["a", "b", "c", "d"]
          OffsetComponent := "b"
          offsetGuessed := false
          offsetComponentIndex := 1
          limitComponentIndex := 2 }
        3 "d" = true ∧
      "c" ∈ ["a", "b", "c", "d"] := by
  have h := loop_selection
    { Verb := "deploy", OffsetComponent := "b", LimitComponent := "c" }
    ["a", "b", "c", "d"] none
    { order := ["a", "b", "c", "d"]
      OffsetComponent := "b"
      offsetGuessed := false
      offsetComponentIndex := 1
      limitComponentIndex := 2 }
    rfl (Or.inr (by decide))
  refine ⟨rfl, by rw [h.2.1]; decide, ?_, by decide⟩
  have h3 := (h.1 3 "d").not
  rw [Bool.not_eq_false] at h3
  rw [h3]
  decide

theorem stateDeploymentId_eq (ps : List parameters.LockedParameter) :
    lifecycle.Execute.stateDeploymentId ps =
      match ps.find? (fun q => decide (q.Name = "hub.deploymentId")) with
      | some q => q.Value
      | none => "" := by
  induction ps with
  | nil => rfl
  | cons a rest ih =>
    by_cases h : a.Name = "hub.deploymentId"
    · simp [lifecycle.Execute.stateDeploymentId, h, List.find?_cons]
    · simp [lifecycle.Execute.stateDeploymentId, h, List.find?_cons, ih]

/-- C16: if the loaded state has a stack parameter named `hub.deploymentId`, the
first of that name, with a non-empty value, the deployment id of the operation
is that value and `uuid.NewRandom` is not called for it; a random id is
generated only when there is no state or its `hub.deploymentId` is missing or
empty. -/
theorem deploymentId_reused_from_state (m : state.StateManifest)
    (random : Except String String) (p : parameters.LockedParameter)
    (hfind : m.StackParameters.find? (fun q => decide (q.Name = "hub.deploymentId")) = some p)
    (hval : p.Value ≠ "") :
    lifecycle.Execute.deploymentId (some m) random =
        Except.ok { deploymentId := p.Value, generated := false } ∧
      ∀ (st : Option state.StateManifest) (d : lifecycle.Execute.DeploymentId),
        lifecycle.Execute.deploymentId st random = Except.ok d →
          (d.generated = true ↔
            ∀ (m' : state.StateManifest) (q : parameters.LockedParameter), st = some m' →
              m'.StackParameters.find? (fun q => decide (q.Name = "hub.deploymentId")) =
                some q → q.Value = "") := by
  constructor
  · unfold lifecycle.Execute.deploymentId
    simp only [stateDeploymentId_eq, hfind]
    rw [if_neg hval]
  · intro st d hd
    unfold lifecycle.Execute.deploymentId at hd
    cases st with
    | none =>
      simp only [if_true] at hd
      cases random with
      | error e => simp at hd
      | ok u =>
        simp only [Except.ok.injEq] at hd
        rw [← hd]
        simp
    | some m' =>
      simp only [stateDeploymentId_eq] at hd
      cases hf : m'.StackParameters.find? (fun q => decide (q.Name = "hub.deploymentId")) with
      | none =>
        rw [hf] at hd
        simp only [if_true] at hd
        cases random with
        | error e => simp at hd
        | ok u =>
          simp only [Except.ok.injEq] at hd
          rw [← hd]
          simp only [true_iff]
          intro m2 q2 hm2 hq2
          have hm : m2 = m' := (Option.some.inj hm2).symm
          rw [hm, hf] at hq2
          exact absurd hq2 (by simp)
      | some q =>
        rw [hf] at hd
        simp only [] at hd
        by_cases hq : q.Value = ""
        · rw [if_pos hq] at hd
          cases random with
          | error e => simp at hd
          | ok u =>
            simp only [Except.ok.injEq] at hd
            rw [← hd]
            simp only [true_iff]
            intro m2 q2 hm2 hq2
            have hm : m2 = m' := (Option.some.inj hm2).symm
            rw [hm, hf] at hq2
            rw [← Option.some.inj hq2]
            exact hq
        · rw [if_neg hq] at hd
          simp only [Except.ok.injEq] at hd
          rw [← hd]
          simp only [Bool.false_eq_true, false_iff]
          intro hall
          exact hq (hall m' q rfl hf)

/-- Instance of C16: the state holds `hub.deploymentId = id-1`; the random
source is not consulted. -/
theorem deploymentId_reused_from_state_witness :
    lifecycle.Execute.deploymentId
        (some { StackParameters := [{ Name := "dns.domain", Value := "example.com" },
          { Name := "hub.deploymentId", Value := "id-1" }] })
        (Except.ok "id-2") =
      Except.ok { deploymentId := "id-1", generated := false } :=
  (deploymentId_reused_from_state
    { StackParameters := [{ Name := "dns.domain", Value := "example.com" },
      { Name := "hub.deploymentId", Value := "id-1" }] }
    (Except.ok "id-2") { Name := "hub.deploymentId", Value := "id-1" }
    (by decide) (by decide)).1

theorem addLockedParameter_get (params : parameters.LockedParameters)
    (name env value : String) :
    (lifecycle.addLockedParameter params name env value).get name =
      match params.get name with
      | some p =>
        if p.Value = "" then
          some { Name := name, Value := value, Env := if p.Env ≠ "" then p.Env else env }
        else some p
      | none => some { Name := name, Value := value, Env := env } := by
  unfold lifecycle.addLockedParameter
  cases hg : params.get name with
  | none => simp only [GoMap_get_set_self]
  | some p =>
    simp only []
    by_cases hv : p.Value = ""
    · rw [if_pos hv, if_pos hv, GoMap_get_set_self]
    · rw [if_neg hv, if_neg hv, hg]

theorem failComponent_fields (env : lifecycle.Execute.Env) (componentName msg : String)
    (s : lifecycle.Execute.LoopState) :
    (lifecycle.Execute.failComponent env componentName msg s).failedComponents =
        s.failedComponents ∧
      (lifecycle.Execute.failComponent env componentName msg s).delegated = s.delegated ∧
      (lifecycle.Execute.failComponent env componentName msg s).provides = s.provides ∧
      (lifecycle.Execute.failComponent env componentName msg s).failures =
        s.failures ++ [(componentName, msg)] :=
  ⟨rfl, rfl, rfl, rfl⟩

theorem recordFailed_fields (componentName : String) (s : lifecycle.Execute.LoopState) :
    (lifecycle.Execute.recordFailed componentName s).fatal = s.fatal ∧
      (lifecycle.Execute.recordFailed componentName s).delegated = s.delegated ∧
      (lifecycle.Execute.recordFailed componentName s).failures = s.failures ∧
      ((lifecycle.Execute.recordFailed componentName s).fatal = none →
        (lifecycle.Execute.recordFailed componentName s).failedComponents =
          s.failedComponents ++ [componentName]) := by
  unfold lifecycle.Execute.recordFailed
  cases hf : s.fatal with
  | none => simp [hf]
  | some m => simp [hf]

theorem component_failed_dependency (env : lifecycle.Execute.Env) (componentIndex : Nat)
    (componentName : String) (run : lifecycle.Execute.ComponentRun)
    (s : lifecycle.Execute.LoopState)
    (hdeploy : strings.HasPrefix env.request.Verb "deploy" = true)
    (hdep : ∃ dependency ∈ run.component.Depends, dependency ∈ s.failedComponents) :
    ∃ msg, lifecycle.Execute.component env componentIndex componentName run s =
      lifecycle.Execute.recordFailed componentName
        (lifecycle.Execute.failComponent env componentName msg s) := by
  obtain ⟨d, hd, hf⟩ := hdep
  have hmem : d ∈ run.component.Depends.filter (fun dependency =>
      util.Contains s.failedComponents dependency) :=
    List.mem_filter.2 ⟨hd, (Contains_iff_mem _ _).2 hf⟩
  have h1 : run.component.Depends.length > 0 := List.length_pos_of_mem hd
  have h2 : (run.component.Depends.filter (fun dependency =>
      util.Contains s.failedComponents dependency)).length > 0 := List.length_pos_of_mem hmem
  refine ⟨"Component `" ++ componentName ++ "` failed to " ++ env.request.Verb ++
    ": depends on failed optional component `" ++
    strings.Join (run.component.Depends.filter (fun dependency =>
      util.Contains s.failedComponents dependency)) ", " ++ "`", ?_⟩
  unfold lifecycle.Execute.component
  simp only [hdeploy, decide_eq_true h1, decide_eq_true h2, Bool.and_self, if_true]

/-- C13: during a deploy, a component that has an entry of its depends list in
`failedComponents` is not handed to `delegate`, the failure policy is applied
to it, and, unless the policy ends the run, it is added to `failedComponents`;
a component that depends on it and is processed afterwards is not handed to
`delegate` either. -/
theorem failed_dependency_not_invoked (env : lifecycle.Execute.Env) (componentIndex : Nat)
    (componentName : String) (run : lifecycle.Execute.ComponentRun)
    (s : lifecycle.Execute.LoopState)
    (hdeploy : strings.HasPrefix env.request.Verb "deploy" = true)
    (hdep : ∃ dependency ∈ run.component.Depends, dependency ∈ s.failedComponents) :
    (lifecycle.Execute.component env componentIndex componentName run s).delegated =
        s.delegated ∧
      (∃ msg, (lifecycle.Execute.component env componentIndex componentName run s).failures =
        s.failures ++ [(componentName, msg)]) ∧
      ((lifecycle.Execute.component env componentIndex componentName run s).fatal = none →
        (lifecycle.Execute.component env componentIndex componentName run s).failedComponents =
          s.failedComponents ++ [componentName]) ∧
      (∀ (nextIndex : Nat) (nextName : String) (nextRun : lifecycle.Execute.ComponentRun),
        componentName ∈ nextRun.component.Depends →
        (lifecycle.Execute.component env componentIndex componentName run s).fatal = none →
          (lifecycle.Execute.component env nextIndex nextName nextRun
            (lifecycle.Execute.component env componentIndex componentName run s)).delegated =
            s.delegated) := by
  obtain ⟨msg, hstep⟩ := component_failed_dependency env componentIndex componentName run s
    hdeploy hdep
  have hrec := recordFailed_fields componentName
    (lifecycle.Execute.failComponent env componentName msg s)
  have hfail := failComponent_fields env componentName msg s
  rw [← hstep] at hrec
  have hdel : (lifecycle.Execute.component env componentIndex componentName run s).delegated =
      s.delegated := by rw [hrec.2.1, hfail.2.1]
  have hfc : (lifecycle.Execute.component env componentIndex componentName run s).fatal = none →
      (lifecycle.Execute.component env componentIndex componentName run s).failedComponents =
        s.failedComponents ++ [componentName] := by
    intro h
    rw [hrec.2.2.2 h, hfail.1]
  refine ⟨hdel, ⟨msg, by rw [hrec.2.2.1, hfail.2.2.2]⟩, hfc, ?_⟩
  intro nextIndex nextName nextRun hmem hfatal
  obtain ⟨msg2, hstep2⟩ := component_failed_dependency env nextIndex nextName nextRun
    (lifecycle.Execute.component env componentIndex componentName run s) hdeploy
    ⟨componentName, hmem, by rw [hfc hfatal]; simp⟩
  rw [hstep2, (recordFailed_fields _ _).2.1, (failComponent_fields _ _ _ _).2.1, hdel]

/-- Instance of C13: the optional component `b` depends on `a`, which has
failed; `b` is not invoked and joins `failedComponents`. -/
theorem failed_dependency_not_invoked_witness :
    strings.HasPrefix "deploy" "deploy" = true ∧
      (lifecycle.Execute.component
        { ext := { ComponentQualifiedNameFromMeta := fun m => m.Name,
                   SprintDeps := fun _ => "" }
          Force := false
          request := { Verb := "deploy" }
          Lifecycle := { Order := ["a", "b", "c"], Optional := ["a", "b"] }
          optionalRequires := []
          hasState := false
          operationLogId := "op"
          orderLength := 3
          mergeProvides := fun provides _ _ => provides
          formatStdoutStderr := fun _ _ => "" }
        1 "b" { component := { Name := "b", Depends := ["a"] } }
        { failedComponents := ["a"], failures := [("a", "exit status 1")],
          delegated := ["a"] }).delegated = ["a"] ∧
      (lifecycle.Execute.component
        { ext := { ComponentQualifiedNameFromMeta := fun m => m.Name,
                   SprintDeps := fun _ => "" }
          Force := false
          request := { Verb := "deploy" }
          Lifecycle := { Order := ["a", "b", "c"], Optional := ["a", "b"] }
          optionalRequires := []
          hasState := false
          operationLogId := "op"
          orderLength := 3
          mergeProvides := fun provides _ _ => provides
          formatStdoutStderr := fun _ _ => "" }
        1 "b" { component := { Name := "b", Depends := ["a"] } }
        { failedComponents := ["a"], failures := [("a", "exit status 1")],
          delegated := ["a"] }).failedComponents = ["a", "b"] := by
  have h := failed_dependency_not_invoked
        { ext := { ComponentQualifiedNameFromMeta := fun m => m.Name,
                   SprintDeps := fun _ => "" }
          Force := false
          request := { Verb := "deploy" }
          Lifecycle := { Order := ["a", "b", "c"], Optional := ["a", "b"] }
          optionalRequires := []
          hasState := false
          operationLogId := "op"
          orderLength := 3
          mergeProvides := fun provides _ _ => provides
          formatStdoutStderr := fun _ _ => "" }
        1 "b" { component := { Name := "b", Depends := ["a"] } }
        { failedComponents := ["a"], failures := [("a", "exit status 1")],
          delegated := ["a"] }
    (by decide) ⟨"a", by decide, by decide⟩
  exact ⟨by decide, h.1, h.2.2.1 (by decide)⟩

theorem FailureRecorded_right (componentName : String)
    (s s1 s2 : lifecycle.Execute.LoopState)
    (h : lifecycle.Execute.FailureRecorded componentName s s1)
    (hf : s2.failures = s1.failures) (hc : s2.failedComponents = s1.failedComponents)
    (ht : s2.fatal = s1.fatal) :
    lifecycle.Execute.FailureRecorded componentName s s2 := by
  unfold lifecycle.Execute.FailureRecorded at h ⊢
  rw [hf, hc, ht]
  exact h

theorem FailureRecorded_left (componentName : String)
    (s s1 s2 : lifecycle.Execute.LoopState)
    (h : lifecycle.Execute.FailureRecorded componentName s1 s2)
    (hf : s1.failures = s.failures) (hc : s1.failedComponents = s.failedComponents)
    (ht : s1.fatal = s.fatal) :
    lifecycle.Execute.FailureRecorded componentName s s2 := by
  unfold lifecycle.Execute.FailureRecorded at h ⊢
  rw [← hf, ← hc, ← ht]
  exact h

theorem FailureRecorded_refl (componentName : String) (s : lifecycle.Execute.LoopState) :
    lifecycle.Execute.FailureRecorded componentName s s :=
  Or.inl ⟨rfl, rfl, rfl⟩

theorem FailureRecorded_trans (componentName : String)
    (s s1 s2 : lifecycle.Execute.LoopState)
    (h1 : lifecycle.Execute.FailureRecorded componentName s s1)
    (h2 : lifecycle.Execute.FailureRecorded componentName s1 s2)
    (hfatal : s1.fatal = none) :
    lifecycle.Execute.FailureRecorded componentName s s2 := by
  unfold lifecycle.Execute.FailureRecorded at h1 h2 ⊢
  rcases h1 with ⟨a1, a2, a3⟩ | b | ⟨c1, c2⟩
  · rw [← a1, ← a2, ← a3]
    exact h2
  · exact absurd hfatal b
  · rcases h2 with ⟨a1, a2, _⟩ | b | ⟨d1, d2⟩
    · right; right
      rw [a2]
      exact ⟨c1, c2⟩
    · exact Or.inr (Or.inl b)
    · exact Or.inr (Or.inr ⟨d1, fun x hx => d2 x (c2 x hx)⟩)

theorem FailureRecorded_fail (env : lifecycle.Execute.Env) (componentName msg : String)
    (s : lifecycle.Execute.LoopState) :
    lifecycle.Execute.FailureRecorded componentName s
      (lifecycle.Execute.recordFailed componentName
        (lifecycle.Execute.failComponent env componentName msg s)) := by
  by_cases hf : (lifecycle.Execute.recordFailed componentName
      (lifecycle.Execute.failComponent env componentName msg s)).fatal = none
  · right; right
    rw [(recordFailed_fields _ _).2.2.2 hf, (failComponent_fields _ _ _ _).1]
    exact ⟨by simp, fun x hx => List.mem_append_left _ hx⟩
  · exact Or.inr (Or.inl hf)

theorem FailureRecorded_stop (componentName : String)
    (s s1 s2 : lifecycle.Execute.LoopState)
    (h1 : lifecycle.Execute.FailureRecorded componentName s s1)
    (h2 : s1.fatal = none → lifecycle.Execute.FailureRecorded componentName s1 s2) :
    lifecycle.Execute.FailureRecorded componentName s
      (if s1.fatal.isSome then s1 else s2) := by
  cases hf : s1.fatal with
  | none =>
    simp only [Option.isSome_none, Bool.false_eq_true, if_false]
    exact FailureRecorded_trans componentName s s1 s2 h1 (h2 hf) hf
  | some m =>
    simp only [Option.isSome_some, if_true]
    exact h1

theorem persistIntent_fields (env : lifecycle.Execute.Env) (componentName : String)
    (s : lifecycle.Execute.LoopState) :
    (lifecycle.Execute.persistIntent env componentName s).failures = s.failures ∧
      (lifecycle.Execute.persistIntent env componentName s).failedComponents =
        s.failedComponents ∧
      (lifecycle.Execute.persistIntent env componentName s).fatal = s.fatal ∧
      (lifecycle.Execute.persistIntent env componentName s).delegated = s.delegated := by
  unfold lifecycle.Execute.persistIntent
  cases env.hasState <;> exact ⟨rfl, rfl, rfl, rfl⟩

theorem afterDelegate_recorded (env : lifecycle.Execute.Env) (componentName : String)
    (run : lifecycle.Execute.ComponentRun) (s : lifecycle.Execute.LoopState) :
    lifecycle.Execute.FailureRecorded componentName s
      (lifecycle.Execute.afterDelegate env componentName run s) := by
  unfold lifecycle.Execute.afterDelegate
  cases run.delegateErr with
  | some err =>
    simp only []
    refine FailureRecorded_left componentName s _ _ (FailureRecorded_fail env componentName _ _)
      ?_ ?_ ?_ <;> cases env.hasState <;> rfl
  | none =>
    simp only []
    cases strings.HasPrefix env.request.Verb "deploy" with
    | false => exact FailureRecorded_refl componentName s
    | true =>
      simp only [if_true]
      by_cases hc : run.captureErrs.length > 0
      · simp only [hc, if_true]
        exact FailureRecorded_stop componentName s _ _
          (FailureRecorded_fail env componentName _ s)
          (fun _ => Or.inl ⟨rfl, rfl, rfl⟩)
      · simp only [hc, if_false]
        exact FailureRecorded_stop componentName s s _ (FailureRecorded_refl componentName s)
          (fun _ => Or.inl ⟨rfl, rfl, rfl⟩)

theorem afterOutputs_recorded (env : lifecycle.Execute.Env) (componentIndex : Nat)
    (componentName : String) (run : lifecycle.Execute.ComponentRun)
    (s : lifecycle.Execute.LoopState) :
    lifecycle.Execute.FailureRecorded componentName s
      (lifecycle.Execute.afterOutputs env componentIndex componentName run s) := by
  unfold lifecycle.Execute.afterOutputs
  simp only []
  generalize hu : (if (strings.HasPrefix env.request.Verb "deploy" && env.hasState) = true then
      ({ s with
        stateCalls := s.stateCalls ++ [state.Call.UpdateState componentName
          (decide ((componentIndex : Int) = (env.orderLength : Int) - 1) ||
            (decide (env.request.Components.length > 0) && env.request.LoadFinalState))] } :
        lifecycle.Execute.LoopState)
      else s) = u
  have hu1 : u.failures = s.failures ∧ u.failedComponents = s.failedComponents ∧
      u.fatal = s.fatal := by
    rw [← hu]
    split <;> exact ⟨rfl, rfl, rfl⟩
  generalize hr : (if (run.delegateErr.isNone && strings.HasPrefix env.request.Verb "deploy") =
        true then
      (match run.readyErr with
        | some err =>
          lifecycle.Execute.recordFailed componentName
            (lifecycle.Execute.failComponent env componentName
              ("Component `" ++ componentName ++ "` ready condition failed: " ++ err) u)
        | none => u)
      else u) = r
  have hr1 : lifecycle.Execute.FailureRecorded componentName u r := by
    rw [← hr]
    split
    · cases run.readyErr with
      | some err => exact FailureRecorded_fail env componentName _ u
      | none => exact FailureRecorded_refl componentName u
    · exact FailureRecorded_refl componentName u
  have hsr : lifecycle.Execute.FailureRecorded componentName s r :=
    FailureRecorded_left componentName s u r hr1 hu1.1 hu1.2.1 hu1.2.2
  refine FailureRecorded_stop componentName s r _ hsr ?_
  intro _
  split
  · exact Or.inl ⟨rfl, rfl, rfl⟩
  · exact FailureRecorded_refl componentName r

theorem invoke_recorded (env : lifecycle.Execute.Env) (componentIndex : Nat)
    (componentName : String) (run : lifecycle.Execute.ComponentRun)
    (s : lifecycle.Execute.LoopState) :
    lifecycle.Execute.FailureRecorded componentName s
      (lifecycle.Execute.invoke env componentIndex componentName run s) := by
  unfold lifecycle.Execute.invoke
  simp only []
  have hp := persistIntent_fields env componentName s
  refine FailureRecorded_stop componentName s _ _ ?_
    (fun _ => afterOutputs_recorded env componentIndex componentName run _)
  exact FailureRecorded_left componentName s _ _
    (afterDelegate_recorded env componentName run _) hp.1 hp.2.1 hp.2.2.1

/-- Where the loop body records a failure: if processing a component logs a
failure, the run goes on and the requirement check did not fail, the component
is in `failedComponents`. -/
theorem component_failure_recorded (env : lifecycle.Execute.Env) (componentIndex : Nat)
    (componentName : String) (run : lifecycle.Execute.ComponentRun)
    (s : lifecycle.Execute.LoopState)
    (hreq : (lifecycle.prepareComponentRequires env.ext s.provides run.componentManifest
      env.optionalRequires).err = none) :
    lifecycle.Execute.FailureRecorded componentName s
      (lifecycle.Execute.component env componentIndex componentName run s) := by
  unfold lifecycle.Execute.component
  simp only []
  split
  · exact FailureRecorded_fail env componentName _ s
  · split
    · exact FailureRecorded_refl componentName s
    · split
      · exact FailureRecorded_fail env componentName _ s
      · split
        · rw [hreq]
          exact FailureRecorded_refl componentName s
        · exact invoke_recorded env componentIndex componentName run s

/-- C12 at the failing input: in a deploy the optional component `b` requires
`vault`, which nothing provides and which is not optional.  The failure policy
is applied and the run goes on, but `b` is not added to `failedComponents`; the
component `c`, which depends on `b`, is then handed to `delegate`. -/
theorem requirement_failure_not_recorded :
    (lifecycle.Execute.component
        { ext := { ComponentQualifiedNameFromMeta := fun m => m.Name,
                   SprintDeps := fun _ => "" }
          Force := false
          request := { Verb := "deploy" }
          Lifecycle := { Order := ["a", "b", "c"], Optional := ["b", "c"] }
          optionalRequires := []
          hasState := true
          operationLogId := "op"
          orderLength := 3
          mergeProvides := fun provides _ _ => provides
          formatStdoutStderr := fun _ _ => "" }
        1 "b"
        { component := { Name := "b" }
          componentManifest := { Meta := { Name := "b" }, Requires := ["vault"] } }
        { delegated := ["a"] }).failures =
        [("b", "Component `b` requires `vault` but only following provides are " ++
          "currently known:\n")] ∧
      (lifecycle.Execute.component
        { ext := { ComponentQualifiedNameFromMeta := fun m => m.Name,
                   SprintDeps := fun _ => "" }
          Force := false
          request := { Verb := "deploy" }
          Lifecycle := { Order := ["a", "b", "c"], Optional := ["b", "c"] }
          optionalRequires := []
          hasState := true
          operationLogId := "op"
          orderLength := 3
          mergeProvides := fun provides _ _ => provides
          formatStdoutStderr := fun _ _ => "" }
        1 "b"
        { component := { Name := "b" }
          componentManifest := { Meta := { Name := "b" }, Requires := ["vault"] } }
        { delegated := ["a"] }).fatal = none ∧
      (lifecycle.Execute.component
        { ext := { ComponentQualifiedNameFromMeta := fun m => m.Name,
                   SprintDeps := fun _ => "" }
          Force := false
          request := { Verb := "deploy" }
          Lifecycle := { Order := ["a", "b", "c"], Optional := ["b", "c"] }
          optionalRequires := []
          hasState := true
          operationLogId := "op"
          orderLength := 3
          mergeProvides := fun provides _ _ => provides
          formatStdoutStderr := fun _ _ => "" }
        1 "b"
        { component := { Name := "b" }
          componentManifest := { Meta := { Name := "b" }, Requires := ["vault"] } }
        { delegated := ["a"] }).failedComponents = [] ∧
      (lifecycle.Execute.component
        { ext := { ComponentQualifiedNameFromMeta := fun m => m.Name,
                   SprintDeps := fun _ => "" }
          Force := false
          request := { Verb := "deploy" }
          Lifecycle := { Order := ["a", "b", "c"], Optional := ["b", "c"] }
          optionalRequires := []
          hasState := true
          operationLogId := "op"
          orderLength := 3
          mergeProvides := fun provides _ _ => provides
          formatStdoutStderr := fun _ _ => "" }
        2 "c"
        { component := { Name := "c", Depends := ["b"] }
          componentManifest := { Meta := { Name := "c" } } }
        (lifecycle.Execute.component
        { ext := { ComponentQualifiedNameFromMeta := fun m => m.Name,
                   SprintDeps := fun _ => "" }
          Force := false
          request := { Verb := "deploy" }
          Lifecycle := { Order := ["a", "b", "c"], Optional := ["b", "c"] }
          optionalRequires := []
          hasState := true
          operationLogId := "op"
          orderLength := 3
          mergeProvides := fun provides _ _ => provides
          formatStdoutStderr := fun _ _ => "" }
        1 "b"
        { component := { Name := "b" }
          componentManifest := { Meta := { Name := "b" }, Requires := ["vault"] } }
        { delegated := ["a"] })).delegated = ["a", "c"] := by
  refine ⟨by decide, by decide, by decide, by decide⟩

/-- C25: `addLockedParameter` changes at most the entry for the given name.  If
that entry exists with a non-empty value the map is unchanged; otherwise the
entry becomes `{Name: name, Value: value, Env: e}`, where `e` is the Env of the
existing entry when that is non-empty and the supplied env otherwise; every
other key keeps its value. -/
theorem addLockedParameter_frame (params : parameters.LockedParameters)
    (name env value : String) :
    ((∃ p, params.get name = some p ∧ p.Value ≠ "") →
        lifecycle.addLockedParameter params name env value = params) ∧
      ((¬ ∃ p, params.get name = some p ∧ p.Value ≠ "") →
        (lifecycle.addLockedParameter params name env value).get name =
          some { Name := name, Value := value,
                 Env := match params.get name with
                   | some p => if p.Env ≠ "" then p.Env else env
                   | none => env }) ∧
      (∀ key, key ≠ name →
        (lifecycle.addLockedParameter params name env value).get key = params.get key) := by
  refine ⟨?_, ?_, ?_⟩
  · rintro ⟨p, hp, hv⟩
    unfold lifecycle.addLockedParameter
    rw [hp]
    simp only []
    rw [if_neg hv]
  · intro hno
    rw [addLockedParameter_get]
    cases hg : params.get name with
    | none => rfl
    | some p =>
      simp only []
      have hv : p.Value = "" := by
        by_contra hne
        exact hno ⟨p, hg, hne⟩
      rw [if_pos hv]
  · intro key hkey
    have hkey' : name ≠ key := fun e => hkey e.symm
    unfold lifecycle.addLockedParameter
    cases hg : params.get name with
    | none =>
      simp only []
      exact GoMap_get_set_ne params name key _ hkey'
    | some p =>
      simp only []
      by_cases hv : p.Value = ""
      · rw [if_pos hv]
        exact GoMap_get_set_ne params name key _ hkey'
      · rw [if_neg hv]

theorem dropWhile_until (p : Char → Bool) (l r : List Char) (c : Char)
    (hl : ∀ a ∈ l, p a = true) (hc : p c = false) : (l ++ c :: r).dropWhile p = c :: r := by
  induction l with
  | nil => simp [List.dropWhile_cons, hc]
  | cons a rest ih =>
    have ha : p a = true := hl a (List.mem_cons_self _ _)
    rw [List.cons_append, List.dropWhile_cons, ha, if_pos rfl,
      ih (fun x hx => hl x (List.mem_cons_of_mem _ hx))]

/-- C26: for every name that contains no `|` and every component,
`util.SplitQName` gives back the name and the component from which
`manifest.ParameterQualifiedName` built the qualified name. -/
theorem SplitQName_ParameterQualifiedName (name component : String)
    (hname : '|' ∉ name.toList) :
    util.SplitQName (manifest.ParameterQualifiedName name component) = (name, component) := by
  unfold manifest.ParameterQualifiedName
  by_cases hc : component = ""
  · rw [if_neg (fun h => h hc), hc]
    unfold util.SplitQName strings.SplitN2
    simp only [hname, if_false, List.length_singleton, gt_iff_lt, Nat.lt_irrefl]
  · rw [if_pos hc]
    have hl : (name ++ "|" ++ component).toList = name.toList ++ '|' :: component.toList := by
      show (name ++ "|" ++ component).data = name.data ++ '|' :: component.data
      rw [String.data_append, String.data_append]
      simp
    have hp : ∀ a ∈ name.toList, (fun c : Char => decide (c ≠ '|')) a = true := by
      intro a ha
      have : a ≠ '|' := by
        rintro rfl
        exact hname ha
      simpa using this
    have hmem : '|' ∈ (name ++ "|" ++ component).toList := by
      rw [hl]; simp
    unfold util.SplitQName strings.SplitN2
    simp only [hmem, if_true]
    rw [hl, takeWhile_until _ name.toList component.toList '|' hp (by simp),
      dropWhile_until _ name.toList component.toList '|' hp (by simp)]
    simp only [List.length_cons, List.length_nil, gt_iff_lt, List.drop_succ_cons, List.drop_zero]
    rfl

/-- Instance of C26: the parameter `dns.domain` qualified for the component
`external-dns`. -/
theorem SplitQName_ParameterQualifiedName_witness :
    '|' ∉ "dns.domain".toList ∧
      manifest.ParameterQualifiedName "dns.domain" "external-dns" =
        "dns.domain|external-dns" ∧
      util.SplitQName (manifest.ParameterQualifiedName "dns.domain" "external-dns") =
        ("dns.domain", "external-dns") :=
  ⟨by decide, by decide,
    SplitQName_ParameterQualifiedName "dns.domain" "external-dns" (by decide)⟩

theorem falseParametersOfList_mem_explicit (componentName : String)
    (params : parameters.LockedParameters) (term : String)
    (hmissing : ¬ ∃ e ∈ params, e.2.Name = term ∧
      (e.2.Component = "" ∨ e.2.Component = componentName))
    (hstar : componentName ≠ "*") (optionalForList : List String) :
    ∀ falseParameters : List String, componentName ∈ optionalForList →
      term ∈ lifecycle.falseParametersOfList componentName params term optionalForList
        falseParameters := by
  have hany : params.any (fun e => decide (e.2.Name = term ∧
      (e.2.Component = "" ∨ e.2.Component = componentName))) = false := by
    rw [Bool.eq_false_iff]
    intro h
    apply hmissing
    simpa using h
  induction optionalForList with
  | nil => intro acc h; exact absurd h (List.not_mem_nil _)
  | cons o rest ih =>
    intro acc hmem
    rw [lifecycle.falseParametersOfList]
    by_cases ho : o = componentName
    · rw [if_pos (Or.inr ho), falseParametersOfTerm_eq]
      simp only [Bool.false_or, hany]
      rw [if_pos ⟨rfl, fun h => hstar (ho ▸ h)⟩]
      obtain ⟨extra, he, _⟩ := falseParametersOfList_extra componentName params term rest
        (acc ++ ((params.filter (fun e => decide (e.2.Name = term ∧
            (e.2.Component = "" ∨ e.2.Component = componentName)) &&
              util.Contains lifecycle.falseParameterValues e.2.Value)).map
                (fun e => e.2.QName)) ++ [term])
      rw [he]
      simp
    · have hrest : componentName ∈ rest := by
        rcases List.mem_cons.1 hmem with h | h
        · exact absurd h.symm ho
        · exact h
      by_cases ha : o = "*" ∨ o = componentName
      · rw [if_pos ha, falseParametersOfTerm_eq]
        simp only [Bool.false_or, hany]
        have hs : o = "*" := ha.resolve_right ho
        rw [if_neg (fun h => h.2 hs)]
        exact ih _ hrest
      · rw [if_neg ha]
        exact ih _ hrest

theorem falseParametersLoop_mem_explicit (componentName : String)
    (params : parameters.LockedParameters) (term : String) (optionalForList : List String)
    (hdot : '.' ∈ term.toList)
    (hmissing : ¬ ∃ e ∈ params, e.2.Name = term ∧
      (e.2.Component = "" ∨ e.2.Component = componentName))
    (hstar : componentName ≠ "*") (hfor : componentName ∈ optionalForList)
    (optionalRequires : List (String × List String)) :
    ∀ falseParameters : List String, (term, optionalForList) ∈ optionalRequires →
      term ∈ lifecycle.falseParametersLoop componentName params optionalRequires
        falseParameters := by
  induction optionalRequires with
  | nil => intro acc h; exact absurd h (List.not_mem_nil _)
  | cons entry rest ih =>
    obtain ⟨t, l⟩ := entry
    intro acc hmem
    rw [lifecycle.falseParametersLoop]
    rcases List.mem_cons.1 hmem with h | h
    · obtain ⟨rfl, rfl⟩ := Prod.mk.inj h
      have hd : strings.Contains term '.' = true := by simpa [strings.Contains] using hdot
      rw [if_pos hd]
      obtain ⟨extra, he, _⟩ := falseParametersLoop_extra componentName params rest
        (lifecycle.falseParametersOfList componentName params term optionalForList acc)
      rw [he]
      exact List.mem_append_left _
        (falseParametersOfList_mem_explicit componentName params term hmissing hstar
          optionalForList acc hfor)
    · split
      · exact ih _ h
      · exact ih _ h

theorem falseParametersOfList_wildcard (componentName : String)
    (params : parameters.LockedParameters) (term : String)
    (hmissing : ¬ ∃ e ∈ params, e.2.Name = term ∧
      (e.2.Component = "" ∨ e.2.Component = componentName))
    (optionalForList : List String) :
    ∀ falseParameters : List String, (∀ o ∈ optionalForList, o = componentName → o = "*") →
      lifecycle.falseParametersOfList componentName params term optionalForList
        falseParameters = falseParameters := by
  have hany : params.any (fun e => decide (e.2.Name = term ∧
      (e.2.Component = "" ∨ e.2.Component = componentName))) = false := by
    rw [Bool.eq_false_iff]
    intro h
    apply hmissing
    simpa using h
  have hnil : (params.filter (fun e => decide (e.2.Name = term ∧
      (e.2.Component = "" ∨ e.2.Component = componentName)) &&
        util.Contains lifecycle.falseParameterValues e.2.Value)).map
          (fun e => e.2.QName) = [] := by
    rw [List.map_eq_nil_iff, List.filter_eq_nil_iff]
    intro e he hc
    apply hmissing
    simp only [Bool.and_eq_true, decide_eq_true_eq] at hc
    exact ⟨e, he, hc.1⟩
  induction optionalForList with
  | nil => intro acc _; rfl
  | cons o rest ih =>
    intro acc hw
    have hrest : ∀ x ∈ rest, x = componentName → x = "*" :=
      fun x hx => hw x (List.mem_cons_of_mem _ hx)
    rw [lifecycle.falseParametersOfList]
    by_cases ha : o = "*" ∨ o = componentName
    · rw [if_pos ha, falseParametersOfTerm_eq]
      simp only [Bool.false_or, hany, hnil, List.append_nil]
      have hs : o = "*" := by
        rcases ha with h | h
        · exact h
        · exact hw o (List.mem_cons_self _ _) h
      rw [if_neg (fun h => h.2 hs)]
      exact ih acc hrest
    · rw [if_neg ha]
      exact ih acc hrest

theorem falseParametersLoop_append (componentName : String)
    (params : parameters.LockedParameters) (before after : List (String × List String)) :
    ∀ falseParameters : List String,
      lifecycle.falseParametersLoop componentName params (before ++ after) falseParameters =
        lifecycle.falseParametersLoop componentName params after
          (lifecycle.falseParametersLoop componentName params before falseParameters) := by
  induction before with
  | nil => intro acc; rfl
  | cons entry rest ih =>
    obtain ⟨t, l⟩ := entry
    intro acc
    rw [List.cons_append, lifecycle.falseParametersLoop, lifecycle.falseParametersLoop]
    split
    · exact ih _
    · exact ih _

/-- C23: take a parameter-like term `p` (it contains `.`) for which the
parameter set has no parameter named `p` that is unqualified or qualified for
the component `X`.  If the optional requirements list `X` explicitly for `p`
(`p:X`, where `X` is a component name and not the wildcard `*`), then
`calculateOptionalFalseParameters` for `X` includes `p`, so its result is not
empty and `X` is skipped.  An entry for `p` that does not list `X` by name, such
as the wildcard entry `p` alone, adds nothing to the result for `X`: the result
is the one computed without that entry, and it is empty when that entry is the
only one. -/
theorem calculateOptionalFalseParameters_missing_parameter (componentName : String)
    (params : parameters.LockedParameters) (term : String)
    (hdot : '.' ∈ term.toList)
    (hmissing : ¬ ∃ e ∈ params, e.2.Name = term ∧
      (e.2.Component = "" ∨ e.2.Component = componentName)) :
    (∀ (optionalRequires : GoMap (List String)) (optionalForList : List String),
      (term, optionalForList) ∈ optionalRequires → componentName ∈ optionalForList →
      componentName ≠ "*" →
      term ∈ lifecycle.calculateOptionalFalseParameters componentName params optionalRequires ∧
        lifecycle.calculateOptionalFalseParameters componentName params optionalRequires ≠ []) ∧
      (∀ (before after : GoMap (List String)) (optionalForList : List String),
        (∀ o ∈ optionalForList, o = componentName → o = "*") →
        lifecycle.calculateOptionalFalseParameters componentName params
            (before ++ (term, optionalForList) :: after) =
          lifecycle.calculateOptionalFalseParameters componentName params (before ++ after)) ∧
      lifecycle.calculateOptionalFalseParameters componentName params [(term, ["*"])] = [] := by
  have hwild : ∀ (before after : GoMap (List String)) (optionalForList : List String),
      (∀ o ∈ optionalForList, o = componentName → o = "*") →
      lifecycle.calculateOptionalFalseParameters componentName params
          (before ++ (term, optionalForList) :: after) =
        lifecycle.calculateOptionalFalseParameters componentName params (before ++ after) := by
    intro before after l hw
    unfold lifecycle.calculateOptionalFalseParameters
    rw [falseParametersLoop_append, falseParametersLoop_append, lifecycle.falseParametersLoop,
      falseParametersOfList_wildcard componentName params term hmissing l _ hw]
    split <;> rfl
  refine ⟨?_, hwild, ?_⟩
  · intro optionalRequires l hentry hfor hstar
    have hm := falseParametersLoop_mem_explicit componentName params term l hdot hmissing hstar
      hfor optionalRequires [] hentry
    exact ⟨hm, List.ne_nil_of_mem hm⟩
  · have h := hwild [] [] ["*"] (by
      intro o ho _
      simpa using ho)
    simpa [lifecycle.calculateOptionalFalseParameters, lifecycle.falseParametersLoop] using h

/-- Instance of C23: the only parameter named `feature.on` is qualified for
component `c`, so for component `b` it is missing; `feature.on:b` puts the term
into the result for `b`, the wildcard entry `feature.on` does not. -/
theorem calculateOptionalFalseParameters_missing_parameter_witness :
    '.' ∈ "feature.on".toList ∧
      (lifecycle.calculateOptionalFalseParameters "b"
          [("feature.on|c", ({ Name := "feature.on", Component := "c", Value := "true" } :
            parameters.LockedParameter))]
          [("vault", ["*"]), ("feature.on", ["a", "b"])] = ["feature.on"] ∧
        "feature.on" ∈ lifecycle.calculateOptionalFalseParameters "b"
          [("feature.on|c", ({ Name := "feature.on", Component := "c", Value := "true" } :
            parameters.LockedParameter))]
          [("vault", ["*"]), ("feature.on", ["a", "b"])]) ∧
      lifecycle.calculateOptionalFalseParameters "b"
          [("feature.on|c", ({ Name := "feature.on", Component := "c", Value := "true" } :
            parameters.LockedParameter))]
          [("feature.on", ["*"])] = [] :=
  have h := calculateOptionalFalseParameters_missing_parameter "b"
    [("feature.on|c", ({ Name := "feature.on", Component := "c", Value := "true" } :
      parameters.LockedParameter))]
    "feature.on" (by decide) (by decide)
  ⟨by decide,
    ⟨by decide, (h.1 [("vault", ["*"]), ("feature.on", ["a", "b"])] ["a", "b"]
      (by decide) (by decide) (by decide)).1⟩, h.2.2⟩

theorem component_no_failed_dependency (env : lifecycle.Execute.Env)
    (run : lifecycle.Execute.ComponentRun) (s : lifecycle.Execute.LoopState)
    (hreach : ¬ (strings.HasPrefix env.request.Verb "deploy" = true ∧
      ∃ dependency ∈ run.component.Depends, dependency ∈ s.failedComponents)) :
    (strings.HasPrefix env.request.Verb "deploy" &&
      decide (run.component.Depends.length > 0) &&
      decide ((run.component.Depends.filter (fun dependency =>
        util.Contains s.failedComponents dependency)).length > 0)) = false := by
  rw [Bool.eq_false_iff]
  intro h
  simp only [Bool.and_eq_true, decide_eq_true_eq] at h
  obtain ⟨⟨hd, _⟩, hf⟩ := h
  obtain ⟨d, hmem⟩ := List.exists_mem_of_length_pos hf
  obtain ⟨h1, h2⟩ := List.mem_filter.1 hmem
  exact hreach ⟨hd, d, h1, (Contains_iff_mem _ _).1 h2⟩

/-- C24: the optional-parameter skip is decided before expansion errors are
handled.  For a component that reached parameter expansion (in a deploy none of
its dependencies has failed) and has an applicable parameter-like optional term
whose parameter evaluates to false, the loop body leaves the loop state as it
was, whatever the expansion errors are: nothing is added to `failedComponents`,
the failure policy is not applied, no state update is made and the component is
not handed to `delegate`.  Had no optional parameter been false, the same
expansion errors would have put the component under the failure policy. -/
theorem optional_skip_before_expansion_errors (env : lifecycle.Execute.Env)
    (componentIndex : Nat) (componentName : String) (run : lifecycle.Execute.ComponentRun)
    (s : lifecycle.Execute.LoopState)
    (hreach : ¬ (strings.HasPrefix env.request.Verb "deploy" = true ∧
      ∃ dependency ∈ run.component.Depends, dependency ∈ s.failedComponents))
    (hfalse : ∃ entry ∈ env.optionalRequires, '.' ∈ entry.1.toList ∧
      (componentName ∈ entry.2 ∨ "*" ∈ entry.2) ∧
      ∃ e ∈ run.allParameters, e.2.Name = entry.1 ∧
        (e.2.Component = "" ∨ e.2.Component = componentName) ∧
        e.2.Value ∈ lifecycle.falseParameterValues) :
    lifecycle.Execute.component env componentIndex componentName run s = s ∧
      (lifecycle.Execute.component env componentIndex componentName run s).failedComponents =
        s.failedComponents ∧
      (lifecycle.Execute.component env componentIndex componentName run s).failures =
        s.failures ∧
      (lifecycle.Execute.component env componentIndex componentName run s).stateCalls =
        s.stateCalls ∧
      (lifecycle.Execute.component env componentIndex componentName run s).delegated =
        s.delegated ∧
      (run.expansionErrs ≠ [] →
        ∃ msg, (lifecycle.Execute.component
            { env with optionalRequires := [] } componentIndex componentName run s).failures =
          s.failures ++ [(componentName, msg)]) := by
  have hc := component_no_failed_dependency env run s hreach
  have hne : lifecycle.calculateOptionalFalseParameters componentName run.allParameters
      env.optionalRequires ≠ [] := by
    rw [calculateOptionalFalseParameters_nonempty_iff]
    obtain ⟨entry, hentry, hdot, hfor, e, he, hn, hcomp, hv⟩ := hfalse
    rcases hfor with h | h
    · exact ⟨entry, hentry, hdot, componentName, h, Or.inr rfl, Or.inl ⟨e, he, ⟨hn, hcomp⟩, hv⟩⟩
    · exact ⟨entry, hentry, hdot, "*", h, Or.inl rfl, Or.inl ⟨e, he, ⟨hn, hcomp⟩, hv⟩⟩
  have hlen : (lifecycle.calculateOptionalFalseParameters componentName run.allParameters
      env.optionalRequires).length > 0 := List.length_pos.2 hne
  have hskip : lifecycle.Execute.component env componentIndex componentName run s = s := by
    unfold lifecycle.Execute.component
    simp only [hc, Bool.false_eq_true, if_false]
    rw [if_pos hlen]
  refine ⟨hskip, by rw [hskip], by rw [hskip], by rw [hskip], by rw [hskip], ?_⟩
  intro herr
  have hlen2 : run.expansionErrs.length > 0 := List.length_pos.2 herr
  refine ⟨"Component `" ++ componentName ++ "` parameters expansion failed:\n\t" ++
    util.Errors "\n\t" (run.expansionErrs.map some), ?_⟩
  have hc2 := component_no_failed_dependency { env with optionalRequires := [] } run s hreach
  have hstep : lifecycle.Execute.component { env with optionalRequires := [] } componentIndex
      componentName run s =
      lifecycle.Execute.recordFailed componentName
        (lifecycle.Execute.failComponent { env with optionalRequires := [] } componentName
          ("Component `" ++ componentName ++ "` parameters expansion failed:\n\t" ++
            util.Errors "\n\t" (run.expansionErrs.map some)) s) := by
    unfold lifecycle.Execute.component
    simp only [hc2, Bool.false_eq_true, if_false]
    have h0 : ¬ (lifecycle.calculateOptionalFalseParameters componentName run.allParameters
        []).length > 0 := by
      simp [lifecycle.calculateOptionalFalseParameters, lifecycle.falseParametersLoop]
    rw [if_neg h0, if_pos hlen2]
  rw [hstep, (recordFailed_fields _ _).2.2.1, (failComponent_fields _ _ _ _).2.2.2]

/-- Instance of C24: in a deploy with a state file the optional component `b`
has an expansion error and the optional entry `feature.on:b`, with
`feature.on = "false"`; it is passed over and the loop state stays as it was. -/
theorem optional_skip_before_expansion_errors_witness :
    lifecycle.Execute.component
        { ext := { ComponentQualifiedNameFromMeta := fun m => m.Name,
                   SprintDeps := fun _ => "" }
          Force := false
          request := { Verb := "deploy" }
          Lifecycle := { Order := ["a", "b", "c"], Optional := ["b"] }
          optionalRequires := [("feature.on", ["b"])]
          hasState := true
          operationLogId := "op"
          orderLength := 3
          mergeProvides := fun provides _ _ => provides
          formatStdoutStderr := fun _ _ => "" }
        1 "b"
        { component := { Name := "b", Depends := ["a"] }
          allParameters := [("feature.on", { Name := "feature.on", Value := "false" })]
          expansionErrs := ["parameter `dns.domain` is not resolved"] }
        { delegated := ["a"] } = { delegated := ["a"] } ∧
      (lifecycle.Execute.component
        { ext := { ComponentQualifiedNameFromMeta := fun m => m.Name,
                   SprintDeps := fun _ => "" }
          Force := false
          request := { Verb := "deploy" }
          Lifecycle := { Order := ["a", "b", "c"], Optional := ["b"] }
          optionalRequires := [("feature.on", ["b"])]
          hasState := true
          operationLogId := "op"
          orderLength := 3
          mergeProvides := fun provides _ _ => provides
          formatStdoutStderr := fun _ _ => "" }
        1 "b"
        { component := { Name := "b", Depends := ["a"] }
          allParameters := [("feature.on", { Name := "feature.on", Value := "false" })]
          expansionErrs := ["parameter `dns.domain` is not resolved"] }
        { delegated := ["a"] }).failures = [] ∧
      (lifecycle.Execute.component
        { ext := { ComponentQualifiedNameFromMeta := fun m => m.Name,
                   SprintDeps := fun _ => "" }
          Force := false
          request := { Verb := "deploy" }
          Lifecycle := { Order := ["a", "b", "c"], Optional := ["b"] }
          optionalRequires := [("feature.on", ["b"])]
          hasState := true
          operationLogId := "op"
          orderLength := 3
          mergeProvides := fun provides _ _ => provides
          formatStdoutStderr := fun _ _ => "" }
        1 "b"
        { component := { Name := "b", Depends := ["a"] }
          allParameters := [("feature.on", { Name := "feature.on", Value := "false" })]
          expansionErrs := ["parameter `dns.domain` is not resolved"] }
        { delegated := ["a"] }).stateCalls = [] := by
  have h := optional_skip_before_expansion_errors
        { ext := { ComponentQualifiedNameFromMeta := fun m => m.Name,
                   SprintDeps := fun _ => "" }
          Force := false
          request := { Verb := "deploy" }
          Lifecycle := { Order := ["a", "b", "c"], Optional := ["b"] }
          optionalRequires := [("feature.on", ["b"])]
          hasState := true
          operationLogId := "op"
          orderLength := 3
          mergeProvides := fun provides _ _ => provides
          formatStdoutStderr := fun _ _ => "" }
        1 "b"
        { component := { Name := "b", Depends := ["a"] }
          allParameters := [("feature.on", { Name := "feature.on", Value := "false" })]
          expansionErrs := ["parameter `dns.domain` is not resolved"] }
        { delegated := ["a"] }
    (by decide)
    ⟨("feature.on", ["b"]), by decide, by decide, by decide,
      ("feature.on", { Name := "feature.on", Value := "false" }), by decide, rfl, Or.inl rfl,
      by decide⟩
  exact ⟨h.1, h.2.2.1, h.2.2.2.1⟩

theorem drop_indexOf_colon (l : List Char) :
    (l.dropWhile (fun c => decide (c ≠ ':'))).drop 1 = l.drop (l.indexOf ':' + 1) := by
  induction l with
  | nil => rfl
  | cons a rest ih =>
    by_cases h : a = ':'
    · simp [h, List.indexOf_cons_eq, List.dropWhile_cons]
    · rw [List.indexOf_cons_ne _ h, List.drop_succ_cons, ← ih, List.dropWhile_cons]
      simp [h]

theorem AppendMapList_get (m : GoMap (List String)) (key value k : String) :
    (util.AppendMapList m key value).get k =
      if key = k then some ((m.get k).getD [] ++ [value]) else m.get k := by
  unfold util.AppendMapList
  by_cases h : key = k
  · subst h
    rw [if_pos rfl]
    cases hg : m.get key with
    | none => simp [GoMap_get_set_self]
    | some list => simp [GoMap_get_set_self]
  · rw [if_neg h]
    cases hg : m.get key with
    | none => simp only []; rw [GoMap_get_set_ne m key k _ h]
    | some list => simp only []; rw [GoMap_get_set_ne m key k _ h]

theorem parseRequiresTunning_step (optional : GoMap (List String)) (req : String) :
    (if strings.Index req ':' > 0 ∧ strings.Index req ':' < (req.length : Int) - 1 then
        util.AppendMapList optional (strings.sliceTo req (strings.Index req ':').toNat)
          (strings.sliceFrom req ((strings.Index req ':').toNat + 1))
      else if strings.Index req ':' = -1 then util.AppendMapList optional req "*"
      else optional) =
      match lifecycle.specOptionalEntry req with
      | some entry => util.AppendMapList optional entry.1 entry.2
      | none => optional := by
  obtain ⟨l⟩ := req
  unfold lifecycle.specOptionalEntry strings.Index strings.sliceTo strings.sliceFrom
  show (if (if ':' ∈ l then (l.indexOf ':' : Int) else -1) > 0 ∧
        (if ':' ∈ l then (l.indexOf ':' : Int) else -1) < (l.length : Int) - 1 then
        util.AppendMapList optional
          (String.mk (l.take (if ':' ∈ l then (l.indexOf ':' : Int) else -1).toNat))
          (String.mk (l.drop ((if ':' ∈ l then (l.indexOf ':' : Int) else -1).toNat + 1)))
      else if (if ':' ∈ l then (l.indexOf ':' : Int) else -1) = -1 then
        util.AppendMapList optional ⟨l⟩ "*"
      else optional) =
      match (if ':' ∈ l then
          if l.takeWhile (fun c => decide (c ≠ ':')) ≠ [] ∧
              (l.dropWhile (fun c => decide (c ≠ ':'))).drop 1 ≠ [] then
            some (String.mk (l.takeWhile (fun c => decide (c ≠ ':'))),
              String.mk ((l.dropWhile (fun c => decide (c ≠ ':'))).drop 1))
          else none
        else some (⟨l⟩, "*")) with
      | some entry => util.AppendMapList optional entry.1 entry.2
      | none => optional
  by_cases hmem : ':' ∈ l
  · simp only [hmem, if_true]
    rw [← take_indexOf_colon, drop_indexOf_colon, Int.toNat_ofNat]
    have hlt : l.indexOf ':' < l.length := List.indexOf_lt_length.2 hmem
    by_cases hc : (l.indexOf ':' : Int) > 0 ∧ (l.indexOf ':' : Int) < (l.length : Int) - 1
    · have h1 : l.take (l.indexOf ':') ≠ [] := by
        intro h
        have := congrArg List.length h
        rw [List.length_take, List.length_nil] at this
        omega
      have h2 : l.drop (l.indexOf ':' + 1) ≠ [] := by
        intro h
        have := congrArg List.length h
        rw [List.length_drop, List.length_nil] at this
        omega
      rw [if_pos hc, if_pos ⟨h1, h2⟩]
    · have h12 : ¬ (l.take (l.indexOf ':') ≠ [] ∧ l.drop (l.indexOf ':' + 1) ≠ []) := by
        rintro ⟨h1, h2⟩
        apply hc
        have a1 : 0 < (l.take (l.indexOf ':')).length := List.length_pos.2 h1
        have a2 : 0 < (l.drop (l.indexOf ':' + 1)).length := List.length_pos.2 h2
        rw [List.length_take] at a1
        rw [List.length_drop] at a2
        constructor <;> omega
      have hneg : ¬ (l.indexOf ':' : Int) = -1 := by omega
      rw [if_neg hc, if_neg hneg, if_neg h12]
  · simp [hmem]

theorem parseRequiresTunning_fold (key : String) (entries : List String) :
    ∀ optional : GoMap (List String),
      (entries.foldl
        (fun optional req =>
          let i := strings.Index req ':'
          if i > 0 ∧ i < (req.length : Int) - 1 then
            let component := strings.sliceFrom req (i.toNat + 1)
            let req := strings.sliceTo req i.toNat
            util.AppendMapList optional req component
          else if i = -1 then
            util.AppendMapList optional req "*"
          else optional) optional).get key =
        if ((entries.filterMap lifecycle.specOptionalEntry).filter
            (fun entry => decide (entry.1 = key))).map (fun entry => entry.2) = [] then
          optional.get key
        else some ((optional.get key).getD [] ++
          ((entries.filterMap lifecycle.specOptionalEntry).filter
            (fun entry => decide (entry.1 = key))).map (fun entry => entry.2)) := by
  induction entries with
  | nil => intro optional; rfl
  | cons req rest ih =>
    intro optional
    rw [List.foldl_cons]
    simp only []
    rw [parseRequiresTunning_step optional req, ih]
    cases he : lifecycle.specOptionalEntry req with
    | none => simp only [List.filterMap_cons, he]
    | some entry =>
      obtain ⟨k, v⟩ := entry
      simp only [List.filterMap_cons, he, AppendMapList_get, List.filter_cons]
      by_cases hk : k = key
      · simp only [hk, if_true, decide_True, List.map_cons, Option.getD_some]
        simp
      · simp only [hk, if_false, decide_False, Bool.false_eq_true]

/-- C21, as the code has it: `parseRequiresTunning` reads the entries of
`requires.optional` in order.  An entry `req:component`, split at the first `:`
with both parts non-empty, adds `component` to the list for `req`; an entry
without `:` adds the wildcard `*` to the list for the whole entry; an entry
whose first `:` is its first or its last character adds nothing.  For every key
the list of the result holds, in entry order, what the entries with a reading
for that key add, and a key for which no entry adds anything is absent. -/
theorem parseRequiresTunning_spec (requires : manifest.RequiresTuning) (key : String) :
    (lifecycle.parseRequiresTunning requires).get key =
      if ((requires.Optional.filterMap lifecycle.specOptionalEntry).filter
          (fun entry => decide (entry.1 = key))).map (fun entry => entry.2) = [] then none
      else some (((requires.Optional.filterMap lifecycle.specOptionalEntry).filter
          (fun entry => decide (entry.1 = key))).map (fun entry => entry.2)) := by
  unfold lifecycle.parseRequiresTunning
  rw [parseRequiresTunning_fold]
  simp [GoMap.get]

/-- C21 fails as stated: the entries `:b` and `vault:` have a `:` but an empty
part, and `parseRequiresTunning` drops them; they contribute nothing to the
result. -/
theorem parseRequiresTunning_drops_entry :
    lifecycle.parseRequiresTunning { Optional := [":b"] } = [] ∧
      lifecycle.parseRequiresTunning { Optional := ["vault:", "feature.on:b", ":b", "etcd"] } =
        [("feature.on", ["b"]), ("etcd", ["*"])] := by
  decide

theorem importKubernetes_native_error (flags : cmd.Flags) (kind name : String) :
    (∃ e, cmd.importKubernetes.native flags kind name = .error e) ↔
      ((kind = "k8s-aws" ∧ flags.k8sEndpoint = "") ∨
        ((kind = "metal" ∨ kind = "hybrid") ∧ flags.metalEndpoint = "") ∨
        (kind = "openshift" ∧ flags.bearerToken = "") ∨
        (kind = "eks" ∧ flags.eksClusterName = "" ∧ '.' ∈ name.toList) ∨
        (kind = "gke" ∧ flags.gkeClusterName = "" ∧ '.' ∈ name.toList) ∨
        (kind = "aks" ∧ flags.aksClusterName = "" ∧ '.' ∈ name.toList)) := by
  unfold cmd.importKubernetes.native
  split
  · by_cases h : flags.k8sEndpoint = "" <;> simp [h]
  · by_cases h : flags.metalEndpoint = "" <;> simp [h]
  · by_cases h : flags.metalEndpoint = "" <;> simp [h]
  · by_cases h : flags.bearerToken = "" <;> simp [h]
  · by_cases h : flags.eksClusterName = "" <;>
      by_cases hd : '.' ∈ name.data <;> simp [h, hd, strings.Contains]
  · by_cases h : flags.gkeClusterName = "" <;>
      by_cases hd : '.' ∈ name.data <;> simp [h, hd, strings.Contains]
  · by_cases h : flags.aksClusterName = "" <;>
      by_cases hd : '.' ∈ name.data <;> simp [h, hd, strings.Contains]
  · simp_all

theorem maybeValidHostname_iff (name : String) :
    cmd.maybeValidHostname name = true ↔
      (name ≠ "" ∧ ∀ c ∈ name.toList,
        ('0' ≤ c ∧ c ≤ '9') ∨ ('a' ≤ c ∧ c ≤ 'z') ∨ c = '.' ∨ c = '-') := by
  obtain ⟨l⟩ := name
  have hne : (⟨l⟩ : String) ≠ "" ↔ l ≠ [] := by
    constructor
    · intro h e
      subst e
      exact h rfl
    · intro h e
      exact h (congrArg String.data e)
  rw [hne]
  unfold cmd.maybeValidHostname
  show (!l.isEmpty && l.all _) = true ↔ _
  simp only [Bool.and_eq_true, Bool.not_eq_true', List.isEmpty_eq_false, List.all_eq_true,
    Bool.or_eq_true, decide_eq_true_eq, or_assoc]
  rfl

theorem importKubernetes_two_args (ToLower : String → String) (flags : cmd.Flags)
    (kind arg : String) :
    ((cmd.importKubernetes ToLower flags [kind, arg]).err ≠ none ↔
      (kind ∉ cmd.knownImportKinds ∨
        (∃ e, cmd.importKubernetes.native flags kind (ToLower arg) = .error e) ∨
        cmd.maybeValidHostname (ToLower arg) = false ∨
        flags.environmentSelector = "")) ∧
      ((cmd.importKubernetes ToLower flags [kind, arg]).err ≠ none ↔
        (cmd.importKubernetes ToLower flags [kind, arg]).call = none) := by
  unfold cmd.importKubernetes
  simp only [List.length_cons, List.length_nil, List.getD_cons_zero, List.getD_cons_succ,
    ne_eq, not_true_eq_false, if_false, Nat.reduceAdd]
  by_cases hk : util.Contains cmd.knownImportKinds kind = true
  · have hk' : kind ∈ cmd.knownImportKinds := (Contains_iff_mem _ _).1 hk
    simp only [hk, Bool.not_true, Bool.false_eq_true, if_false, hk', not_true_eq_false,
      false_or]
    cases hn : cmd.importKubernetes.native flags kind (ToLower arg) with
    | error e => simp
    | ok r =>
      obtain ⟨nativeEndpoint, nativeClusterName⟩ := r
      simp only [exists_false, false_or]
      by_cases hv : cmd.maybeValidHostname (ToLower arg) = true
      · by_cases he : flags.environmentSelector = ""
        · simp [hv, he]
        · simp [hv, he]
      · simp [hv]
  · have hk' : kind ∉ cmd.knownImportKinds := fun h => hk ((Contains_iff_mem _ _).2 h)
    simp [hk, hk']

/-- C22: `importKubernetes` returns an error exactly when the argument count is
not 2; or the kind is not one of `k8s-aws`, `eks`, `gke`, `aks`, `metal`,
`hybrid`, `openshift`; or the mandatory flag of the kind is empty (`k8sEndpoint`
for `k8s-aws`, `metalEndpoint` for `metal` and `hybrid`, `bearerToken` for
`openshift`); or for `eks`, `gke`, `aks` the cluster name flag of the kind is
empty and the lower-cased name contains `.`; or the lower-cased name is empty or
has a character outside `0`-`9`, `a`-`z`, `.`, `-`; or the environment selector
is empty.  It returns an error exactly when it does not call
`api.ImportKubernetes`. -/
theorem importKubernetes_error_iff (ToLower : String → String) (flags : cmd.Flags)
    (args : List String) :
    ((cmd.importKubernetes ToLower flags args).err ≠ none ↔
      (args.length ≠ 2 ∨
        ∃ kind arg, args = [kind, arg] ∧
          (kind ∉ ["k8s-aws", "eks", "gke", "aks", "metal", "hybrid", "openshift"] ∨
            (kind = "k8s-aws" ∧ flags.k8sEndpoint = "") ∨
            ((kind = "metal" ∨ kind = "hybrid") ∧ flags.metalEndpoint = "") ∨
            (kind = "openshift" ∧ flags.bearerToken = "") ∨
            (kind = "eks" ∧ flags.eksClusterName = "" ∧ '.' ∈ (ToLower arg).toList) ∨
            (kind = "gke" ∧ flags.gkeClusterName = "" ∧ '.' ∈ (ToLower arg).toList) ∨
            (kind = "aks" ∧ flags.aksClusterName = "" ∧ '.' ∈ (ToLower arg).toList) ∨
            ¬ (ToLower arg ≠ "" ∧ ∀ c ∈ (ToLower arg).toList,
              ('0' ≤ c ∧ c ≤ '9') ∨ ('a' ≤ c ∧ c ≤ 'z') ∨ c = '.' ∨ c = '-') ∨
            flags.environmentSelector = ""))) ∧
      ((cmd.importKubernetes ToLower flags args).err ≠ none ↔
        (cmd.importKubernetes ToLower flags args).call = none) := by
  by_cases hlen : args.length = 2
  · obtain ⟨kind, arg, rfl⟩ := List.length_eq_two.1 hlen
    obtain ⟨h1, h2⟩ := importKubernetes_two_args ToLower flags kind arg
    refine ⟨?_, h2⟩
    have hv : ∀ name : String, cmd.maybeValidHostname name = false ↔
        ¬ (name ≠ "" ∧ ∀ c ∈ name.toList,
          ('0' ≤ c ∧ c ≤ '9') ∨ ('a' ≤ c ∧ c ≤ 'z') ∨ c = '.' ∨ c = '-') := by
      intro name
      rw [← maybeValidHostname_iff, Bool.not_eq_true]
    rw [h1, importKubernetes_native_error, hv]
    constructor
    · intro h
      refine Or.inr ⟨kind, arg, rfl, ?_⟩
      simpa only [or_assoc, cmd.knownImportKinds] using h
    · rintro (h | ⟨k, a, heq, h⟩)
      · exact absurd hlen h
      · obtain ⟨rfl, rfl⟩ : kind = k ∧ arg = a := by
          simpa using heq
        simpa only [or_assoc, cmd.knownImportKinds] using h
  · have herr : (cmd.importKubernetes ToLower flags args).err ≠ none ∧
        (cmd.importKubernetes ToLower flags args).call = none := by
      unfold cmd.importKubernetes
      rw [if_pos hlen]
      exact ⟨by simp, rfl⟩
    exact ⟨⟨fun _ => Or.inl hlen, fun _ => herr.1⟩, ⟨fun _ => herr.2, fun _ => herr.1⟩⟩

theorem isPrefixOf_split (a : List Char) :
    ∀ b : List Char, a.isPrefixOf b = true ↔ ∃ t, b = a ++ t := by
  induction a with
  | nil => intro b; simp
  | cons x rest ih =>
    intro b
    cases b with
    | nil => simp
    | cons y tail =>
      simp only [List.isPrefixOf, Bool.and_eq_true, beq_iff_eq, ih, List.cons_append,
        List.cons.injEq]
      constructor
      · rintro ⟨rfl, t, rfl⟩
        exact ⟨t, rfl, rfl⟩
      · rintro ⟨t, rfl, rfl⟩
        exact ⟨rfl, t, rfl⟩

theorem IndexString_loop_cases (substr : List Char) (l : List Char) :
    ∀ i : Nat, strings.IndexString.loop substr l i = -1 ∨
      ∃ k : Nat, strings.IndexString.loop substr l i = ((i + k : Nat) : Int) ∧
        k + substr.length ≤ l.length := by
  induction l with
  | nil =>
    intro i
    by_cases h : substr = []
    · right
      exact ⟨0, by simp [strings.IndexString.loop, h], by simp [h]⟩
    · left
      simp [strings.IndexString.loop, h]
  | cons c rest ih =>
    intro i
    rw [strings.IndexString.loop]
    by_cases h : substr.isPrefixOf (c :: rest) = true
    · right
      rw [if_pos h]
      obtain ⟨t, ht⟩ := (isPrefixOf_split substr (c :: rest)).1 h
      refine ⟨0, rfl, ?_⟩
      rw [ht, List.length_append]
      omega
    · rw [if_neg h]
      rcases ih (i + 1) with h1 | ⟨k, hk, hlen⟩
      · exact Or.inl h1
      · right
        refine ⟨k + 1, ?_, ?_⟩
        · rw [hk]
          congr 1
          omega
        · rw [List.length_cons]
          omega

theorem IndexString_loop_none (substr : List Char) (l : List Char) :
    ∀ i : Nat, strings.IndexString.loop substr l i = -1 ↔
      ¬ ∃ before after : List Char, l = before ++ substr ++ after := by
  induction l with
  | nil =>
    intro i
    by_cases h : substr = []
    · subst h
      simp only [strings.IndexString.loop, if_true]
      constructor
      · intro h1
        omega
      · intro h1
        exact absurd ⟨[], [], rfl⟩ h1
    · simp only [strings.IndexString.loop, h, if_false, true_iff]
      rintro ⟨before, after, heq⟩
      have := congrArg List.length heq
      simp only [List.length_nil, List.length_append] at this
      exact h (List.length_eq_zero.1 (by omega))
  | cons c rest ih =>
    intro i
    rw [strings.IndexString.loop]
    by_cases h : substr.isPrefixOf (c :: rest) = true
    · rw [if_pos h]
      obtain ⟨t, ht⟩ := (isPrefixOf_split substr (c :: rest)).1 h
      constructor
      · intro h1
        omega
      · intro h1
        exact absurd ⟨[], t, by rw [ht]; rfl⟩ h1
    · rw [if_neg h, ih]
      constructor
      · rintro hno ⟨before, after, heq⟩
        cases before with
        | nil =>
          apply h
          exact (isPrefixOf_split substr (c :: rest)).2 ⟨after, by rw [heq]; rfl⟩
        | cons b before =>
          apply hno
          refine ⟨before, after, ?_⟩
          simp only [List.cons_append, List.cons.injEq] at heq
          exact heq.2
      · rintro hno ⟨before, after, heq⟩
        exact hno ⟨c :: before, after, by rw [heq]; rfl⟩

theorem ContainsString_iff (s substr : String) :
    strings.ContainsString s substr = true ↔
      ∃ before after : List Char, s.toList = before ++ substr.toList ++ after := by
  unfold strings.ContainsString strings.IndexString
  rw [decide_eq_true_iff]
  have hn := IndexString_loop_none substr.toList s.toList 0
  rcases IndexString_loop_cases substr.toList s.toList 0 with h | ⟨k, hk, _⟩
  · rw [h]
    constructor
    · intro h1
      exact absurd h1 (by decide)
    · intro h1
      exact absurd h1 (hn.1 h)
  · constructor
    · intro _
      by_contra hno
      have := hn.2 hno
      omega
    · intro _
      rw [hk]
      omega

theorem strings_Index_cases (s : String) (sep : Char) :
    strings.Index s sep = -1 ∨
      ∃ j : Nat, strings.Index s sep = (j : Int) ∧ j < s.length := by
  unfold strings.Index
  by_cases h : sep ∈ s.toList
  · right
    rw [if_pos h]
    exact ⟨s.toList.indexOf sep, rfl, List.indexOf_lt_length.2 h⟩
  · left
    rw [if_neg h]

theorem TrimColor_step_length (str : String)
    (h : strings.ContainsString str "\x1B[" = true) :
    (util.TrimColor.step str).length < str.length := by
  have hcolors : ("\x1B[" : String).length = 2 := rfl
  have hge : strings.IndexString str "\x1B[" ≥ 0 := by
    simpa [strings.ContainsString] using h
  obtain ⟨k, hk, hlen⟩ : ∃ k : Nat, strings.IndexString str "\x1B[" = (k : Int) ∧
      k + 2 ≤ str.length := by
    rcases IndexString_loop_cases "\x1B[".toList str.toList 0 with h1 | ⟨k, hk, hl⟩
    · unfold strings.IndexString at hge
      rw [h1] at hge
      exact absurd hge (by decide)
    · refine ⟨k, ?_, hl⟩
      unfold strings.IndexString
      rw [hk, Nat.zero_add]
  have hfrom : ∀ n : Nat, (strings.sliceFrom str n).length = str.length - n := by
    intro n
    show (str.toList.drop n).length = str.toList.length - n
    rw [List.length_drop]
  have hto : ∀ n : Nat, (strings.sliceTo str n).length = min n str.length := by
    intro n
    show (str.toList.take n).length = min n str.toList.length
    rw [List.length_take]
  unfold util.TrimColor.step
  simp only [hk, hcolors, Int.toNat_ofNat]
  rcases strings_Index_cases (strings.sliceFrom str (k + 1)) 'm' with h1 | ⟨j, hj, hjlen⟩
  · rw [h1]
    simp only [ne_eq, not_true_eq_false, if_false]
    have hlt : (k : Int) + ((2 : Nat) : Int) - 1 < (str.length : Int) := by omega
    have htn : ((k : Int) + ((2 : Nat) : Int) - 1).toNat = k + 1 := by omega
    rw [if_pos hlt, htn, String.length_append, hto, hfrom]
    omega
  · rw [hj]
    rw [hfrom] at hjlen
    have hne : ((j : Int) ≠ -1) := by omega
    have hlt : (j : Int) + ((k : Int) + 1) < (str.length : Int) := by omega
    have htn : ((j : Int) + ((k : Int) + 1)).toNat = j + k + 1 := by omega
    rw [if_pos hne, if_pos hlt, htn, String.length_append, hto, hfrom]
    omega

theorem TrimColor_total (n : Nat) :
    ∀ str : String, str.length ≤ n →
      ∃ r : String, (∀ fuel : Nat, str.length < fuel → util.TrimColor fuel str = some r) ∧
        strings.ContainsString r "\x1B[" = false ∧
        (strings.ContainsString str "\x1B[" = false → r = str) := by
  induction n with
  | zero =>
    intro str hlen
    have hc : strings.ContainsString str "\x1B[" = false := by
      rw [Bool.eq_false_iff]
      intro h
      have := TrimColor_step_length str h
      omega
    refine ⟨str, ?_, hc, fun _ => rfl⟩
    intro fuel hfuel
    obtain ⟨f, rfl⟩ : ∃ f, fuel = f + 1 := ⟨fuel - 1, by omega⟩
    rw [util.TrimColor, hc]
    rfl
  | succ n ih =>
    intro str hlen
    by_cases hc : strings.ContainsString str "\x1B[" = true
    · have hstep := TrimColor_step_length str hc
      obtain ⟨r, hr, hno, _⟩ := ih (util.TrimColor.step str) (by omega)
      refine ⟨r, ?_, hno, ?_⟩
      · intro fuel hfuel
        obtain ⟨f, rfl⟩ : ∃ f, fuel = f + 1 := ⟨fuel - 1, by omega⟩
        rw [util.TrimColor, if_pos hc]
        exact hr f (by omega)
      · intro h
        rw [hc] at h
        exact absurd h (by decide)
    · have hc' : strings.ContainsString str "\x1B[" = false := by
        simpa using hc
      refine ⟨str, ?_, hc', fun _ => rfl⟩
      intro fuel hfuel
      obtain ⟨f, rfl⟩ : ∃ f, fuel = f + 1 := ⟨fuel - 1, by omega⟩
      rw [util.TrimColor, hc']
      rfl

/-- C27: `util.TrimColor` terminates on every input.  An iteration of its loop
on a string that contains the escape prefix ESC `[` gives a strictly shorter
string, so for every string there is a result that the loop returns whenever it
is allowed more tests of its condition than the string has characters.  The
result contains no occurrence of ESC `[`, and a string without that prefix is
returned unchanged. -/
theorem TrimColor_terminates (str : String) :
    ((∃ before after : List Char, str.toList = before ++ "\x1B[".toList ++ after) →
        (util.TrimColor.step str).length < str.length) ∧
      ∃ r : String,
        (∀ fuel : Nat, str.length < fuel → util.TrimColor fuel str = some r) ∧
        (¬ ∃ before after : List Char, r.toList = before ++ "\x1B[".toList ++ after) ∧
        ((¬ ∃ before after : List Char, str.toList = before ++ "\x1B[".toList ++ after) →
          r = str) := by
  refine ⟨fun h => TrimColor_step_length str ((ContainsString_iff _ _).2 h), ?_⟩
  obtain ⟨r, hr, hno, hsame⟩ := TrimColor_total str.length str (Nat.le_refl _)
  refine ⟨r, hr, ?_, ?_⟩
  · intro h
    rw [(ContainsString_iff _ _).2 h] at hno
    exact absurd hno (by decide)
  · intro h
    apply hsame
    rw [Bool.eq_false_iff]
    exact fun hc => h ((ContainsString_iff _ _).1 hc)

/-- Instance of C27: a string with two colour sequences; the first iteration
removes the first sequence, and the loop ends with `ok`. -/
theorem TrimColor_terminates_witness :
    (∃ before after : List Char,
        "\x1B[32mok\x1B[0m".toList = before ++ "\x1B[".toList ++ after) ∧
      (util.TrimColor.step "\x1B[32mok\x1B[0m").length < "\x1B[32mok\x1B[0m".length ∧
      util.TrimColor.step "\x1B[32mok\x1B[0m" = "ok\x1B[0m" ∧
      util.TrimColor 12 "\x1B[32mok\x1B[0m" = some "ok" :=
  ⟨⟨[], "32mok\x1B[0m".toList, by decide⟩,
    (TrimColor_terminates "\x1B[32mok\x1B[0m").1 ⟨[], "32mok\x1B[0m".toList, by decide⟩,
    by decide, by decide⟩

/-- Instance of C25: the entry for `dns.domain` has an empty value and the env
name `DOMAIN`; the value is filled in, the env name is kept, and the entry for
`dns.name` stays as it was. -/
theorem addLockedParameter_frame_witness :
    (¬ ∃ p, GoMap.get
        [("dns.domain", ({ Name := "dns.domain", Env := "DOMAIN" } : parameters.LockedParameter)),
          ("dns.name", { Name := "dns.name", Value := "dev" })] "dns.domain" = some p ∧
        p.Value ≠ "") ∧
      (lifecycle.addLockedParameter
        [("dns.domain", ({ Name := "dns.domain", Env := "DOMAIN" } : parameters.LockedParameter)),
          ("dns.name", { Name := "dns.name", Value := "dev" })]
        "dns.domain" "HUB_DOMAIN" "example.com").get "dns.domain" =
          some { Name := "dns.domain", Value := "example.com", Env := "DOMAIN" } ∧
      (lifecycle.addLockedParameter
        [("dns.domain", ({ Name := "dns.domain", Env := "DOMAIN" } : parameters.LockedParameter)),
          ("dns.name", { Name := "dns.name", Value := "dev" })]
        "dns.domain" "HUB_DOMAIN" "example.com").get "dns.name" =
          some { Name := "dns.name", Value := "dev" } := by
  have hno : ¬ ∃ p, GoMap.get
      [("dns.domain", ({ Name := "dns.domain", Env := "DOMAIN" } : parameters.LockedParameter)),
        ("dns.name", { Name := "dns.name", Value := "dev" })] "dns.domain" = some p ∧
      p.Value ≠ "" := by
    rintro ⟨p, hp, hv⟩
    have hp' : p = { Name := "dns.domain", Env := "DOMAIN" } := by
      have h0 : GoMap.get
          [("dns.domain", ({ Name := "dns.domain", Env := "DOMAIN" } :
            parameters.LockedParameter)),
            ("dns.name", { Name := "dns.name", Value := "dev" })] "dns.domain" =
          some { Name := "dns.domain", Env := "DOMAIN" } := by decide
      rw [h0] at hp
      exact (Option.some.inj hp).symm
    rw [hp'] at hv
    exact hv rfl
  have h := addLockedParameter_frame
    [("dns.domain", ({ Name := "dns.domain", Env := "DOMAIN" } : parameters.LockedParameter)),
      ("dns.name", { Name := "dns.name", Value := "dev" })]
    "dns.domain" "HUB_DOMAIN" "example.com"
  exact ⟨hno, h.2.1 hno, h.2.2 "dns.name" (by decide)⟩

end Hub
